import Mathlib

/-
Verification development for the fmath expression language
(lexer, parser, bytecode compiler, stack VM, tree-walking evaluator).

Numbers: the Rust code computes on `f64`.  We model float values as an
inductive type over exact rationals extended with the two infinities and
NaN, with IEEE-754 sign/special-case rules on the arithmetic operations.
Finite `f64` values are a subset of the rationals; the model computes
exactly where the hardware would round, which is faithful on all the
small inputs used below.  Transcendental functions (sin, exp, ln, powf,
...) are taken as parameters (`FloatOps`), since their values live in the
Rust standard library, not in this repository; every theorem holds for
any interpretation of them.  The process-level random source is likewise
a parameter (`RandSrc`) threaded through execution as a draw counter.
-/

namespace FMath

/-- Model of an `f64` value: an exact rational, +infinity, -infinity, or NaN. -/
inductive FVal where
  | fin (q : ℚ)
  | inf
  | ninf
  | nan
deriving DecidableEq, Repr

instance {ε α : Type} [DecidableEq ε] [DecidableEq α] : DecidableEq (Except ε α) :=
  fun a b =>
    match a, b with
    | .ok x, .ok y => decidable_of_iff (x = y) (by simp)
    | .error x, .error y => decidable_of_iff (x = y) (by simp)
    | .ok _, .error _ => isFalse (by simp)
    | .error _, .ok _ => isFalse (by simp)

namespace FVal

/-- IEEE addition on the model (`l + r` in the Rust code). -/
def fadd : FVal → FVal → FVal
  | nan, _ => nan
  | _, nan => nan
  | inf, ninf => nan
  | ninf, inf => nan
  | inf, _ => inf
  | _, inf => inf
  | ninf, _ => ninf
  | _, ninf => ninf
  | fin a, fin b => fin (a + b)

/-- IEEE subtraction on the model (`l - r` in the Rust code). -/
def fsub : FVal → FVal → FVal
  | nan, _ => nan
  | _, nan => nan
  | inf, inf => nan
  | ninf, ninf => nan
  | inf, _ => inf
  | _, inf => ninf
  | ninf, _ => ninf
  | _, ninf => inf
  | fin a, fin b => fin (a - b)

/-- IEEE multiplication on the model (`l * r` in the Rust code). -/
def fmul : FVal → FVal → FVal
  | nan, _ => nan
  | _, nan => nan
  | inf, fin b => if b = 0 then nan else if 0 < b then inf else ninf
  | ninf, fin b => if b = 0 then nan else if 0 < b then ninf else inf
  | fin a, inf => if a = 0 then nan else if 0 < a then inf else ninf
  | fin a, ninf => if a = 0 then nan else if 0 < a then ninf else inf
  | inf, inf => inf
  | inf, ninf => ninf
  | ninf, inf => ninf
  | ninf, ninf => inf
  | fin a, fin b => fin (a * b)

/-- IEEE division on the model (`l / r` in the Rust code).  The model's
zero is `+0`, so `1/0 = +inf` as in the spec's `1/0` example. -/
def fdiv : FVal → FVal → FVal
  | nan, _ => nan
  | _, nan => nan
  | inf, inf => nan
  | inf, ninf => nan
  | ninf, inf => nan
  | ninf, ninf => nan
  | inf, fin b => if 0 ≤ b then inf else ninf
  | ninf, fin b => if 0 ≤ b then ninf else inf
  | fin _, inf => fin 0
  | fin _, ninf => fin 0
  | fin a, fin b =>
      if b = 0 then (if a = 0 then nan else if 0 < a then inf else ninf)
      else fin (a / b)

/-- `f64::abs`. -/
def fabs : FVal → FVal
  | fin q => fin |q|
  | inf => inf
  | ninf => inf
  | nan => nan

/-- `f64::floor` (stays a float). -/
def ffloor : FVal → FVal
  | fin q => fin (⌊q⌋ : ℤ)
  | inf => inf
  | ninf => ninf
  | nan => nan

def i64Min : ℤ := -(2 ^ 63)
def i64Max : ℤ := 2 ^ 63 - 1

/-- Saturating cast of an integer into the `i64` range (`as i64` in Rust). -/
def satI64 (z : ℤ) : ℤ := max i64Min (min i64Max z)

/-- `x.ceil() as i64` in Rust: ceiling then saturating cast; NaN casts to 0. -/
def ceilI64 : FVal → ℤ
  | fin q => satI64 ⌈q⌉
  | inf => i64Max
  | ninf => i64Min
  | nan => 0

/-- `x.floor() as i64` in Rust: floor then saturating cast; NaN casts to 0. -/
def floorI64 : FVal → ℤ
  | fin q => satI64 ⌊q⌋
  | inf => i64Max
  | ninf => i64Min
  | nan => 0

/-- `x.floor() as u64` in Rust: floor then saturating cast to `u64`
(negative values and NaN go to 0). -/
def floorU64 (q : ℚ) : ℕ := min (2 ^ 64 - 1) ⌊q⌋.toNat

end FVal

/-- `fn factorial(x: f64) -> f64` from `interpreter.rs`: negative input
yields NaN, zero yields 1, otherwise the product `n * (n-1) * ... * 2`
with `n = x.floor() as u64` (so the NaN input falls through the two
comparisons, casts to 0, and leaves the accumulator at 1; the +infinity
input saturates the cast and the f64 accumulator overflows to +infinity). -/
def factorial : FVal → FVal
  | .fin q =>
      if q < 0 then .nan
      else if q = 0 then .fin 1
      else .fin (Nat.factorial (FVal.floorU64 q))
  | .ninf => .nan
  | .inf => .inf
  | .nan => .fin 1

/-- Interpretations of the Rust standard library's transcendental `f64`
functions used by the interpreter; every theorem below is proved for an
arbitrary interpretation. -/
structure FloatOps where
  fsin : FVal → FVal
  fcos : FVal → FVal
  ftan : FVal → FVal
  fsinh : FVal → FVal
  fcosh : FVal → FVal
  ftanh : FVal → FVal
  fasinh : FVal → FVal
  facosh : FVal → FVal
  fatanh : FVal → FVal
  fexp : FVal → FVal
  fln : FVal → FVal
  flog10 : FVal → FVal
  flog2 : FVal → FVal
  fsqrt : FVal → FVal
  fasin : FVal → FVal
  facos : FVal → FVal
  fatan : FVal → FVal
  fpowf : FVal → FVal → FVal
  /-- `b.log(a)` in `LogBase` (value `b`, base `a`). -/
  flog : FVal → FVal → FVal

/-- A trivial interpretation, used only to instantiate witnesses. -/
def trivOps : FloatOps where
  fsin := fun _ => .nan
  fcos := fun _ => .nan
  ftan := fun _ => .nan
  fsinh := fun _ => .nan
  fcosh := fun _ => .nan
  ftanh := fun _ => .nan
  fasinh := fun _ => .nan
  facosh := fun _ => .nan
  fatanh := fun _ => .nan
  fexp := fun _ => .nan
  fln := fun _ => .nan
  flog10 := fun _ => .nan
  flog2 := fun _ => .nan
  fsqrt := fun _ => .nan
  fasin := fun _ => .nan
  facos := fun _ => .nan
  fatan := fun _ => .nan
  fpowf := fun _ _ => .nan
  flog := fun _ _ => .nan

/-- Model of the process-level random source (`rand::rng()`): the `n`-th
float draw and the `n`-th integer draw from a range.  Execution threads a
draw counter through; Rust's thread-local RNG is one shared stream. -/
structure RandSrc where
  randF : ℕ → FVal
  randRange : ℤ → ℤ → ℕ → ℤ

/-- A trivial random source, used only to instantiate witnesses. -/
def trivRand : RandSrc where
  randF := fun _ => .fin 0
  randRange := fun lo _ _ => lo

/-- The variable environment: `HashMap<String, f64>` modelled as a
function to `Option` (the code only uses insert / get / remove). -/
def Env : Type := String → Option FVal

def Env.empty : Env := fun _ => none

/-- `vars.insert(k, v)` (ignoring the returned old value). -/
def Env.insert (e : Env) (k : String) (v : FVal) : Env :=
  fun k' => if k' = k then some v else e k'

/-- `vars.remove(k)`. -/
def Env.remove (e : Env) (k : String) : Env :=
  fun k' => if k' = k then none else e k'

/-- The save/restore step: `if let Some(v) = old { vars.insert(k, v) } else { vars.remove(k) }`. -/
def Env.restore (e : Env) (k : String) (old : Option FVal) : Env :=
  match old with
  | some v => e.insert k v
  | none => e.remove k

/-! ## AST (`ast.rs`, `lexer.rs` enums) -/

/-- `lexer.rs` `BinaryOperator`. -/
inductive BinaryOperator where
  | plus | minus | star | slash | pow
deriving DecidableEq, Repr

/-- `lexer.rs` `SpecialFunction`. -/
inductive SpecialFunction where
  | sin | cos | tan | cot | sec | csc
  | sinh | cosh | tanh | asinh | acosh | atanh
  | exp | log | log10 | log2 | sqrt | abs
  | asin | acos | atan | acot | asec | acsc
  | pow | fact | logBase | floor | rand | randInt
deriving DecidableEq, Repr

/-- `ast.rs` `Expr`. -/
inductive Expr where
  | number (n : FVal)
  | ident (name : String)
  | assign (name : String) (expr : Expr)
  | binaryOp (left : Expr) (op : BinaryOperator) (right : Expr)
  | function (func : SpecialFunction) (arg : Expr)
  | functionDef (name : String) (arg : String) (body : Expr)
  | functionCall (name : String) (arg : Expr)
  | sequence (exprs : List Expr)
  | sum (lo hi : Expr) (param : String) (body : Expr)
  | product (lo hi : Expr) (param : String) (body : Expr)
deriving Repr

/-- `matches!(e, Expr::Assign { .. })`. -/
def Expr.isAssign : Expr → Bool
  | .assign _ _ => true
  | _ => false

/-- `parser.rs` `(String, Expr)` entries of the user-function `HashMap`. -/
def FnTable : Type := String → Option (String × Expr)

def FnTable.empty : FnTable := fun _ => none

def FnTable.insert (t : FnTable) (k : String) (v : String × Expr) : FnTable :=
  fun k' => if k' = k then some v else t k'

/-! ## Bytecode (`bytecode.rs`) -/

/-- `bytecode.rs` `Bytecode`; `Program = Vec<Bytecode>` is `List Bytecode`. -/
inductive Bytecode where
  | pushNumber (n : FVal)
  | add | sub | mul | div
  | sin | cos | tan | cot | sec | csc
  | sinh | cosh | tanh | asinh | acosh | atanh
  | exp | log | log10 | log2 | sqrt | abs
  | asin | acos | atan | acot | asec | acsc
  | pow | fact | logBase | floor | rand | randInt
  | storeVar (name : String)
  | loadVar (name : String)
  | callUserFunction (name : String)
  | sumLoop (lo hi : List Bytecode) (param : String) (body : List Bytecode)
  | productLoop (lo hi : List Bytecode) (param : String) (body : List Bytecode)
deriving Repr

abbrev Program := List Bytecode

/-! ## Compiler (`compiler.rs`)

The Rust `compile(expr, &mut program)` appends instructions to a buffer;
we model it as the list of instructions appended.  The two `panic!` sites
(a `randint`/`log`-base application whose argument is not a two-element
`Sequence`) are modelled as `none`. -/

mutual

/-- `compiler.rs` `compile`. -/
def compile : Expr → Option Program
  | .sum lo hi param body => do
      let lp ← compile lo
      let hp ← compile hi
      let bp ← compile body
      some [.sumLoop lp hp param bp]
  | .product lo hi param body => do
      let lp ← compile lo
      let hp ← compile hi
      let bp ← compile body
      some [.productLoop lp hp param bp]
  | .number n => some [.pushNumber n]
  | .ident name => some [.loadVar name]
  | .assign name e => do
      let p ← compile e
      some (p ++ [.storeVar name])
  | .binaryOp l op r => do
      let lp ← compile l
      let rp ← compile r
      some (lp ++ rp ++ [match op with
        | .plus => .add
        | .minus => .sub
        | .star => .mul
        | .slash => .div
        | .pow => .pow])
  | .function f arg =>
      match f with
      | .rand => some [.rand]
      | .randInt =>
          -- randint(a, b): the argument must be a two-element Sequence,
          -- otherwise the Rust code panics
          match arg with
          | .sequence [a, b] => do
              let pa ← compile a
              let pb ← compile b
              some (pa ++ pb ++ [.randInt])
          | _ => none
      | .logBase =>
          match arg with
          | .sequence [a, b] => do
              let pa ← compile a
              let pb ← compile b
              some (pa ++ pb ++ [.logBase])
          | _ => none
      | .fact => do let p ← compile arg; some (p ++ [.fact])
      | .sin => do let p ← compile arg; some (p ++ [.sin])
      | .cos => do let p ← compile arg; some (p ++ [.cos])
      | .tan => do let p ← compile arg; some (p ++ [.tan])
      | .cot => do let p ← compile arg; some (p ++ [.cot])
      | .sec => do let p ← compile arg; some (p ++ [.sec])
      | .csc => do let p ← compile arg; some (p ++ [.csc])
      | .sinh => do let p ← compile arg; some (p ++ [.sinh])
      | .cosh => do let p ← compile arg; some (p ++ [.cosh])
      | .tanh => do let p ← compile arg; some (p ++ [.tanh])
      | .asinh => do let p ← compile arg; some (p ++ [.asinh])
      | .acosh => do let p ← compile arg; some (p ++ [.acosh])
      | .atanh => do let p ← compile arg; some (p ++ [.atanh])
      | .exp => do let p ← compile arg; some (p ++ [.exp])
      | .log => do let p ← compile arg; some (p ++ [.log])
      | .log10 => do let p ← compile arg; some (p ++ [.log10])
      | .log2 => do let p ← compile arg; some (p ++ [.log2])
      | .sqrt => do let p ← compile arg; some (p ++ [.sqrt])
      | .abs => do let p ← compile arg; some (p ++ [.abs])
      | .asin => do let p ← compile arg; some (p ++ [.asin])
      | .acos => do let p ← compile arg; some (p ++ [.acos])
      | .atan => do let p ← compile arg; some (p ++ [.atan])
      | .acot => do let p ← compile arg; some (p ++ [.acot])
      | .asec => do let p ← compile arg; some (p ++ [.asec])
      | .acsc => do let p ← compile arg; some (p ++ [.acsc])
      | .pow => do let p ← compile arg; some (p ++ [.pow])
      | .floor => do let p ← compile arg; some (p ++ [.floor])
  | .functionDef _ _ _ =>
      -- function definitions emit no code
      some []
  | .functionCall name arg => do
      let p ← compile arg
      some (p ++ [.callUserFunction name])
  | .sequence es => compileSeq es

/-- The `Expr::Sequence` arm of `compile`: after every element except the
last, a non-assignment's value is discarded by storing it into the
reserved name `_tmp`. -/
def compileSeq : List Expr → Option Program
  | [] => some []
  | [e] => compile e
  | e :: es => do
      let p ← compile e
      let rest ← compileSeq es
      some (p ++ (if e.isAssign then [] else [.storeVar "_tmp"]) ++ rest)

end

/-- `compile` with the (unreachable under the predicates used below)
panic cases defaulted to the empty program. -/
def compileD (e : Expr) : Program := (compile e).getD []

/-! ## Tree-walking evaluator (`interpreter.rs` `eval_expr`)

The Rust evaluator recurses into user-function bodies taken from the
function table, so its recursion is unbounded (a self-recursive user
function overflows the Rust stack and aborts the process).  The model
therefore carries a recursion budget `d` that is decremented exactly at
that one call site; running out of budget is the model of the Rust stack
overflow.  All other recursion is structural.  The final `ℕ` is the
random-draw counter. -/

/-- The closed integer range `lo..=hi` of a Rust `for` loop. -/
def intRange (lo hi : ℤ) : List ℤ :=
  (List.range (hi + 1 - lo).toNat).map (fun k => lo + (k : ℤ))

mutual

/-- `interpreter.rs` `eval_expr`. -/
def evalExpr (fns : FnTable) (ops : FloatOps) (R : RandSrc) :
    ℕ → Expr → Env → ℕ → Except String (FVal × Env × ℕ)
  | _, .number n, env, c => .ok (n, env, c)
  | _, .ident name, env, c =>
      match env name with
      | some v => .ok (v, env, c)
      | none => .error "Variable not found in function body"
  | d, .assign name e, env, c => do
      let (v, env, c) ← evalExpr fns ops R d e env c
      .ok (v, env.insert name v, c)
  | d, .binaryOp l op r, env, c => do
      let (lv, env, c) ← evalExpr fns ops R d l env c
      let (rv, env, c) ← evalExpr fns ops R d r env c
      .ok (match op with
        | .plus => lv.fadd rv
        | .minus => lv.fsub rv
        | .star => lv.fmul rv
        | .slash => lv.fdiv rv
        | .pow => ops.fpowf lv rv, env, c)
  | d, .function f arg, env, c => do
      let (v, env, c) ← evalExpr fns ops R d arg env c
      match f with
      | .sin => .ok (ops.fsin v, env, c)
      | .cos => .ok (ops.fcos v, env, c)
      | .tan => .ok (ops.ftan v, env, c)
      | .cot => .ok ((FVal.fin 1).fdiv (ops.ftan v), env, c)
      | .sec => .ok ((FVal.fin 1).fdiv (ops.fcos v), env, c)
      | .csc => .ok ((FVal.fin 1).fdiv (ops.fsin v), env, c)
      | .sinh => .ok (ops.fsinh v, env, c)
      | .cosh => .ok (ops.fcosh v, env, c)
      | .tanh => .ok (ops.ftanh v, env, c)
      | .asinh => .ok (ops.fasinh v, env, c)
      | .acosh => .ok (ops.facosh v, env, c)
      | .atanh => .ok (ops.fatanh v, env, c)
      | .exp => .ok (ops.fexp v, env, c)
      | .log => .ok (ops.fln v, env, c)
      | .log10 => .ok (ops.flog10 v, env, c)
      | .log2 => .ok (ops.flog2 v, env, c)
      | .sqrt => .ok (ops.fsqrt v, env, c)
      | .abs => .ok (v.fabs, env, c)
      | .asin => .ok (ops.fasin v, env, c)
      | .acos => .ok (ops.facos v, env, c)
      | .atan => .ok (ops.fatan v, env, c)
      | .acot => .ok (ops.fatan ((FVal.fin 1).fdiv v), env, c)
      | .asec => .ok (ops.facos ((FVal.fin 1).fdiv v), env, c)
      | .acsc => .ok (ops.fasin ((FVal.fin 1).fdiv v), env, c)
      | .pow => .ok (v, env, c)
      | .fact => .ok (factorial v, env, c)
      | .logBase => .error "log base not supported in user function body"
      | .floor => .ok (v.ffloor, env, c)
      | .rand => .ok (R.randF c, env, c + 1)
      | .randInt => .error "randint not supported in user function body"
  | d, .functionCall name arg, env, c => do
      let (argVal, env, c) ← evalExpr fns ops R d arg env c
      match fns name with
      | none => .error "User-defined function not found in body"
      | some (param, body) =>
          match d with
          | 0 => .error "recursion budget exhausted"
          | d + 1 => do
              let old := env param
              let (v, env, c) ← evalExpr fns ops R d body (env.insert param argVal) c
              .ok (v, env.restore param old, c)
  | d, .sequence es, env, c => evalSeq fns ops R d es (.fin 0) env c
  | _, .functionDef _ _ _, _, _ => .error "Nested function definitions not supported in body"
  | d, .sum lo hi param body, env, c => do
      let (lv, env, c) ← evalExpr fns ops R d lo env c
      let (hv, env, c) ← evalExpr fns ops R d hi env c
      evalLoop fns ops R d true param body (intRange lv.ceilI64 hv.floorI64) (.fin 0) env c
  | d, .product lo hi param body, env, c => do
      let (lv, env, c) ← evalExpr fns ops R d lo env c
      let (hv, env, c) ← evalExpr fns ops R d hi env c
      evalLoop fns ops R d false param body (intRange lv.ceilI64 hv.floorI64) (.fin 1) env c
termination_by d e _ _ => (d, sizeOf e, 0)

/-- The `Expr::Sequence` arm of `eval_expr`: `last = 0.0` then evaluate
each element in turn, returning the last value. -/
def evalSeq (fns : FnTable) (ops : FloatOps) (R : RandSrc) :
    ℕ → List Expr → FVal → Env → ℕ → Except String (FVal × Env × ℕ)
  | _, [], last, env, c => .ok (last, env, c)
  | d, e :: es, _, env, c => do
      let (v, env, c) ← evalExpr fns ops R d e env c
      evalSeq fns ops R d es v env c
termination_by d es _ _ _ => (d, sizeOf es, 1)

/-- The `Expr::Sum`/`Expr::Product` iteration of `eval_expr`: bind the
parameter (saving the old binding), evaluate the body, restore, and
accumulate by addition (`isSum`) or multiplication. -/
def evalLoop (fns : FnTable) (ops : FloatOps) (R : RandSrc) :
    ℕ → Bool → String → Expr → List ℤ → FVal → Env → ℕ →
    Except String (FVal × Env × ℕ)
  | _, _, _, _, [], acc, env, c => .ok (acc, env, c)
  | d, isSum, param, body, i :: is, acc, env, c => do
      let old := env param
      let (v, env, c) ← evalExpr fns ops R d body (env.insert param (.fin i)) c
      evalLoop fns ops R d isSum param body is
        (if isSum then acc.fadd v else acc.fmul v) (env.restore param old) c
termination_by d _ _ body is _ _ _ => (d, sizeOf body, is.length + 2)

end

/-! ## Bytecode VM (`interpreter.rs`)

The value stack is a list with its head as the top (`Vec::push`/`pop`
act on the end of the Rust vector).  `runInner` is
`run_bytecode_with_functions_inner`; `runTop` is the instruction loop of
`run_bytecode_with_functions`, whose body duplicates the inner one
instruction for instruction except for the `SumLoop`/`ProductLoop`
arms (which bind the loop parameter without saving it and remove it
after the loop instead of restoring per iteration). -/

abbrev Stack := List FVal

/-- IEEE `<=` on the model (`a <= b` on `f64`, false whenever NaN is involved). -/
def FVal.fle : FVal → FVal → Bool
  | .nan, _ => false
  | _, .nan => false
  | .ninf, _ => true
  | .fin _, .inf => true
  | .fin a, .fin b => a ≤ b
  | .fin _, .ninf => false
  | .inf, .inf => true
  | .inf, _ => false

mutual

/-- One instruction of `run_bytecode_with_functions_inner` (`interpreter.rs`). -/
def execInstr (fns : FnTable) (ops : FloatOps) (R : RandSrc) (d : ℕ) :
    Bytecode → Stack → Env → ℕ → Except String (Stack × Env × ℕ)
  | .callUserFunction name, s, env, c =>
      match fns name with
      | none => .error "User-defined function not found"
      | some (argName, body) =>
          match s with
          | [] => .error "Stack underflow on user function call"
          | argVal :: s => do
              let old := env argName
              let (v, env, c) ← evalExpr fns ops R d body (env.insert argName argVal) c
              .ok (v :: s, env.restore argName old, c)
  | .rand, s, env, c => .ok (R.randF c :: s, env, c + 1)
  | .randInt, s, env, c =>
      match s with
      | [] => .error "Stack underflow on RandInt (b)"
      | [_] => .error "Stack underflow on RandInt (a)"
      | b :: a :: s =>
          let (amin, amax) := if a.fle b then (a, b) else (b, a)
          let amin := amin.ceilI64
          let amax := amax.floorI64
          if amax < amin then .error "Invalid range for randint: min > max"
          else .ok (.fin (R.randRange amin amax c) :: s, env, c + 1)
  | .logBase, s, env, c =>
      match s with
      | [] => .error "Stack underflow on LogBase (b)"
      | [_] => .error "Stack underflow on LogBase (a)"
      | b :: a :: s => .ok (ops.flog b a :: s, env, c)
  | .pushNumber n, s, env, c => .ok (n :: s, env, c)
  | .add, s, env, c =>
      match s with
      | b :: a :: s => .ok (a.fadd b :: s, env, c)
      | _ => .error "Stack underflow on Add"
  | .mul, s, env, c =>
      match s with
      | b :: a :: s => .ok (a.fmul b :: s, env, c)
      | _ => .error "Stack underflow on Mul"
  | .div, s, env, c =>
      match s with
      | b :: a :: s => .ok (a.fdiv b :: s, env, c)
      | _ => .error "Stack underflow on Div"
  | .sub, s, env, c =>
      match s with
      | b :: a :: s => .ok (a.fsub b :: s, env, c)
      | _ => .error "Stack underflow on Sub"
  | .pow, s, env, c =>
      match s with
      | b :: a :: s => .ok (ops.fpowf a b :: s, env, c)
      | _ => .error "Stack underflow on Pow"
  | .sin, s, env, c =>
      match s with
      | a :: s => .ok (ops.fsin a :: s, env, c)
      | _ => .error "Stack underflow on Sin"
  | .cos, s, env, c =>
      match s with
      | a :: s => .ok (ops.fcos a :: s, env, c)
      | _ => .error "Stack underflow on Cos"
  | .tan, s, env, c =>
      match s with
      | a :: s => .ok (ops.ftan a :: s, env, c)
      | _ => .error "Stack underflow on Tan"
  | .cot, s, env, c =>
      match s with
      | a :: s => .ok ((FVal.fin 1).fdiv (ops.ftan a) :: s, env, c)
      | _ => .error "Stack underflow on Cot"
  | .sec, s, env, c =>
      match s with
      | a :: s => .ok ((FVal.fin 1).fdiv (ops.fcos a) :: s, env, c)
      | _ => .error "Stack underflow on Sec"
  | .csc, s, env, c =>
      match s with
      | a :: s => .ok ((FVal.fin 1).fdiv (ops.fsin a) :: s, env, c)
      | _ => .error "Stack underflow on Csc"
  | .sinh, s, env, c =>
      match s with
      | a :: s => .ok (ops.fsinh a :: s, env, c)
      | _ => .error "Stack underflow on Sinh"
  | .cosh, s, env, c =>
      match s with
      | a :: s => .ok (ops.fcosh a :: s, env, c)
      | _ => .error "Stack underflow on Cosh"
  | .tanh, s, env, c =>
      match s with
      | a :: s => .ok (ops.ftanh a :: s, env, c)
      | _ => .error "Stack underflow on Tanh"
  | .asinh, s, env, c =>
      match s with
      | a :: s => .ok (ops.fasinh a :: s, env, c)
      | _ => .error "Stack underflow on Asinh"
  | .acosh, s, env, c =>
      match s with
      | a :: s => .ok (ops.facosh a :: s, env, c)
      | _ => .error "Stack underflow on Acosh"
  | .atanh, s, env, c =>
      match s with
      | a :: s => .ok (ops.fatanh a :: s, env, c)
      | _ => .error "Stack underflow on Atanh"
  | .exp, s, env, c =>
      match s with
      | a :: s => .ok (ops.fexp a :: s, env, c)
      | _ => .error "Stack underflow on Exp"
  | .log10, s, env, c =>
      match s with
      | a :: s => .ok (ops.flog10 a :: s, env, c)
      | _ => .error "Stack underflow on Log10"
  | .log2, s, env, c =>
      match s with
      | a :: s => .ok (ops.flog2 a :: s, env, c)
      | _ => .error "Stack underflow on Log2"
  | .fact, s, env, c =>
      match s with
      | a :: s => .ok (factorial a :: s, env, c)
      | _ => .error "Stack underflow on Fact"
  | .floor, s, env, c =>
      match s with
      | a :: s => .ok (a.ffloor :: s, env, c)
      | _ => .error "Stack underflow on Floor"
  | .log, s, env, c =>
      match s with
      | a :: s => .ok (ops.fln a :: s, env, c)
      | _ => .error "Stack underflow on Log"
  | .sqrt, s, env, c =>
      match s with
      | a :: s => .ok (ops.fsqrt a :: s, env, c)
      | _ => .error "Stack underflow on Sqrt"
  | .abs, s, env, c =>
      match s with
      | a :: s => .ok (a.fabs :: s, env, c)
      | _ => .error "Stack underflow on Abs"
  | .asin, s, env, c =>
      match s with
      | a :: s => .ok (ops.fasin a :: s, env, c)
      | _ => .error "Stack underflow on Asin"
  | .acos, s, env, c =>
      match s with
      | a :: s => .ok (ops.facos a :: s, env, c)
      | _ => .error "Stack underflow on Acos"
  | .atan, s, env, c =>
      match s with
      | a :: s => .ok (ops.fatan a :: s, env, c)
      | _ => .error "Stack underflow on Atan"
  | .acot, s, env, c =>
      match s with
      | a :: s => .ok (ops.fatan ((FVal.fin 1).fdiv a) :: s, env, c)
      | _ => .error "Stack underflow on Acot"
  | .asec, s, env, c =>
      match s with
      | a :: s => .ok (ops.facos ((FVal.fin 1).fdiv a) :: s, env, c)
      | _ => .error "Stack underflow on Asec"
  | .acsc, s, env, c =>
      match s with
      | a :: s => .ok (ops.fasin ((FVal.fin 1).fdiv a) :: s, env, c)
      | _ => .error "Stack underflow on Acsc"
  | .storeVar name, s, env, c =>
      match s with
      | v :: s => .ok (s, env.insert name v, c)
      | _ => .error "Stack underflow on StoreVar"
  | .loadVar name, s, env, c =>
      match env name with
      | some v => .ok (v :: s, env, c)
      | none => .error "Variable not found"
  | .sumLoop lo hi param body, s, env, c => do
      let (ls, env, c) ← runInner fns ops R d lo [] env c
      match ls with
      | [] => .error "No result on stack (from)"
      | lv :: _ => do
          let (hs, env, c) ← runInner fns ops R d hi [] env c
          match hs with
          | [] => .error "No result on stack (to)"
          | hv :: _ => do
              let (acc, env, c) ←
                runLoop fns ops R d true param body
                  (intRange lv.ceilI64 hv.floorI64) (.fin 0) env c
              .ok (acc :: s, env, c)
  | .productLoop lo hi param body, s, env, c => do
      let (ls, env, c) ← runInner fns ops R d lo [] env c
      match ls with
      | [] => .error "No result on stack (from)"
      | lv :: _ => do
          let (hs, env, c) ← runInner fns ops R d hi [] env c
          match hs with
          | [] => .error "No result on stack (to)"
          | hv :: _ => do
              let (acc, env, c) ←
                runLoop fns ops R d false param body
                  (intRange lv.ceilI64 hv.floorI64) (.fin 1) env c
              .ok (acc :: s, env, c)
termination_by i _ _ _ => (sizeOf i, 0)

/-- `run_bytecode_with_functions_inner` (`interpreter.rs`): execute the
instructions in order against a stack and the shared environment. -/
def runInner (fns : FnTable) (ops : FloatOps) (R : RandSrc) (d : ℕ) :
    Program → Stack → Env → ℕ → Except String (Stack × Env × ℕ)
  | [], s, env, c => .ok (s, env, c)
  | i :: rest, s, env, c => do
      let (s, env, c) ← execInstr fns ops R d i s env c
      runInner fns ops R d rest s env c
termination_by p _ _ _ => (sizeOf p, 1)

/-- The loop iteration of the inner VM's `SumLoop`/`ProductLoop`: bind
the parameter (saving the old binding), run the body sub-program on a
fresh stack, pop its result, accumulate, and restore the parameter. -/
def runLoop (fns : FnTable) (ops : FloatOps) (R : RandSrc) (d : ℕ) :
    Bool → String → Program → List ℤ → FVal → Env → ℕ →
    Except String (FVal × Env × ℕ)
  | _, _, _, [], acc, env, c => .ok (acc, env, c)
  | isSum, param, body, i :: is, acc, env, c => do
      let old := env param
      let (bs, env, c) ← runInner fns ops R d body [] (env.insert param (.fin i)) c
      match bs with
      | [] => .error "No result on stack (body)"
      | v :: _ =>
          runLoop fns ops R d isSum param body is
            (if isSum then acc.fadd v else acc.fmul v) (env.restore param old) c
termination_by _ _ body is _ _ _ => (sizeOf body, is.length + 2)

end

/-- The loop iteration of the top-level VM's `SumLoop`/`ProductLoop`
(`run_bytecode_with_functions`): unlike the inner VM it binds the
parameter without saving any previous value and performs no restore. -/
def runTopLoop (fns : FnTable) (ops : FloatOps) (R : RandSrc) (d : ℕ)
    (isSum : Bool) (param : String) (body : Program) :
    List ℤ → FVal → Env → ℕ → Except String (FVal × Env × ℕ)
  | [], acc, env, c => .ok (acc, env, c)
  | i :: is, acc, env, c => do
      let (bs, env, c) ← runInner fns ops R d body [] (env.insert param (.fin i)) c
      match bs with
      | [] => .error "No result on stack (body)"
      | v :: _ =>
          runTopLoop fns ops R d isSum param body is
            (if isSum then acc.fadd v else acc.fmul v) env c

/-- The instruction loop of `run_bytecode_with_functions`
(`interpreter.rs`): every instruction except the two loop forms is
handled by code duplicated verbatim from the inner VM (modelled by
delegating to `execInstr`); a loop instruction evaluates its bounds and
body like the inner VM but binds the parameter without save/restore and
removes it from the environment once the loop is done. -/
def runTop (fns : FnTable) (ops : FloatOps) (R : RandSrc) (d : ℕ) :
    Program → Stack → Env → ℕ → Except String (Stack × Env × ℕ)
  | [], s, env, c => .ok (s, env, c)
  | .sumLoop lo hi param body :: rest, s, env, c => do
      let (ls, env, c) ← runInner fns ops R d lo [] env c
      match ls with
      | [] => .error "No result on stack (from)"
      | lv :: _ => do
          let (hs, env, c) ← runInner fns ops R d hi [] env c
          match hs with
          | [] => .error "No result on stack (to)"
          | hv :: _ => do
              let (acc, env, c) ←
                runTopLoop fns ops R d true param body
                  (intRange lv.ceilI64 hv.floorI64) (.fin 0) env c
              runTop fns ops R d rest (acc :: s) (env.remove param) c
  | .productLoop lo hi param body :: rest, s, env, c => do
      let (ls, env, c) ← runInner fns ops R d lo [] env c
      match ls with
      | [] => .error "No result on stack (from)"
      | lv :: _ => do
          let (hs, env, c) ← runInner fns ops R d hi [] env c
          match hs with
          | [] => .error "No result on stack (to)"
          | hv :: _ => do
              let (acc, env, c) ←
                runTopLoop fns ops R d false param body
                  (intRange lv.ceilI64 hv.floorI64) (.fin 1) env c
              runTop fns ops R d rest (acc :: s) (env.remove param) c
  | i :: rest, s, env, c => do
      let (s, env, c) ← execInstr fns ops R d i s env c
      runTop fns ops R d rest s env c

/-- `run_bytecode_with_functions` (`interpreter.rs`): run the program on
a fresh stack and environment and pop the final result; an empty final
stack is the "No result on stack" error. -/
def run_bytecode_with_functions (fns : FnTable) (ops : FloatOps) (R : RandSrc)
    (d : ℕ) (p : Program) : Except String FVal :=
  match runTop fns ops R d p [] Env.empty 0 with
  | .error e => .error e
  | .ok (s, _, _) =>
      match s with
      | [] => .error "No result on stack"
      | v :: _ => .ok v

/-! ## Lexer (`lexer.rs`)

Character classes: the Rust code uses Unicode `is_alphabetic` /
`is_alphanumeric` / `is_whitespace`; the model uses the ASCII versions,
which agree on all ASCII source text (no claim involves non-ASCII
input).  Numeric literals are modelled exactly (as rationals); `f64`
parsing only rounds beyond 17 significant digits, which no claim
exercises. -/

/-- `lexer.rs` `Token`. -/
inductive Token where
  | number (n : FVal)
  | operator (op : BinaryOperator)
  | function (f : SpecialFunction)
  | ident (s : String)
  | assign
  | lparen
  | rparen
  | comma
  | defKw
  | endDef
  | arrow
  | varKw
  | pipe
  | sum
  | product
deriving DecidableEq, Repr

/-- The keyword/function-name table of `tokenize` (`lexer.rs` lines
126-159), in source order.  Note the absence of an `"asin"` entry. -/
def keywordTable : List (String × Token) :=
  [("sum", .sum), ("product", .product), ("def", .defKw), ("end", .endDef),
   ("var", .varKw),
   ("sin", .function .sin), ("cos", .function .cos), ("tan", .function .tan),
   ("cot", .function .cot), ("sec", .function .sec), ("csc", .function .csc),
   ("sinh", .function .sinh), ("cosh", .function .cosh), ("tanh", .function .tanh),
   ("asinh", .function .asinh), ("acosh", .function .acosh), ("atanh", .function .atanh),
   ("exp", .function .exp), ("log", .function .log), ("log10", .function .log10),
   ("log2", .function .log2), ("sqrt", .function .sqrt), ("abs", .function .abs),
   ("acos", .function .acos), ("atan", .function .atan), ("acot", .function .acot),
   ("asec", .function .asec), ("acsc", .function .acsc), ("pow", .function .pow),
   ("floor", .function .floor), ("rand", .function .rand), ("randint", .function .randInt)]

/-- The identifier arm of `tokenize`: match the lowercased identifier
against the keyword table, falling back to `Ident` with the original
spelling. -/
def keywordTok (s : String) : Token :=
  match keywordTable.find? (fun kv => kv.1 == s.toLower) with
  | some kv => kv.2
  | none => .ident s

/-- The digits of a decimal numeral as a natural number. -/
def digitsToNat (ds : List Char) : ℕ :=
  ds.foldl (fun acc d => 10 * acc + (d.toNat - ('0').toNat)) 0

/-- Model of `str::parse::<f64>` restricted to the digit-and-dot strings
the lexer accumulates: optional integer part, at most one dot, optional
fraction part, at least one digit overall; the value is returned exactly. -/
def parseF64 (cs : List Char) : Option FVal :=
  let intp := cs.takeWhile Char.isDigit
  let rest := cs.dropWhile Char.isDigit
  match rest with
  | [] => if intp.isEmpty then none else some (.fin (digitsToNat intp))
  | '.' :: frac =>
      if frac.all Char.isDigit && !(intp.isEmpty && frac.isEmpty) then
        some (.fin ((digitsToNat intp : ℚ) + (digitsToNat frac : ℚ) / 10 ^ frac.length))
      else none
  | _ => none

def length_dropWhile_le {α : Type} (p : α → Bool) (l : List α) :
    (l.dropWhile p).length ≤ l.length := by
  induction l with
  | nil => simp
  | cons a l ih =>
      rw [List.dropWhile_cons]
      by_cases h : p a <;> simp [h] <;> omega

/-- The per-line character loop of `tokenize` (`lexer.rs`): numbers
accumulate digits and dots (silently dropped if they fail to parse),
single-character symbols map to tokens, `=`/`=>` disambiguate, alphabetic
runs accumulate alphanumeric-or-underscore identifiers matched against
the keyword table, and whitespace/unrecognized characters are skipped. -/
def tokenizeLine : List Char → List Token
  | [] => []
  | c :: cs =>
    if c.isDigit || c == '.' then
      match parseF64 (c :: cs.takeWhile (fun d => d.isDigit || d == '.')) with
      | some n => .number n :: tokenizeLine (cs.dropWhile (fun d => d.isDigit || d == '.'))
      | none => tokenizeLine (cs.dropWhile (fun d => d.isDigit || d == '.'))
    else if c == '+' then .operator .plus :: tokenizeLine cs
    else if c == '-' then .operator .minus :: tokenizeLine cs
    else if c == '*' then .operator .star :: tokenizeLine cs
    else if c == '/' then .operator .slash :: tokenizeLine cs
    else if c == '^' then .operator .pow :: tokenizeLine cs
    else if c == '!' then .function .fact :: tokenizeLine cs
    else if c == '(' then .lparen :: tokenizeLine cs
    else if c == ')' then .rparen :: tokenizeLine cs
    else if c == '|' then .pipe :: tokenizeLine cs
    else if c == ',' then .comma :: tokenizeLine cs
    else if c == '=' then
      match cs with
      | '>' :: cs2 => .arrow :: tokenizeLine cs2
      | cs1 => .assign :: tokenizeLine cs1
    else if c.isAlpha then
      keywordTok (String.mk (c :: cs.takeWhile (fun d => d.isAlphanum || d == '_'))) ::
        tokenizeLine (cs.dropWhile (fun d => d.isAlphanum || d == '_'))
    else tokenizeLine cs
termination_by cs => cs.length
decreasing_by
  all_goals simp_wf
  all_goals first
    | omega
    | (have hlen := length_dropWhile_le (fun d => d.isDigit || d == '.') cs; omega)
    | (have hlen := length_dropWhile_le (fun d => d.isAlphanum || d == '_') cs; omega)

/-- `str::lines`: split on newline, no trailing empty line.  (The model
keeps any `\r`; no claim involves carriage returns.) -/
def splitLines : List Char → List (List Char)
  | [] => []
  | cs =>
      match h : cs.dropWhile (fun c => !(c == '\n')) with
      | [] => [cs.takeWhile (fun c => !(c == '\n'))]
      | _ :: rest2 => cs.takeWhile (fun c => !(c == '\n')) :: splitLines rest2
termination_by cs => cs.length
decreasing_by
  simp_wf
  have h1 := length_dropWhile_le (fun c => !(c == '\n')) cs
  rw [h] at h1
  simp at h1
  omega

/-- `str::trim` (both ends, whitespace). -/
def trimChars (cs : List Char) : List Char :=
  ((cs.dropWhile Char.isWhitespace).reverse.dropWhile Char.isWhitespace).reverse

/-- `lexer.rs` `tokenize`: keep non-blank, non-`#`-comment lines,
tokenize each, and drop lines that produced no tokens. -/
def tokenize (input : String) : List (List Token) :=
  (((splitLines input.toList).filter
      (fun l =>
        let t := trimChars l
        !t.isEmpty && !(t.head? == some '#'))).map
    tokenizeLine).filter (fun tks => !tks.isEmpty)

/-! ## Parser (`parser.rs`)

The Rust parser is a panicking recursive-descent parser; panics are
modelled as `Except.error`.  Its recursion always consumes tokens before
re-entering itself, so it terminates; the model makes this explicit with
a fuel argument decremented at every call (`parse` below passes more
fuel than the token count, so the fuel-exhaustion branch is never taken
on inputs the Rust parser terminates on).  `parse_sequence` in the Rust
source is dead code (no caller) and is not modelled. -/

/-- The postfix-`!` loop at the end of `parse_factor`. -/
def factSuffix (ts : List Token) (e : Expr) (pos : ℕ) : Except String (Expr × ℕ) :=
  match h : ts.get? pos with
  | some (.function .fact) => factSuffix ts (.function .fact e) (pos + 1)
  | _ => .ok (e, pos)
termination_by ts.length - pos
decreasing_by
  simp_wf
  have hlt : pos < ts.length := by
    by_contra hc
    push_neg at hc
    have hn := List.get?_eq_none.mpr hc
    rw [hn] at h
    exact Option.noConfusion h
  omega

mutual

/-- `parser.rs` `parse_sum_product`: returns `ok none` where the Rust
code returns `None` (not a loop form), propagating panics from the
sub-expression parses. -/
def parseSumProduct (fuel : ℕ) (ts : List Token) (pos : ℕ) :
    Except String (Option (Expr × ℕ)) :=
  match fuel with
  | 0 => .error "parser fuel exhausted"
  | fuel + 1 =>
    match ts.get? pos with
    | some .sum => parseSumProductAfter fuel true ts (pos + 1)
    | some .product => parseSumProductAfter fuel false ts (pos + 1)
    | _ => .ok none

/-- The body of `parse_sum_product` after the `sum`/`product` keyword. -/
def parseSumProductAfter (fuel : ℕ) (isSum : Bool) (ts : List Token) (start : ℕ) :
    Except String (Option (Expr × ℕ)) :=
  match fuel with
  | 0 => .error "parser fuel exhausted"
  | fuel + 1 =>
    match ts.get? start with
    | some .lparen =>
      match ts.get? (start + 1) with
      | some (.ident fromKw) =>
        if fromKw == "from" then do
          let (fromExpr, i1) ← parseExpr fuel ts (start + 2)
          match ts.get? i1 with
          | some .comma =>
            match ts.get? (i1 + 1) with
            | some (.ident toKw) =>
              if toKw == "to" then do
                let (toExpr, i2) ← parseExpr fuel ts (i1 + 2)
                match ts.get? i2 with
                | some .comma =>
                  match ts.get? (i2 + 1) with
                  | some (.ident paraKw) =>
                    if paraKw == "para" then
                      match ts.get? (i2 + 2) with
                      | some (.ident paramName) =>
                        match ts.get? (i2 + 3) with
                        | some .comma => do
                          let (bodyExpr, i3) ← parseExpr fuel ts (i2 + 4)
                          match ts.get? i3 with
                          | some .rparen =>
                              .ok (some
                                (if isSum then
                                  .sum fromExpr toExpr paramName bodyExpr
                                else
                                  .product fromExpr toExpr paramName bodyExpr, i3 + 1))
                          | _ => .ok none
                        | _ => .ok none
                      | _ => .ok none
                    else .ok none
                  | _ => .ok none
                | _ => .ok none
              else .ok none
            | _ => .ok none
          | _ => .ok none
        else .ok none
      | _ => .ok none
    | _ => .ok none

/-- `parser.rs` `parse_expr`: a term followed by left-associative `+`/`-`. -/
def parseExpr (fuel : ℕ) (ts : List Token) (pos : ℕ) : Except String (Expr × ℕ) :=
  match fuel with
  | 0 => .error "parser fuel exhausted"
  | fuel + 1 => do
    let (left, pos) ← parseTerm fuel ts pos
    parseExprLoop fuel ts left pos

/-- The `+`/`-` continuation loop of `parse_expr`. -/
def parseExprLoop (fuel : ℕ) (ts : List Token) (left : Expr) (pos : ℕ) :
    Except String (Expr × ℕ) :=
  match fuel with
  | 0 => .error "parser fuel exhausted"
  | fuel + 1 =>
    match ts.get? pos with
    | some (.operator .plus) => do
        let (right, pos2) ← parseTerm fuel ts (pos + 1)
        parseExprLoop fuel ts (.binaryOp left .plus right) pos2
    | some (.operator .minus) => do
        let (right, pos2) ← parseTerm fuel ts (pos + 1)
        parseExprLoop fuel ts (.binaryOp left .minus right) pos2
    | _ => .ok (left, pos)

/-- `parser.rs` `parse_term`: a power followed by left-associative `*`/`/`. -/
def parseTerm (fuel : ℕ) (ts : List Token) (pos : ℕ) : Except String (Expr × ℕ) :=
  match fuel with
  | 0 => .error "parser fuel exhausted"
  | fuel + 1 => do
    let (left, pos) ← parsePower fuel ts pos
    parseTermLoop fuel ts left pos

/-- The `*`/`/` continuation loop of `parse_term`. -/
def parseTermLoop (fuel : ℕ) (ts : List Token) (left : Expr) (pos : ℕ) :
    Except String (Expr × ℕ) :=
  match fuel with
  | 0 => .error "parser fuel exhausted"
  | fuel + 1 =>
    match ts.get? pos with
    | some (.operator .star) => do
        let (right, pos2) ← parsePower fuel ts (pos + 1)
        parseTermLoop fuel ts (.binaryOp left .star right) pos2
    | some (.operator .slash) => do
        let (right, pos2) ← parsePower fuel ts (pos + 1)
        parseTermLoop fuel ts (.binaryOp left .slash right) pos2
    | _ => .ok (left, pos)

/-- `parser.rs` `parse_power`: a factor followed by right-associative `^`
(the right operand re-enters `parse_power`). -/
def parsePower (fuel : ℕ) (ts : List Token) (pos : ℕ) : Except String (Expr × ℕ) :=
  match fuel with
  | 0 => .error "parser fuel exhausted"
  | fuel + 1 => do
    let (left, pos) ← parseFactor fuel ts pos
    parsePowerLoop fuel ts left pos

/-- The `^` continuation loop of `parse_power`. -/
def parsePowerLoop (fuel : ℕ) (ts : List Token) (left : Expr) (pos : ℕ) :
    Except String (Expr × ℕ) :=
  match fuel with
  | 0 => .error "parser fuel exhausted"
  | fuel + 1 =>
    match ts.get? pos with
    | some (.operator .pow) => do
        let (right, pos2) ← parsePower fuel ts (pos + 1)
        parsePowerLoop fuel ts (.binaryOp left .pow right) pos2
    | _ => .ok (left, pos)

/-- `parser.rs` `parse_factor`.  The direct `&tokens[pos]` index is a
panic when `pos` is out of bounds. -/
def parseFactor (fuel : ℕ) (ts : List Token) (pos : ℕ) : Except String (Expr × ℕ) :=
  match fuel with
  | 0 => .error "parser fuel exhausted"
  | fuel + 1 => do
    match ← parseSumProduct fuel ts pos with
    | some (e, next) => .ok (e, next)
    | none => do
      let (e, pos2) ←
        (match ts.get? pos with
        | none => .error "index out of bounds"
        | some (.operator .minus) => do
            let (e, next) ← parseFactor fuel ts (pos + 1)
            .ok (.binaryOp (.number (.fin 0)) .minus e, next)
        | some .pipe => do
            let (inner, next) ← parseExpr fuel ts (pos + 1)
            match ts.get? next with
            | some .pipe => .ok (.function .abs inner, next + 1)
            | _ => .error "Expected closing | for absolute value"
        | some (.number n) => .ok (.number n, pos + 1)
        | some (.ident name) =>
            match ts.get? (pos + 1) with
            | some .lparen => do
                let (arg, next) ← parseExpr fuel ts (pos + 2)
                let (args, next) ← parseArgsLoop fuel ts [arg] next
                match ts.get? next with
                | some .rparen =>
                    match args with
                    | [a] => .ok (.functionCall name a, next + 1)
                    | _ => .ok (.functionCall name (.sequence args), next + 1)
                | _ => .error "Expected closing parenthesis after function call arguments"
            | _ => .ok (.ident name, pos + 1)
        | some (.function f) =>
            match ts.get? (pos + 1) with
            | some .lparen =>
                match ts.get? (pos + 2) with
                | some .rparen => .ok (.function f (.sequence []), pos + 3)
                | _ => do
                    let (arg, next) ← parseExpr fuel ts (pos + 2)
                    let (args, next) ← parseArgsLoop fuel ts [arg] next
                    match ts.get? next with
                    | some .rparen => .ok (.function f (.sequence args), next + 1)
                    | _ => .error "Expected closing parenthesis after function arguments"
            | _ => .error "Expected opening parenthesis after function name"
        | some .lparen => do
            let (e, next) ← parseExpr fuel ts (pos + 1)
            match ts.get? next with
            | some .rparen => .ok (e, next + 1)
            | _ => .error "Expected closing parenthesis"
        | some (.operator _) => .error "Operator token in invalid position"
        | some _ => .error "Unexpected token")
      factSuffix ts e pos2

/-- The comma-separated extra-argument loop shared by the user-call and
named-function arms of `parse_factor`. -/
def parseArgsLoop (fuel : ℕ) (ts : List Token) (args : List Expr) (pos : ℕ) :
    Except String (List Expr × ℕ) :=
  match fuel with
  | 0 => .error "parser fuel exhausted"
  | fuel + 1 =>
    match ts.get? pos with
    | some .comma => do
        let (arg, next) ← parseExpr fuel ts (pos + 1)
        parseArgsLoop fuel ts (args ++ [arg]) next
    | _ => .ok (args, pos)

end

/-- `parser.rs` `parse_statement`: a function definition, a `var`
assignment, or a general expression. -/
def parseStatement (fuel : ℕ) (ts : List Token) (pos : ℕ) : Except String (Expr × ℕ) :=
  match ts.get? pos, ts.get? (pos + 1), ts.get? (pos + 2), ts.get? (pos + 3),
      ts.get? (pos + 4), ts.get? (pos + 5) with
  | some .defKw, some (.ident name), some .lparen, some (.ident argName),
      some .rparen, some .assign => do
      let (body, next) ← parseExpr fuel ts (pos + 6)
      .ok (.functionDef name argName body, next)
  | _, _, _, _, _, _ =>
    match ts.get? pos, ts.get? (pos + 1), ts.get? (pos + 2) with
    | some .varKw, some (.ident name), some .assign => do
        let (e, next) ← parseExpr fuel ts (pos + 3)
        .ok (.assign name e, next)
    | _, _, _ => parseExpr fuel ts pos

/-- The fuel `parse` hands to each line's parse (more than the recursion
of the Rust parser can ever need on that line). -/
def parseFuel (ts : List Token) : ℕ := 8 * ts.length + 64

/-- The per-line accumulation loop of `parser.rs` `parse`: function
definition lines (`def` first, with the expected shape) go to the
function table — a malformed `def` line is silently dropped — and every
other line must parse as a statement consuming all tokens (a trailing
token is the `Unexpected token` panic). -/
def parseLines : List (List Token) → List Expr → FnTable →
    Except String (List Expr × FnTable)
  | [], exprs, fns => .ok (exprs, fns)
  | ts :: rest, exprs, fns =>
      if ts.isEmpty then parseLines rest exprs fns
      else
        match ts.get? 0 with
        | some .defKw =>
          match ts.get? 1, ts.get? 2, ts.get? 3, ts.get? 4, ts.get? 5 with
          | some (.ident name), some .lparen, some (.ident argName),
              some .rparen, some .assign => do
              let (body, _) ← parseExpr (parseFuel ts) ts 6
              parseLines rest exprs (fns.insert name (argName, body))
          | _, _, _, _, _ => parseLines rest exprs fns
        | _ => do
          let (e, next) ← parseStatement (parseFuel ts) ts 0
          if next < ts.length then .error "Unexpected token"
          else parseLines rest (exprs ++ [e]) fns

/-- `parser.rs` `parse`: accumulate statements and user functions; a
single statement is returned unwrapped, otherwise (including zero
statements) the statements are wrapped in a `Sequence`. -/
def parse (lines : List (List Token)) : Except String (Expr × FnTable) := do
  let (exprs, fns) ← parseLines lines [] FnTable.empty
  match exprs with
  | [e] => .ok (e, fns)
  | _ => .ok (.sequence exprs, fns)

/-! ## Binary encoding of programs (`bytecode.rs` `#[derive(Encode, Decode)]`)

The encoder/decoder pair itself is generated by the external `bincode`
crate from the `Encode`/`Decode` derives on `Bytecode`; its code is not
part of this repository.  Following the spec (§6), the persisted form is
a tagged-union encoding of each instruction variant — a variant tag in
declaration order followed by the payload, strings and programs
length-prefixed, the three sub-programs of a loop instruction encoded
recursively — and the pair must round-trip losslessly.  The byte layout
itself is an implementation choice; the model uses one symbol of the
stream (`ℕ`) per encoded unit. -/

/-- Modelled from the spec: the payload encoding of a float value
(`bincode` encodes the raw `f64`; the model encodes the exact value:
a shape tag, then sign/numerator/denominator for finite values). -/
def encodeF : FVal → List ℕ
  | .fin q => [0, if q.num < 0 then 1 else 0, q.num.natAbs, q.den]
  | .inf => [1]
  | .ninf => [2]
  | .nan => [3]

/-- Modelled from the spec: decode a float value, returning the value
and the remaining stream. -/
def decodeF : List ℕ → Option (FVal × List ℕ)
  | 0 :: sgn :: n :: d :: rest =>
      some (.fin (if sgn = 1 then -(n : ℚ) / (d : ℚ) else (n : ℚ) / (d : ℚ)), rest)
  | 1 :: rest => some (.inf, rest)
  | 2 :: rest => some (.ninf, rest)
  | 3 :: rest => some (.nan, rest)
  | _ => none

/-- Modelled from the spec: strings are length-prefixed code points. -/
def encodeStr (s : String) : List ℕ :=
  s.toList.length :: s.toList.map Char.toNat

/-- Modelled from the spec: decode a length-prefixed string. -/
def decodeStr : List ℕ → Option (String × List ℕ)
  | n :: rest =>
      if h : n ≤ rest.length then
        some (String.mk ((rest.take n).map Char.ofNat), rest.drop n)
      else none
  | [] => none

/-- The tag of each `Bytecode` variant, in declaration order
(`bincode`'s derived enum discriminant). -/
def instrTag : Bytecode → ℕ
  | .pushNumber _ => 0
  | .add => 1
  | .sub => 2
  | .mul => 3
  | .div => 4
  | .sin => 5
  | .cos => 6
  | .tan => 7
  | .cot => 8
  | .sec => 9
  | .csc => 10
  | .sinh => 11
  | .cosh => 12
  | .tanh => 13
  | .asinh => 14
  | .acosh => 15
  | .atanh => 16
  | .exp => 17
  | .log => 18
  | .log10 => 19
  | .log2 => 20
  | .sqrt => 21
  | .abs => 22
  | .asin => 23
  | .acos => 24
  | .atan => 25
  | .acot => 26
  | .asec => 27
  | .acsc => 28
  | .pow => 29
  | .fact => 30
  | .logBase => 31
  | .floor => 32
  | .rand => 33
  | .randInt => 34
  | .storeVar _ => 35
  | .loadVar _ => 36
  | .callUserFunction _ => 37
  | .sumLoop _ _ _ _ => 38
  | .productLoop _ _ _ _ => 39

mutual

/-- Modelled from the spec: the tagged-union encoding of one
instruction — the variant tag, then the payload (loop instructions
recursively encode their three sub-programs and parameter name). -/
def encodeInstr : Bytecode → List ℕ
  | .pushNumber n => instrTag (.pushNumber n) :: encodeF n
  | .storeVar s => instrTag (.storeVar s) :: encodeStr s
  | .loadVar s => instrTag (.loadVar s) :: encodeStr s
  | .callUserFunction s => instrTag (.callUserFunction s) :: encodeStr s
  | .sumLoop lo hi param body =>
      instrTag (.sumLoop lo hi param body) ::
        (encodeProgram lo ++ encodeProgram hi ++ encodeStr param ++ encodeProgram body)
  | .productLoop lo hi param body =>
      instrTag (.productLoop lo hi param body) ::
        (encodeProgram lo ++ encodeProgram hi ++ encodeStr param ++ encodeProgram body)
  | i => [instrTag i]

/-- Modelled from the spec: a program is its length followed by the
encodings of its instructions in order. -/
def encodeProgram : Program → List ℕ
  | p => p.length :: encodeList p

def encodeList : Program → List ℕ
  | [] => []
  | i :: is => encodeInstr i ++ encodeList is

end

mutual

/-- Loop-nesting depth of an instruction (bounds the recursion depth the
decoder needs). -/
def instrDepth : Bytecode → ℕ
  | .sumLoop lo hi _ body => (progDepth lo).max ((progDepth hi).max (progDepth body)) + 1
  | .productLoop lo hi _ body => (progDepth lo).max ((progDepth hi).max (progDepth body)) + 1
  | _ => 0

/-- Loop-nesting depth of a program. -/
def progDepth : Program → ℕ
  | [] => 0
  | i :: is => (instrDepth i).max (progDepth is)

end

mutual

/-- Modelled from the spec: decode one instruction (tag, then payload).
`fuel` bounds the loop-nesting depth only; `decode` below passes more
than any stream can contain. -/
def decodeInstr : ℕ → List ℕ → Option (Bytecode × List ℕ)
  | 0, _ => none
  | _ + 1, [] => none
  | fuel + 1, tag :: rest =>
      if tag = 0 then
        (decodeF rest).map (fun (n, r) => (.pushNumber n, r))
      else if tag = 35 then
        (decodeStr rest).map (fun (s, r) => (.storeVar s, r))
      else if tag = 36 then
        (decodeStr rest).map (fun (s, r) => (.loadVar s, r))
      else if tag = 37 then
        (decodeStr rest).map (fun (s, r) => (.callUserFunction s, r))
      else if tag = 38 then do
        let (lo, r) ← decodeProgram fuel rest
        let (hi, r) ← decodeProgram fuel r
        let (param, r) ← decodeStr r
        let (body, r) ← decodeProgram fuel r
        some (.sumLoop lo hi param body, r)
      else if tag = 39 then do
        let (lo, r) ← decodeProgram fuel rest
        let (hi, r) ← decodeProgram fuel r
        let (param, r) ← decodeStr r
        let (body, r) ← decodeProgram fuel r
        some (.productLoop lo hi param body, r)
      else if tag = 1 then some (.add, rest)
      else if tag = 2 then some (.sub, rest)
      else if tag = 3 then some (.mul, rest)
      else if tag = 4 then some (.div, rest)
      else if tag = 5 then some (.sin, rest)
      else if tag = 6 then some (.cos, rest)
      else if tag = 7 then some (.tan, rest)
      else if tag = 8 then some (.cot, rest)
      else if tag = 9 then some (.sec, rest)
      else if tag = 10 then some (.csc, rest)
      else if tag = 11 then some (.sinh, rest)
      else if tag = 12 then some (.cosh, rest)
      else if tag = 13 then some (.tanh, rest)
      else if tag = 14 then some (.asinh, rest)
      else if tag = 15 then some (.acosh, rest)
      else if tag = 16 then some (.atanh, rest)
      else if tag = 17 then some (.exp, rest)
      else if tag = 18 then some (.log, rest)
      else if tag = 19 then some (.log10, rest)
      else if tag = 20 then some (.log2, rest)
      else if tag = 21 then some (.sqrt, rest)
      else if tag = 22 then some (.abs, rest)
      else if tag = 23 then some (.asin, rest)
      else if tag = 24 then some (.acos, rest)
      else if tag = 25 then some (.atan, rest)
      else if tag = 26 then some (.acot, rest)
      else if tag = 27 then some (.asec, rest)
      else if tag = 28 then some (.acsc, rest)
      else if tag = 29 then some (.pow, rest)
      else if tag = 30 then some (.fact, rest)
      else if tag = 31 then some (.logBase, rest)
      else if tag = 32 then some (.floor, rest)
      else if tag = 33 then some (.rand, rest)
      else if tag = 34 then some (.randInt, rest)
      else none

/-- Modelled from the spec: decode a length-prefixed program. -/
def decodeProgram : ℕ → List ℕ → Option (Program × List ℕ)
  | _, [] => none
  | fuel, n :: rest => decodeCount fuel n rest

/-- Decode exactly `n` instructions. -/
def decodeCount : ℕ → ℕ → List ℕ → Option (Program × List ℕ)
  | _, 0, rest => some ([], rest)
  | fuel, n + 1, rest => do
      let (i, r) ← decodeInstr fuel rest
      let (is, r) ← decodeCount fuel n r
      some (i :: is, r)

end

/-- Modelled from the spec: `encode` of the persisted `.mthc` form. -/
def encode (p : Program) : List ℕ := encodeProgram p

/-- Modelled from the spec: `decode` of the persisted `.mthc` form; the
whole stream must be consumed. -/
def decode (bs : List ℕ) : Option Program :=
  match decodeProgram (bs.length + 1) bs with
  | some (p, []) => some p
  | _ => none

/-! ## VM-compatible expressions

The compiler/VM path and the tree-walking evaluator genuinely diverge on
some expression shapes (assignments in result position, empty sequences,
`rand`/`randint`/two-argument `log`, the unary use of the `pow` special
function, and the reserved scratch identifier `_tmp`, which the lexer
cannot even produce since `_` does not start an identifier).  The
predicates below carve out the expressions on which the two paths agree:
`pureE` are expressions whose compiled code pushes exactly one value,
`stmtE` additionally allows an assignment (whose compiled code pushes
nothing), and `seqOk` constrains the element list of a `Sequence`
(non-empty, statements before a final value-producing element). -/

/-- Special functions whose compiled instruction is the unary operation
the evaluator also applies (everything except `rand`, `randint`,
two-argument `log`, and `pow`, whose `Bytecode::Pow` pops two operands
while the evaluator treats `pow` as the identity). -/
def vmSafeFn : SpecialFunction → Bool
  | .rand => false
  | .randInt => false
  | .logBase => false
  | .pow => false
  | _ => true

mutual

/-- Value-producing expressions on which compiled-VM execution and the
tree-walking evaluator agree. -/
def pureE : Expr → Bool
  | .number _ => true
  | .ident x => !(x == "_tmp")
  | .assign _ _ => false
  | .binaryOp l _ r => pureE l && pureE r
  | .function f a => vmSafeFn f && pureE a
  | .functionDef _ _ _ => false
  | .functionCall _ _ => false
  | .sequence es => seqOk es
  | .sum _ _ _ _ => false
  | .product _ _ _ _ => false
termination_by e => (sizeOf e, 0)

/-- Statement forms: a value-producing expression or an assignment. -/
def stmtE : Expr → Bool
  | .assign _ e => pureE e
  | e => pureE e
termination_by e => (sizeOf e, 1)

/-- Well-formed `Sequence` element lists: non-empty, all but the last a
statement, the last value-producing. -/
def seqOk : List Expr → Bool
  | [] => false
  | [e] => pureE e
  | e :: es => stmtE e && seqOk es
termination_by es => (sizeOf es, 0)

end

/-- Programs with no top-level loop instruction (on which `runTop` and
`runInner` coincide). -/
def loopFreeInstr : Bytecode → Bool
  | .sumLoop _ _ _ _ => false
  | .productLoop _ _ _ _ => false
  | _ => true

def loopFreeProg (p : Program) : Bool := p.all loopFreeInstr

/-- Whether an `Except` result is an error. -/
def isErr {α : Type} : Except String α → Bool
  | .error _ => true
  | .ok _ => false

/-- Whether an `Except` result is a success. -/
def isOkB {α : Type} : Except String α → Bool
  | .error _ => false
  | .ok _ => true

/-- The environment of a successful VM step/run result (`Env.empty` on error). -/
def envOf (r : Except String (Stack × Env × ℕ)) : Env :=
  match r with
  | .ok (_, e, _) => e
  | .error _ => Env.empty

/-- The stack of a successful VM step/run result (`[]` on error). -/
def stackOf (r : Except String (Stack × Env × ℕ)) : Stack :=
  match r with
  | .ok (s, _, _) => s
  | .error _ => []

/-- The value of a successful result, discarding state and errors. -/
def valOf (r : Except String (FVal × Env × ℕ)) : Except String FVal :=
  r.map (fun t => t.1)

/-- Instructions that neither run user code nor loop: they never remove
an environment binding and are the only instructions `compile` emits for
VM-compatible expressions. -/
def simpleInstr : Bytecode → Bool
  | .callUserFunction _ => false
  | .sumLoop _ _ _ _ => false
  | .productLoop _ _ _ _ => false
  | _ => true

def simpleProg (p : Program) : Bool := p.all simpleInstr

/-- The evaluator's environment and the VM's environment agree outside
the compiler's reserved scratch name `_tmp`. -/
def envAgree (ev vv : Env) : Prop := ∀ k, k ≠ "_tmp" → ev k = vv k

mutual

/-- Expressions with no `sum`/`product` loop and no user-function
definition or call anywhere (the syntactic class named by the
compiler/VM-versus-evaluator agreement claim). -/
def loopFnFree : Expr → Bool
  | .number _ => true
  | .ident _ => true
  | .assign _ e => loopFnFree e
  | .binaryOp l _ r => loopFnFree l && loopFnFree r
  | .function _ a => loopFnFree a
  | .functionDef _ _ _ => false
  | .functionCall _ _ => false
  | .sequence es => loopFnFreeL es
  | .sum _ _ _ _ => false
  | .product _ _ _ _ => false
termination_by e => (sizeOf e, 0)

/-- `loopFnFree` on the elements of a `Sequence`. -/
def loopFnFreeL : List Expr → Bool
  | [] => true
  | e :: es => loopFnFree e && loopFnFreeL es
termination_by es => (sizeOf es, 1)

end

mutual

/-- Value expressions whose compiled code has a clean stack discipline:
from any stack it either fails or pushes exactly one value on top of it.
This covers every expression the parser can put in value position —
numbers, identifiers, arithmetic, the unary special functions, `rand`,
two-argument `randint`/`log`, user-function calls, loops and nested
sequences — and excludes only assignments (statement-position only),
function definitions (the compiler emits no code for them) and the
unary-`pow` anomaly, whose compiled `Bytecode.Pow` pops a second operand
that was never pushed. -/
def vexpr : Expr → Bool
  | .number _ => true
  | .ident _ => true
  | .assign _ _ => false
  | .binaryOp l _ r => vexpr l && vexpr r
  | .functionDef _ _ _ => false
  | .functionCall _ a => vexpr a
  | .sequence es => seqV es
  | .sum _ _ _ _ => true
  | .product _ _ _ _ => true
  | .function .pow _ => false
  | .function .rand _ => true
  | .function .randInt a => argPair a
  | .function .logBase a => argPair a
  | .function .sin a => vexpr a
  | .function .cos a => vexpr a
  | .function .tan a => vexpr a
  | .function .cot a => vexpr a
  | .function .sec a => vexpr a
  | .function .csc a => vexpr a
  | .function .sinh a => vexpr a
  | .function .cosh a => vexpr a
  | .function .tanh a => vexpr a
  | .function .asinh a => vexpr a
  | .function .acosh a => vexpr a
  | .function .atanh a => vexpr a
  | .function .exp a => vexpr a
  | .function .log a => vexpr a
  | .function .log10 a => vexpr a
  | .function .log2 a => vexpr a
  | .function .sqrt a => vexpr a
  | .function .abs a => vexpr a
  | .function .asin a => vexpr a
  | .function .acos a => vexpr a
  | .function .atan a => vexpr a
  | .function .acot a => vexpr a
  | .function .asec a => vexpr a
  | .function .acsc a => vexpr a
  | .function .fact a => vexpr a
  | .function .floor a => vexpr a
termination_by e => (sizeOf e, 0)

/-- The argument shape `randint`/two-argument `log` compile: a
two-element sequence of value expressions. -/
def argPair : Expr → Bool
  | .sequence es => pairV es
  | .number _ => false
  | .ident _ => false
  | .assign _ _ => false
  | .binaryOp _ _ _ => false
  | .function _ _ => false
  | .functionDef _ _ _ => false
  | .functionCall _ _ => false
  | .sum _ _ _ _ => false
  | .product _ _ _ _ => false
termination_by e => (sizeOf e, 1)

/-- `argPair` on the element list. -/
def pairV : List Expr → Bool
  | [a, b] => vexpr a && vexpr b
  | [] => false
  | [_] => false
  | _ :: _ :: _ :: _ => false
termination_by es => (sizeOf es, 0)

/-- Statement forms over `vexpr`: an assignment of a value expression or
a value expression. -/
def stmtV : Expr → Bool
  | .assign _ e => vexpr e
  | .number n => vexpr (.number n)
  | .ident x => vexpr (.ident x)
  | .binaryOp l op r => vexpr (.binaryOp l op r)
  | .function f a => vexpr (.function f a)
  | .functionDef n a b => vexpr (.functionDef n a b)
  | .functionCall n a => vexpr (.functionCall n a)
  | .sequence es => vexpr (.sequence es)
  | .sum lo hi pr b => vexpr (.sum lo hi pr b)
  | .product lo hi pr b => vexpr (.product lo hi pr b)
termination_by e => (sizeOf e, 1)

/-- Well-formed `Sequence` element lists over `vexpr`: non-empty, all
but the last a statement, the last a value expression (in particular not
an assignment). -/
def seqV : List Expr → Bool
  | [] => false
  | [e] => vexpr e
  | e :: e2 :: es => stmtV e && seqV (e2 :: es)
termination_by es => (sizeOf es, 1)

end

/-- Instructions whose top-level execution never removes the binding of
`k`: every instruction except a loop whose parameter is `k` (the
top-level VM deletes a loop's parameter after the loop).  No lexable
program names a loop parameter `_tmp`, since `'_'` does not start an
identifier. -/
def paramFreeInstr (k : String) : Bytecode → Bool
  | .sumLoop _ _ param _ => !(param == k)
  | .productLoop _ _ param _ => !(param == k)
  | _ => true

def paramFreeProg (k : String) (p : Program) : Bool := p.all (paramFreeInstr k)

@[simp] theorem Env.insert_same (e : Env) (k : String) (v : FVal) :
    e.insert k v k = some v := by simp [Env.insert]

@[simp] theorem Env.insert_other (e : Env) (k k' : String) (v : FVal) (h : k' ≠ k) :
    e.insert k v k' = e k' := by simp [Env.insert, h]

@[simp] theorem Env.restore_same (e : Env) (k : String) (old : Option FVal) :
    e.restore k old k = old := by
  cases old <;> simp [Env.restore, Env.insert, Env.remove]

@[simp] theorem Env.restore_other (e : Env) (k k' : String) (old : Option FVal) (h : k' ≠ k) :
    e.restore k old k' = e k' := by
  cases old <;> simp [Env.restore, Env.insert, Env.remove, h]

@[simp] theorem Env.remove_same (e : Env) (k : String) : e.remove k k = none := by
  simp [Env.remove]

@[simp] theorem Env.remove_other (e : Env) (k k' : String) (h : k' ≠ k) :
    e.remove k k' = e k' := by simp [Env.remove, h]


/-- Executing an appended program is executing the parts in order. -/
theorem runInner_append (fns : FnTable) (ops : FloatOps) (R : RandSrc) (d : ℕ)
    (p q : Program) (s : Stack) (env : Env) (c : ℕ) :
    runInner fns ops R d (p ++ q) s env c =
      match runInner fns ops R d p s env c with
      | .error e => .error e
      | .ok (s', env', c') => runInner fns ops R d q s' env' c' := by
  induction p generalizing s env c with
  | nil => simp [runInner]
  | cons i rest ih =>
      simp only [List.cons_append, runInner]
      cases h : execInstr fns ops R d i s env c with
      | error e => simp [Except.bind, bind]
      | ok r => simp [Except.bind, bind, ih]

/-- On programs without top-level loop instructions, the top-level VM
loop behaves exactly like the inner one (its non-loop instruction arms
are duplicated verbatim in the Rust source). -/
theorem runTop_eq_runInner (fns : FnTable) (ops : FloatOps) (R : RandSrc) (d : ℕ)
    (p : Program) (hp : loopFreeProg p = true) (s : Stack) (env : Env) (c : ℕ) :
    runTop fns ops R d p s env c = runInner fns ops R d p s env c := by
  induction p generalizing s env c with
  | nil => simp [runTop, runInner]
  | cons i rest ih =>
      rw [loopFreeProg, List.all_cons, Bool.and_eq_true] at hp
      obtain ⟨hli, hrest⟩ := hp
      cases i
      case sumLoop => simp [loopFreeInstr] at hli
      case productLoop => simp [loopFreeInstr] at hli
      all_goals
        simp only [runTop, runInner]
        cases h : execInstr fns ops R d _ s env c with
        | error e => simp [Except.bind, bind]
        | ok r => simp [Except.bind, bind, ih hrest]

/-! ## Round trip of the program encoding -/

theorem decodeF_encodeF (v : FVal) (rest : List ℕ) :
    decodeF (encodeF v ++ rest) = some (v, rest) := by
  cases v with
  | fin q =>
      by_cases h : q.num < 0
      · have h1 : ((q.num.natAbs : ℚ)) = -(q.num : ℚ) := by
          rw [Int.cast_natAbs]
          exact_mod_cast abs_of_neg h
        simp [encodeF, decodeF, h, h1, neg_div, neg_neg, Rat.num_div_den]
      · have h1 : ((q.num.natAbs : ℚ)) = (q.num : ℚ) := by
          rw [Int.cast_natAbs]
          exact_mod_cast abs_of_nonneg (not_lt.mp h)
        simp [encodeF, decodeF, h, h1, Rat.num_div_den]
  | inf => simp [encodeF, decodeF]
  | ninf => simp [encodeF, decodeF]
  | nan => simp [encodeF, decodeF]

theorem decodeStr_encodeStr (s : String) (rest : List ℕ) :
    decodeStr (encodeStr s ++ rest) = some (s, rest) := by
  obtain ⟨data⟩ := s
  simp only [encodeStr, decodeStr, List.cons_append]
  have hlen : data.length ≤ (data.map Char.toNat ++ rest).length := by
    simp
  have htake : ((data.map Char.toNat ++ rest).take data.length) = data.map Char.toNat := by
    rw [show data.length = (data.map Char.toNat).length by simp, List.take_left]
  have hdrop : ((data.map Char.toNat ++ rest).drop data.length) = rest := by
    rw [show data.length = (data.map Char.toNat).length by simp, List.drop_left]
  simp only [String.toList]
  rw [dif_pos hlen, htake, hdrop]
  simp [List.map_map, Function.comp_def, Char.ofNat_toNat]

/-- An instruction's depth is at most the depth of a program containing it. -/
theorem instrDepth_le_progDepth (i : Bytecode) (l : Program) (h : i ∈ l) :
    instrDepth i ≤ progDepth l := by
  induction l with
  | nil => cases h
  | cons j js ih =>
      rcases List.mem_cons.mp h with h1 | h2
      · subst h1; simp [progDepth]
      · exact le_trans (ih h2) (by simp [progDepth])

mutual

/-- Decoding the encoding of one instruction restores it, for any
depth budget above its loop-nesting depth. -/
theorem decodeInstr_encodeInstr : ∀ (i : Bytecode) (fuel : ℕ),
    instrDepth i < fuel → ∀ rest,
    decodeInstr fuel (encodeInstr i ++ rest) = some (i, rest)
  | i, fuel + 1, h, rest => by
      cases i
      case pushNumber n =>
          simp [encodeInstr, decodeInstr, instrTag, decodeF_encodeF]
      case storeVar s =>
          simp [encodeInstr, decodeInstr, instrTag, decodeStr_encodeStr]
      case loadVar s =>
          simp [encodeInstr, decodeInstr, instrTag, decodeStr_encodeStr]
      case callUserFunction s =>
          simp [encodeInstr, decodeInstr, instrTag, decodeStr_encodeStr]
      case sumLoop lo hi param body =>
          simp only [instrDepth] at h
          have hmax : (progDepth lo).max ((progDepth hi).max (progDepth body)) < fuel := by
            omega
          have hlo : progDepth lo < fuel := lt_of_le_of_lt (Nat.le_max_left _ _) hmax
          have hhi : progDepth hi < fuel :=
            lt_of_le_of_lt (le_trans (Nat.le_max_left _ _) (Nat.le_max_right _ _)) hmax
          have hbody : progDepth body < fuel :=
            lt_of_le_of_lt (le_trans (Nat.le_max_right _ _) (Nat.le_max_right _ _)) hmax
          simp only [encodeInstr, decodeInstr, instrTag, List.cons_append, List.append_assoc]
          simp [decodeProgram_encodeProgram lo fuel hlo,
            decodeProgram_encodeProgram hi fuel hhi,
            decodeStr_encodeStr,
            decodeProgram_encodeProgram body fuel hbody,
            Option.bind]
      case productLoop lo hi param body =>
          simp only [instrDepth] at h
          have hmax : (progDepth lo).max ((progDepth hi).max (progDepth body)) < fuel := by
            omega
          have hlo : progDepth lo < fuel := lt_of_le_of_lt (Nat.le_max_left _ _) hmax
          have hhi : progDepth hi < fuel :=
            lt_of_le_of_lt (le_trans (Nat.le_max_left _ _) (Nat.le_max_right _ _)) hmax
          have hbody : progDepth body < fuel :=
            lt_of_le_of_lt (le_trans (Nat.le_max_right _ _) (Nat.le_max_right _ _)) hmax
          simp only [encodeInstr, decodeInstr, instrTag, List.cons_append, List.append_assoc]
          simp [decodeProgram_encodeProgram lo fuel hlo,
            decodeProgram_encodeProgram hi fuel hhi,
            decodeStr_encodeStr,
            decodeProgram_encodeProgram body fuel hbody,
            Option.bind]
      all_goals simp [encodeInstr, decodeInstr, instrTag]
termination_by i => (sizeOf i, 0)

/-- Decoding the encoding of a program restores it. -/
theorem decodeProgram_encodeProgram : ∀ (l : Program) (fuel : ℕ),
    progDepth l < fuel → ∀ rest,
    decodeProgram fuel (encodeProgram l ++ rest) = some (l, rest)
  | l, fuel, h, rest => by
      have he : encodeProgram l = l.length :: encodeList l := by simp [encodeProgram]
      rw [he, List.cons_append]
      have hd : decodeProgram fuel (l.length :: (encodeList l ++ rest)) =
          decodeCount fuel l.length (encodeList l ++ rest) := by simp [decodeProgram]
      rw [hd]
      exact decodeCount_encodeList l fuel
        (fun i hi => lt_of_le_of_lt (instrDepth_le_progDepth i l hi) h) rest
termination_by l => (sizeOf l, 1)

/-- Decoding exactly `length l` instructions from the concatenated
encodings of `l` restores `l`. -/
theorem decodeCount_encodeList : ∀ (l : Program) (fuel : ℕ),
    (∀ i ∈ l, instrDepth i < fuel) → ∀ rest,
    decodeCount fuel l.length (encodeList l ++ rest) = some (l, rest)
  | [], fuel, _, rest => by simp [encodeList, decodeCount]
  | i :: is, fuel, h, rest => by
      have hi : instrDepth i < fuel := h i (by simp)
      have his : ∀ j ∈ is, instrDepth j < fuel := fun j hj => h j (by simp [hj])
      simp only [encodeList, List.length_cons, List.append_assoc, decodeCount]
      rw [decodeInstr_encodeInstr i fuel hi (encodeList is ++ rest)]
      simp [Option.bind, decodeCount_encodeList is fuel his rest]
termination_by l => (sizeOf l, 0)

end

mutual

/-- The loop-nesting depth of an instruction is bounded by the length of
its encoding (each nesting level contributes at least its tag). -/
theorem instrDepth_le_encln (i : Bytecode) : instrDepth i ≤ (encodeInstr i).length := by
  cases i
  case sumLoop lo hi param body =>
    have h1 := progDepth_le_encln lo
    have h2 := progDepth_le_encln hi
    have h3 := progDepth_le_encln body
    have hM : (progDepth lo).max ((progDepth hi).max (progDepth body)) ≤
        (encodeList lo).length + (encodeList hi).length + (encodeList body).length + 3 := by
      apply max_le
      · omega
      · apply max_le <;> omega
    simp only [instrDepth, encodeInstr, encodeProgram, List.length_cons,
      List.length_append]
    omega
  case productLoop lo hi param body =>
    have h1 := progDepth_le_encln lo
    have h2 := progDepth_le_encln hi
    have h3 := progDepth_le_encln body
    have hM : (progDepth lo).max ((progDepth hi).max (progDepth body)) ≤
        (encodeList lo).length + (encodeList hi).length + (encodeList body).length + 3 := by
      apply max_le
      · omega
      · apply max_le <;> omega
    simp only [instrDepth, encodeInstr, encodeProgram, List.length_cons,
      List.length_append]
    omega
  all_goals simp [instrDepth.eq_def]
termination_by (sizeOf i, 0)

/-- The loop-nesting depth of a program is bounded by the length of its
encoding. -/
theorem progDepth_le_encln (l : Program) : progDepth l ≤ (encodeList l).length + 1 := by
  cases l with
  | nil => simp [progDepth]
  | cons i is =>
      have h1 := instrDepth_le_encln i
      have h2 := progDepth_le_encln is
      simp only [progDepth, encodeList, List.length_append, Nat.max_le]
      omega
termination_by (sizeOf l, 1)

end

/-- Claim C5: decoding the binary encoding of any bytecode program —
including arbitrarily nested `SumLoop`/`ProductLoop` instructions —
yields the original program (`decode (encode p) = p` for every
instruction variant). -/
theorem C5_decode_encode_roundtrip (p : Program) : decode (encode p) = some p := by
  have hb : progDepth p < (encode p).length + 1 := by
    have h1 := progDepth_le_encln p
    simp only [encode, encodeProgram, List.length_cons]
    omega
  have h := decodeProgram_encodeProgram p ((encode p).length + 1) hb []
  rw [List.append_nil] at h
  simp only [decode, encode] at h ⊢
  rw [h]

/-! ## One-step equations for the VM and the evaluator -/

set_option maxHeartbeats 2000000 in
theorem execInstr_pushNumber (fns : FnTable) (ops : FloatOps) (R : RandSrc) (d : ℕ) (n : FVal) (s : Stack) (env : Env) (c : ℕ) :
    execInstr fns ops R d (.pushNumber n) s env c = .ok (n :: s, env, c) := by
  simp only [execInstr]

theorem execInstr_sin (fns : FnTable) (ops : FloatOps) (R : RandSrc) (d : ℕ) (a : FVal) (s : Stack) (env : Env) (c : ℕ) :
    execInstr fns ops R d .sin (a :: s) env c = .ok (ops.fsin a :: s, env, c) := by
  simp only [execInstr]

theorem execInstr_cos (fns : FnTable) (ops : FloatOps) (R : RandSrc) (d : ℕ) (a : FVal) (s : Stack) (env : Env) (c : ℕ) :
    execInstr fns ops R d .cos (a :: s) env c = .ok (ops.fcos a :: s, env, c) := by
  simp only [execInstr]

theorem execInstr_tan (fns : FnTable) (ops : FloatOps) (R : RandSrc) (d : ℕ) (a : FVal) (s : Stack) (env : Env) (c : ℕ) :
    execInstr fns ops R d .tan (a :: s) env c = .ok (ops.ftan a :: s, env, c) := by
  simp only [execInstr]

theorem execInstr_cot (fns : FnTable) (ops : FloatOps) (R : RandSrc) (d : ℕ) (a : FVal) (s : Stack) (env : Env) (c : ℕ) :
    execInstr fns ops R d .cot (a :: s) env c = .ok ((FVal.fin 1).fdiv (ops.ftan a) :: s, env, c) := by
  simp only [execInstr]

theorem execInstr_sec (fns : FnTable) (ops : FloatOps) (R : RandSrc) (d : ℕ) (a : FVal) (s : Stack) (env : Env) (c : ℕ) :
    execInstr fns ops R d .sec (a :: s) env c = .ok ((FVal.fin 1).fdiv (ops.fcos a) :: s, env, c) := by
  simp only [execInstr]

theorem execInstr_csc (fns : FnTable) (ops : FloatOps) (R : RandSrc) (d : ℕ) (a : FVal) (s : Stack) (env : Env) (c : ℕ) :
    execInstr fns ops R d .csc (a :: s) env c = .ok ((FVal.fin 1).fdiv (ops.fsin a) :: s, env, c) := by
  simp only [execInstr]

theorem execInstr_sinh (fns : FnTable) (ops : FloatOps) (R : RandSrc) (d : ℕ) (a : FVal) (s : Stack) (env : Env) (c : ℕ) :
    execInstr fns ops R d .sinh (a :: s) env c = .ok (ops.fsinh a :: s, env, c) := by
  simp only [execInstr]

theorem execInstr_cosh (fns : FnTable) (ops : FloatOps) (R : RandSrc) (d : ℕ) (a : FVal) (s : Stack) (env : Env) (c : ℕ) :
    execInstr fns ops R d .cosh (a :: s) env c = .ok (ops.fcosh a :: s, env, c) := by
  simp only [execInstr]

theorem execInstr_tanh (fns : FnTable) (ops : FloatOps) (R : RandSrc) (d : ℕ) (a : FVal) (s : Stack) (env : Env) (c : ℕ) :
    execInstr fns ops R d .tanh (a :: s) env c = .ok (ops.ftanh a :: s, env, c) := by
  simp only [execInstr]

theorem execInstr_asinh (fns : FnTable) (ops : FloatOps) (R : RandSrc) (d : ℕ) (a : FVal) (s : Stack) (env : Env) (c : ℕ) :
    execInstr fns ops R d .asinh (a :: s) env c = .ok (ops.fasinh a :: s, env, c) := by
  simp only [execInstr]

theorem execInstr_acosh (fns : FnTable) (ops : FloatOps) (R : RandSrc) (d : ℕ) (a : FVal) (s : Stack) (env : Env) (c : ℕ) :
    execInstr fns ops R d .acosh (a :: s) env c = .ok (ops.facosh a :: s, env, c) := by
  simp only [execInstr]

theorem execInstr_atanh (fns : FnTable) (ops : FloatOps) (R : RandSrc) (d : ℕ) (a : FVal) (s : Stack) (env : Env) (c : ℕ) :
    execInstr fns ops R d .atanh (a :: s) env c = .ok (ops.fatanh a :: s, env, c) := by
  simp only [execInstr]

theorem execInstr_exp (fns : FnTable) (ops : FloatOps) (R : RandSrc) (d : ℕ) (a : FVal) (s : Stack) (env : Env) (c : ℕ) :
    execInstr fns ops R d .exp (a :: s) env c = .ok (ops.fexp a :: s, env, c) := by
  simp only [execInstr]

theorem execInstr_log (fns : FnTable) (ops : FloatOps) (R : RandSrc) (d : ℕ) (a : FVal) (s : Stack) (env : Env) (c : ℕ) :
    execInstr fns ops R d .log (a :: s) env c = .ok (ops.fln a :: s, env, c) := by
  simp only [execInstr]

theorem execInstr_log10 (fns : FnTable) (ops : FloatOps) (R : RandSrc) (d : ℕ) (a : FVal) (s : Stack) (env : Env) (c : ℕ) :
    execInstr fns ops R d .log10 (a :: s) env c = .ok (ops.flog10 a :: s, env, c) := by
  simp only [execInstr]

theorem execInstr_log2 (fns : FnTable) (ops : FloatOps) (R : RandSrc) (d : ℕ) (a : FVal) (s : Stack) (env : Env) (c : ℕ) :
    execInstr fns ops R d .log2 (a :: s) env c = .ok (ops.flog2 a :: s, env, c) := by
  simp only [execInstr]

theorem execInstr_sqrt (fns : FnTable) (ops : FloatOps) (R : RandSrc) (d : ℕ) (a : FVal) (s : Stack) (env : Env) (c : ℕ) :
    execInstr fns ops R d .sqrt (a :: s) env c = .ok (ops.fsqrt a :: s, env, c) := by
  simp only [execInstr]

theorem execInstr_abs (fns : FnTable) (ops : FloatOps) (R : RandSrc) (d : ℕ) (a : FVal) (s : Stack) (env : Env) (c : ℕ) :
    execInstr fns ops R d .abs (a :: s) env c = .ok (a.fabs :: s, env, c) := by
  simp only [execInstr]

theorem execInstr_asin (fns : FnTable) (ops : FloatOps) (R : RandSrc) (d : ℕ) (a : FVal) (s : Stack) (env : Env) (c : ℕ) :
    execInstr fns ops R d .asin (a :: s) env c = .ok (ops.fasin a :: s, env, c) := by
  simp only [execInstr]

theorem execInstr_acos (fns : FnTable) (ops : FloatOps) (R : RandSrc) (d : ℕ) (a : FVal) (s : Stack) (env : Env) (c : ℕ) :
    execInstr fns ops R d .acos (a :: s) env c = .ok (ops.facos a :: s, env, c) := by
  simp only [execInstr]

theorem execInstr_atan (fns : FnTable) (ops : FloatOps) (R : RandSrc) (d : ℕ) (a : FVal) (s : Stack) (env : Env) (c : ℕ) :
    execInstr fns ops R d .atan (a :: s) env c = .ok (ops.fatan a :: s, env, c) := by
  simp only [execInstr]

theorem execInstr_acot (fns : FnTable) (ops : FloatOps) (R : RandSrc) (d : ℕ) (a : FVal) (s : Stack) (env : Env) (c : ℕ) :
    execInstr fns ops R d .acot (a :: s) env c = .ok (ops.fatan ((FVal.fin 1).fdiv a) :: s, env, c) := by
  simp only [execInstr]

theorem execInstr_asec (fns : FnTable) (ops : FloatOps) (R : RandSrc) (d : ℕ) (a : FVal) (s : Stack) (env : Env) (c : ℕ) :
    execInstr fns ops R d .asec (a :: s) env c = .ok (ops.facos ((FVal.fin 1).fdiv a) :: s, env, c) := by
  simp only [execInstr]

theorem execInstr_acsc (fns : FnTable) (ops : FloatOps) (R : RandSrc) (d : ℕ) (a : FVal) (s : Stack) (env : Env) (c : ℕ) :
    execInstr fns ops R d .acsc (a :: s) env c = .ok (ops.fasin ((FVal.fin 1).fdiv a) :: s, env, c) := by
  simp only [execInstr]

theorem execInstr_fact (fns : FnTable) (ops : FloatOps) (R : RandSrc) (d : ℕ) (a : FVal) (s : Stack) (env : Env) (c : ℕ) :
    execInstr fns ops R d .fact (a :: s) env c = .ok (factorial a :: s, env, c) := by
  simp only [execInstr]

theorem execInstr_floor (fns : FnTable) (ops : FloatOps) (R : RandSrc) (d : ℕ) (a : FVal) (s : Stack) (env : Env) (c : ℕ) :
    execInstr fns ops R d .floor (a :: s) env c = .ok (a.ffloor :: s, env, c) := by
  simp only [execInstr]

theorem execInstr_add (fns : FnTable) (ops : FloatOps) (R : RandSrc) (d : ℕ) (a b : FVal) (s : Stack) (env : Env) (c : ℕ) :
    execInstr fns ops R d .add (b :: a :: s) env c = .ok (a.fadd b :: s, env, c) := by
  simp only [execInstr]

theorem execInstr_sub (fns : FnTable) (ops : FloatOps) (R : RandSrc) (d : ℕ) (a b : FVal) (s : Stack) (env : Env) (c : ℕ) :
    execInstr fns ops R d .sub (b :: a :: s) env c = .ok (a.fsub b :: s, env, c) := by
  simp only [execInstr]

theorem execInstr_mul (fns : FnTable) (ops : FloatOps) (R : RandSrc) (d : ℕ) (a b : FVal) (s : Stack) (env : Env) (c : ℕ) :
    execInstr fns ops R d .mul (b :: a :: s) env c = .ok (a.fmul b :: s, env, c) := by
  simp only [execInstr]

theorem execInstr_div (fns : FnTable) (ops : FloatOps) (R : RandSrc) (d : ℕ) (a b : FVal) (s : Stack) (env : Env) (c : ℕ) :
    execInstr fns ops R d .div (b :: a :: s) env c = .ok (a.fdiv b :: s, env, c) := by
  simp only [execInstr]

theorem execInstr_pow (fns : FnTable) (ops : FloatOps) (R : RandSrc) (d : ℕ) (a b : FVal) (s : Stack) (env : Env) (c : ℕ) :
    execInstr fns ops R d .pow (b :: a :: s) env c = .ok (ops.fpowf a b :: s, env, c) := by
  simp only [execInstr]

theorem execInstr_logBase (fns : FnTable) (ops : FloatOps) (R : RandSrc) (d : ℕ) (a b : FVal) (s : Stack) (env : Env) (c : ℕ) :
    execInstr fns ops R d .logBase (b :: a :: s) env c = .ok (ops.flog b a :: s, env, c) := by
  simp only [execInstr]

theorem execInstr_rand (fns : FnTable) (ops : FloatOps) (R : RandSrc) (d : ℕ) (s : Stack) (env : Env) (c : ℕ) :
    execInstr fns ops R d .rand s env c = .ok (R.randF c :: s, env, c + 1) := by
  simp only [execInstr]

theorem execInstr_storeVar (fns : FnTable) (ops : FloatOps) (R : RandSrc) (d : ℕ) (name : String) (v : FVal) (s : Stack) (env : Env) (c : ℕ) :
    execInstr fns ops R d (.storeVar name) (v :: s) env c = .ok (s, env.insert name v, c) := by
  simp only [execInstr]

theorem execInstr_loadVar_found (fns : FnTable) (ops : FloatOps) (R : RandSrc) (d : ℕ) (name : String) (v : FVal) (s : Stack) (env : Env) (c : ℕ)
    (h : env name = some v) :
    execInstr fns ops R d (.loadVar name) s env c = .ok (v :: s, env, c) := by
  simp only [execInstr, h]

theorem execInstr_loadVar_missing (fns : FnTable) (ops : FloatOps) (R : RandSrc) (d : ℕ) (name : String) (s : Stack) (env : Env) (c : ℕ)
    (h : env name = none) :
    execInstr fns ops R d (.loadVar name) s env c = .error "Variable not found" := by
  simp only [execInstr, h]

theorem execInstr_callUser_found (fns : FnTable) (ops : FloatOps) (R : RandSrc) (d : ℕ) (name argName : String) (body : Expr)
    (argVal : FVal) (s : Stack) (env : Env) (c : ℕ)
    (h : fns name = some (argName, body)) :
    execInstr fns ops R d (.callUserFunction name) (argVal :: s) env c =
      match evalExpr fns ops R d body (env.insert argName argVal) c with
      | .error e => .error e
      | .ok (v, env1, c1) => .ok (v :: s, env1.restore argName (env argName), c1) := by
  simp only [execInstr, h]
  cases evalExpr fns ops R d body (env.insert argName argVal) c with
  | error e => rfl
  | ok t => obtain ⟨v, env1, c1⟩ := t; rfl

theorem execInstr_callUser_missing (fns : FnTable) (ops : FloatOps) (R : RandSrc) (d : ℕ) (name : String) (s : Stack) (env : Env) (c : ℕ)
    (h : fns name = none) :
    execInstr fns ops R d (.callUserFunction name) s env c =
      .error "User-defined function not found" := by
  simp only [execInstr, h]

theorem evalExpr_number (fns : FnTable) (ops : FloatOps) (R : RandSrc) (d : ℕ) (n : FVal) (env : Env) (c : ℕ) :
    evalExpr fns ops R d (.number n) env c = .ok (n, env, c) := by
  simp only [evalExpr]

theorem evalExpr_ident (fns : FnTable) (ops : FloatOps) (R : RandSrc) (d : ℕ) (name : String) (env : Env) (c : ℕ) :
    evalExpr fns ops R d (.ident name) env c =
      match env name with
      | some v => .ok (v, env, c)
      | none => .error "Variable not found in function body" := by
  simp only [evalExpr]

theorem evalExpr_assign (fns : FnTable) (ops : FloatOps) (R : RandSrc) (d : ℕ) (name : String) (e : Expr) (env : Env) (c : ℕ) :
    evalExpr fns ops R d (.assign name e) env c =
      match evalExpr fns ops R d e env c with
      | .error m => .error m
      | .ok (v, env1, c1) => .ok (v, env1.insert name v, c1) := by
  simp only [evalExpr, Except.bind, bind]
  cases evalExpr fns ops R d e env c with
  | error m => rfl
  | ok t => obtain ⟨v, env1, c1⟩ := t; rfl

theorem evalExpr_binaryOp (fns : FnTable) (ops : FloatOps) (R : RandSrc) (d : ℕ) (l : Expr) (op : BinaryOperator) (r : Expr) (env : Env) (c : ℕ) :
    evalExpr fns ops R d (.binaryOp l op r) env c =
      match evalExpr fns ops R d l env c with
      | .error m => .error m
      | .ok (lv, env1, c1) =>
        match evalExpr fns ops R d r env1 c1 with
        | .error m => .error m
        | .ok (rv, env2, c2) =>
            .ok (match op with
              | .plus => lv.fadd rv
              | .minus => lv.fsub rv
              | .star => lv.fmul rv
              | .slash => lv.fdiv rv
              | .pow => ops.fpowf lv rv, env2, c2) := by
  simp only [evalExpr, Except.bind, bind]
  cases evalExpr fns ops R d l env c with
  | error m => rfl
  | ok t =>
      obtain ⟨lv, env1, c1⟩ := t
      simp only
      cases evalExpr fns ops R d r env1 c1 with
      | error m => rfl
      | ok t2 => obtain ⟨rv, env2, c2⟩ := t2; rfl

theorem evalExpr_fn_sin (fns : FnTable) (ops : FloatOps) (R : RandSrc) (d : ℕ) (arg : Expr) (env : Env) (c : ℕ) :
    evalExpr fns ops R d (.function .sin arg) env c =
      match evalExpr fns ops R d arg env c with
      | .error m => .error m
      | .ok (v, env1, c1) => .ok (ops.fsin v, env1, c1) := by
  simp only [evalExpr, Except.bind, bind]
  cases evalExpr fns ops R d arg env c with
  | error m => rfl
  | ok t => obtain ⟨v, env1, c1⟩ := t; rfl

theorem evalExpr_fn_cos (fns : FnTable) (ops : FloatOps) (R : RandSrc) (d : ℕ) (arg : Expr) (env : Env) (c : ℕ) :
    evalExpr fns ops R d (.function .cos arg) env c =
      match evalExpr fns ops R d arg env c with
      | .error m => .error m
      | .ok (v, env1, c1) => .ok (ops.fcos v, env1, c1) := by
  simp only [evalExpr, Except.bind, bind]
  cases evalExpr fns ops R d arg env c with
  | error m => rfl
  | ok t => obtain ⟨v, env1, c1⟩ := t; rfl

theorem evalExpr_fn_tan (fns : FnTable) (ops : FloatOps) (R : RandSrc) (d : ℕ) (arg : Expr) (env : Env) (c : ℕ) :
    evalExpr fns ops R d (.function .tan arg) env c =
      match evalExpr fns ops R d arg env c with
      | .error m => .error m
      | .ok (v, env1, c1) => .ok (ops.ftan v, env1, c1) := by
  simp only [evalExpr, Except.bind, bind]
  cases evalExpr fns ops R d arg env c with
  | error m => rfl
  | ok t => obtain ⟨v, env1, c1⟩ := t; rfl

theorem evalExpr_fn_cot (fns : FnTable) (ops : FloatOps) (R : RandSrc) (d : ℕ) (arg : Expr) (env : Env) (c : ℕ) :
    evalExpr fns ops R d (.function .cot arg) env c =
      match evalExpr fns ops R d arg env c with
      | .error m => .error m
      | .ok (v, env1, c1) => .ok ((FVal.fin 1).fdiv (ops.ftan v), env1, c1) := by
  simp only [evalExpr, Except.bind, bind]
  cases evalExpr fns ops R d arg env c with
  | error m => rfl
  | ok t => obtain ⟨v, env1, c1⟩ := t; rfl

theorem evalExpr_fn_sec (fns : FnTable) (ops : FloatOps) (R : RandSrc) (d : ℕ) (arg : Expr) (env : Env) (c : ℕ) :
    evalExpr fns ops R d (.function .sec arg) env c =
      match evalExpr fns ops R d arg env c with
      | .error m => .error m
      | .ok (v, env1, c1) => .ok ((FVal.fin 1).fdiv (ops.fcos v), env1, c1) := by
  simp only [evalExpr, Except.bind, bind]
  cases evalExpr fns ops R d arg env c with
  | error m => rfl
  | ok t => obtain ⟨v, env1, c1⟩ := t; rfl

theorem evalExpr_fn_csc (fns : FnTable) (ops : FloatOps) (R : RandSrc) (d : ℕ) (arg : Expr) (env : Env) (c : ℕ) :
    evalExpr fns ops R d (.function .csc arg) env c =
      match evalExpr fns ops R d arg env c with
      | .error m => .error m
      | .ok (v, env1, c1) => .ok ((FVal.fin 1).fdiv (ops.fsin v), env1, c1) := by
  simp only [evalExpr, Except.bind, bind]
  cases evalExpr fns ops R d arg env c with
  | error m => rfl
  | ok t => obtain ⟨v, env1, c1⟩ := t; rfl

theorem evalExpr_fn_sinh (fns : FnTable) (ops : FloatOps) (R : RandSrc) (d : ℕ) (arg : Expr) (env : Env) (c : ℕ) :
    evalExpr fns ops R d (.function .sinh arg) env c =
      match evalExpr fns ops R d arg env c with
      | .error m => .error m
      | .ok (v, env1, c1) => .ok (ops.fsinh v, env1, c1) := by
  simp only [evalExpr, Except.bind, bind]
  cases evalExpr fns ops R d arg env c with
  | error m => rfl
  | ok t => obtain ⟨v, env1, c1⟩ := t; rfl

theorem evalExpr_fn_cosh (fns : FnTable) (ops : FloatOps) (R : RandSrc) (d : ℕ) (arg : Expr) (env : Env) (c : ℕ) :
    evalExpr fns ops R d (.function .cosh arg) env c =
      match evalExpr fns ops R d arg env c with
      | .error m => .error m
      | .ok (v, env1, c1) => .ok (ops.fcosh v, env1, c1) := by
  simp only [evalExpr, Except.bind, bind]
  cases evalExpr fns ops R d arg env c with
  | error m => rfl
  | ok t => obtain ⟨v, env1, c1⟩ := t; rfl

theorem evalExpr_fn_tanh (fns : FnTable) (ops : FloatOps) (R : RandSrc) (d : ℕ) (arg : Expr) (env : Env) (c : ℕ) :
    evalExpr fns ops R d (.function .tanh arg) env c =
      match evalExpr fns ops R d arg env c with
      | .error m => .error m
      | .ok (v, env1, c1) => .ok (ops.ftanh v, env1, c1) := by
  simp only [evalExpr, Except.bind, bind]
  cases evalExpr fns ops R d arg env c with
  | error m => rfl
  | ok t => obtain ⟨v, env1, c1⟩ := t; rfl

theorem evalExpr_fn_asinh (fns : FnTable) (ops : FloatOps) (R : RandSrc) (d : ℕ) (arg : Expr) (env : Env) (c : ℕ) :
    evalExpr fns ops R d (.function .asinh arg) env c =
      match evalExpr fns ops R d arg env c with
      | .error m => .error m
      | .ok (v, env1, c1) => .ok (ops.fasinh v, env1, c1) := by
  simp only [evalExpr, Except.bind, bind]
  cases evalExpr fns ops R d arg env c with
  | error m => rfl
  | ok t => obtain ⟨v, env1, c1⟩ := t; rfl

theorem evalExpr_fn_acosh (fns : FnTable) (ops : FloatOps) (R : RandSrc) (d : ℕ) (arg : Expr) (env : Env) (c : ℕ) :
    evalExpr fns ops R d (.function .acosh arg) env c =
      match evalExpr fns ops R d arg env c with
      | .error m => .error m
      | .ok (v, env1, c1) => .ok (ops.facosh v, env1, c1) := by
  simp only [evalExpr, Except.bind, bind]
  cases evalExpr fns ops R d arg env c with
  | error m => rfl
  | ok t => obtain ⟨v, env1, c1⟩ := t; rfl

theorem evalExpr_fn_atanh (fns : FnTable) (ops : FloatOps) (R : RandSrc) (d : ℕ) (arg : Expr) (env : Env) (c : ℕ) :
    evalExpr fns ops R d (.function .atanh arg) env c =
      match evalExpr fns ops R d arg env c with
      | .error m => .error m
      | .ok (v, env1, c1) => .ok (ops.fatanh v, env1, c1) := by
  simp only [evalExpr, Except.bind, bind]
  cases evalExpr fns ops R d arg env c with
  | error m => rfl
  | ok t => obtain ⟨v, env1, c1⟩ := t; rfl

theorem evalExpr_fn_exp (fns : FnTable) (ops : FloatOps) (R : RandSrc) (d : ℕ) (arg : Expr) (env : Env) (c : ℕ) :
    evalExpr fns ops R d (.function .exp arg) env c =
      match evalExpr fns ops R d arg env c with
      | .error m => .error m
      | .ok (v, env1, c1) => .ok (ops.fexp v, env1, c1) := by
  simp only [evalExpr, Except.bind, bind]
  cases evalExpr fns ops R d arg env c with
  | error m => rfl
  | ok t => obtain ⟨v, env1, c1⟩ := t; rfl

theorem evalExpr_fn_log (fns : FnTable) (ops : FloatOps) (R : RandSrc) (d : ℕ) (arg : Expr) (env : Env) (c : ℕ) :
    evalExpr fns ops R d (.function .log arg) env c =
      match evalExpr fns ops R d arg env c with
      | .error m => .error m
      | .ok (v, env1, c1) => .ok (ops.fln v, env1, c1) := by
  simp only [evalExpr, Except.bind, bind]
  cases evalExpr fns ops R d arg env c with
  | error m => rfl
  | ok t => obtain ⟨v, env1, c1⟩ := t; rfl

theorem evalExpr_fn_log10 (fns : FnTable) (ops : FloatOps) (R : RandSrc) (d : ℕ) (arg : Expr) (env : Env) (c : ℕ) :
    evalExpr fns ops R d (.function .log10 arg) env c =
      match evalExpr fns ops R d arg env c with
      | .error m => .error m
      | .ok (v, env1, c1) => .ok (ops.flog10 v, env1, c1) := by
  simp only [evalExpr, Except.bind, bind]
  cases evalExpr fns ops R d arg env c with
  | error m => rfl
  | ok t => obtain ⟨v, env1, c1⟩ := t; rfl

theorem evalExpr_fn_log2 (fns : FnTable) (ops : FloatOps) (R : RandSrc) (d : ℕ) (arg : Expr) (env : Env) (c : ℕ) :
    evalExpr fns ops R d (.function .log2 arg) env c =
      match evalExpr fns ops R d arg env c with
      | .error m => .error m
      | .ok (v, env1, c1) => .ok (ops.flog2 v, env1, c1) := by
  simp only [evalExpr, Except.bind, bind]
  cases evalExpr fns ops R d arg env c with
  | error m => rfl
  | ok t => obtain ⟨v, env1, c1⟩ := t; rfl

theorem evalExpr_fn_sqrt (fns : FnTable) (ops : FloatOps) (R : RandSrc) (d : ℕ) (arg : Expr) (env : Env) (c : ℕ) :
    evalExpr fns ops R d (.function .sqrt arg) env c =
      match evalExpr fns ops R d arg env c with
      | .error m => .error m
      | .ok (v, env1, c1) => .ok (ops.fsqrt v, env1, c1) := by
  simp only [evalExpr, Except.bind, bind]
  cases evalExpr fns ops R d arg env c with
  | error m => rfl
  | ok t => obtain ⟨v, env1, c1⟩ := t; rfl

theorem evalExpr_fn_abs (fns : FnTable) (ops : FloatOps) (R : RandSrc) (d : ℕ) (arg : Expr) (env : Env) (c : ℕ) :
    evalExpr fns ops R d (.function .abs arg) env c =
      match evalExpr fns ops R d arg env c with
      | .error m => .error m
      | .ok (v, env1, c1) => .ok (v.fabs, env1, c1) := by
  simp only [evalExpr, Except.bind, bind]
  cases evalExpr fns ops R d arg env c with
  | error m => rfl
  | ok t => obtain ⟨v, env1, c1⟩ := t; rfl

theorem evalExpr_fn_asin (fns : FnTable) (ops : FloatOps) (R : RandSrc) (d : ℕ) (arg : Expr) (env : Env) (c : ℕ) :
    evalExpr fns ops R d (.function .asin arg) env c =
      match evalExpr fns ops R d arg env c with
      | .error m => .error m
      | .ok (v, env1, c1) => .ok (ops.fasin v, env1, c1) := by
  simp only [evalExpr, Except.bind, bind]
  cases evalExpr fns ops R d arg env c with
  | error m => rfl
  | ok t => obtain ⟨v, env1, c1⟩ := t; rfl

theorem evalExpr_fn_acos (fns : FnTable) (ops : FloatOps) (R : RandSrc) (d : ℕ) (arg : Expr) (env : Env) (c : ℕ) :
    evalExpr fns ops R d (.function .acos arg) env c =
      match evalExpr fns ops R d arg env c with
      | .error m => .error m
      | .ok (v, env1, c1) => .ok (ops.facos v, env1, c1) := by
  simp only [evalExpr, Except.bind, bind]
  cases evalExpr fns ops R d arg env c with
  | error m => rfl
  | ok t => obtain ⟨v, env1, c1⟩ := t; rfl

theorem evalExpr_fn_atan (fns : FnTable) (ops : FloatOps) (R : RandSrc) (d : ℕ) (arg : Expr) (env : Env) (c : ℕ) :
    evalExpr fns ops R d (.function .atan arg) env c =
      match evalExpr fns ops R d arg env c with
      | .error m => .error m
      | .ok (v, env1, c1) => .ok (ops.fatan v, env1, c1) := by
  simp only [evalExpr, Except.bind, bind]
  cases evalExpr fns ops R d arg env c with
  | error m => rfl
  | ok t => obtain ⟨v, env1, c1⟩ := t; rfl

theorem evalExpr_fn_acot (fns : FnTable) (ops : FloatOps) (R : RandSrc) (d : ℕ) (arg : Expr) (env : Env) (c : ℕ) :
    evalExpr fns ops R d (.function .acot arg) env c =
      match evalExpr fns ops R d arg env c with
      | .error m => .error m
      | .ok (v, env1, c1) => .ok (ops.fatan ((FVal.fin 1).fdiv v), env1, c1) := by
  simp only [evalExpr, Except.bind, bind]
  cases evalExpr fns ops R d arg env c with
  | error m => rfl
  | ok t => obtain ⟨v, env1, c1⟩ := t; rfl

theorem evalExpr_fn_asec (fns : FnTable) (ops : FloatOps) (R : RandSrc) (d : ℕ) (arg : Expr) (env : Env) (c : ℕ) :
    evalExpr fns ops R d (.function .asec arg) env c =
      match evalExpr fns ops R d arg env c with
      | .error m => .error m
      | .ok (v, env1, c1) => .ok (ops.facos ((FVal.fin 1).fdiv v), env1, c1) := by
  simp only [evalExpr, Except.bind, bind]
  cases evalExpr fns ops R d arg env c with
  | error m => rfl
  | ok t => obtain ⟨v, env1, c1⟩ := t; rfl

theorem evalExpr_fn_acsc (fns : FnTable) (ops : FloatOps) (R : RandSrc) (d : ℕ) (arg : Expr) (env : Env) (c : ℕ) :
    evalExpr fns ops R d (.function .acsc arg) env c =
      match evalExpr fns ops R d arg env c with
      | .error m => .error m
      | .ok (v, env1, c1) => .ok (ops.fasin ((FVal.fin 1).fdiv v), env1, c1) := by
  simp only [evalExpr, Except.bind, bind]
  cases evalExpr fns ops R d arg env c with
  | error m => rfl
  | ok t => obtain ⟨v, env1, c1⟩ := t; rfl

theorem evalExpr_fn_fact (fns : FnTable) (ops : FloatOps) (R : RandSrc) (d : ℕ) (arg : Expr) (env : Env) (c : ℕ) :
    evalExpr fns ops R d (.function .fact arg) env c =
      match evalExpr fns ops R d arg env c with
      | .error m => .error m
      | .ok (v, env1, c1) => .ok (factorial v, env1, c1) := by
  simp only [evalExpr, Except.bind, bind]
  cases evalExpr fns ops R d arg env c with
  | error m => rfl
  | ok t => obtain ⟨v, env1, c1⟩ := t; rfl

theorem evalExpr_fn_floor (fns : FnTable) (ops : FloatOps) (R : RandSrc) (d : ℕ) (arg : Expr) (env : Env) (c : ℕ) :
    evalExpr fns ops R d (.function .floor arg) env c =
      match evalExpr fns ops R d arg env c with
      | .error m => .error m
      | .ok (v, env1, c1) => .ok (v.ffloor, env1, c1) := by
  simp only [evalExpr, Except.bind, bind]
  cases evalExpr fns ops R d arg env c with
  | error m => rfl
  | ok t => obtain ⟨v, env1, c1⟩ := t; rfl

theorem evalExpr_fn_pow (fns : FnTable) (ops : FloatOps) (R : RandSrc) (d : ℕ) (arg : Expr) (env : Env) (c : ℕ) :
    evalExpr fns ops R d (.function .pow arg) env c =
      match evalExpr fns ops R d arg env c with
      | .error m => .error m
      | .ok (v, env1, c1) => .ok (v, env1, c1) := by
  simp only [evalExpr, Except.bind, bind]
  cases evalExpr fns ops R d arg env c with
  | error m => rfl
  | ok t => obtain ⟨v, env1, c1⟩ := t; rfl

theorem evalExpr_fn_rand (fns : FnTable) (ops : FloatOps) (R : RandSrc) (d : ℕ) (arg : Expr) (env : Env) (c : ℕ) :
    evalExpr fns ops R d (.function .rand arg) env c =
      match evalExpr fns ops R d arg env c with
      | .error m => .error m
      | .ok (_, env1, c1) => .ok (R.randF c1, env1, c1 + 1) := by
  simp only [evalExpr, Except.bind, bind]
  cases evalExpr fns ops R d arg env c with
  | error m => rfl
  | ok t => obtain ⟨v, env1, c1⟩ := t; rfl

theorem evalExpr_fn_logBase (fns : FnTable) (ops : FloatOps) (R : RandSrc) (d : ℕ) (arg : Expr) (env : Env) (c : ℕ) :
    evalExpr fns ops R d (.function .logBase arg) env c =
      match evalExpr fns ops R d arg env c with
      | .error m => .error m
      | .ok (_, _, _) => .error "log base not supported in user function body" := by
  simp only [evalExpr, Except.bind, bind]
  cases evalExpr fns ops R d arg env c with
  | error m => rfl
  | ok t => obtain ⟨v, env1, c1⟩ := t; rfl

theorem evalExpr_fn_randInt (fns : FnTable) (ops : FloatOps) (R : RandSrc) (d : ℕ) (arg : Expr) (env : Env) (c : ℕ) :
    evalExpr fns ops R d (.function .randInt arg) env c =
      match evalExpr fns ops R d arg env c with
      | .error m => .error m
      | .ok (_, _, _) => .error "randint not supported in user function body" := by
  simp only [evalExpr, Except.bind, bind]
  cases evalExpr fns ops R d arg env c with
  | error m => rfl
  | ok t => obtain ⟨v, env1, c1⟩ := t; rfl

theorem evalExpr_functionDef (fns : FnTable) (ops : FloatOps) (R : RandSrc) (d : ℕ) (name arg : String) (body : Expr) (env : Env) (c : ℕ) :
    evalExpr fns ops R d (.functionDef name arg body) env c =
      .error "Nested function definitions not supported in body" := by
  simp only [evalExpr]

theorem evalExpr_functionCall (fns : FnTable) (ops : FloatOps) (R : RandSrc) (d : ℕ) (name : String) (arg : Expr) (env : Env) (c : ℕ) :
    evalExpr fns ops R d (.functionCall name arg) env c =
      match evalExpr fns ops R d arg env c with
      | .error m => .error m
      | .ok (av, env1, c1) =>
        match fns name with
        | none => .error "User-defined function not found in body"
        | some (param, body) =>
          match d with
          | 0 => .error "recursion budget exhausted"
          | d2 + 1 =>
            match evalExpr fns ops R d2 body (env1.insert param av) c1 with
            | .error m => .error m
            | .ok (v, env2, c2) => .ok (v, env2.restore param (env1 param), c2) := by
  simp only [evalExpr, Except.bind, bind]
  cases evalExpr fns ops R d arg env c with
  | error m => rfl
  | ok t =>
      obtain ⟨av, env1, c1⟩ := t
      simp only
      cases fns name with
      | none => rfl
      | some pb =>
          obtain ⟨param, body⟩ := pb
          cases d with
          | zero => rfl
          | succ d2 =>
              simp only
              cases evalExpr fns ops R d2 body (env1.insert param av) c1 with
              | error m => rfl
              | ok t2 => obtain ⟨v, env2, c2⟩ := t2; rfl

theorem evalExpr_sequence (fns : FnTable) (ops : FloatOps) (R : RandSrc) (d : ℕ) (es : List Expr) (env : Env) (c : ℕ) :
    evalExpr fns ops R d (.sequence es) env c = evalSeq fns ops R d es (.fin 0) env c := by
  simp only [evalExpr]

theorem evalExpr_sum (fns : FnTable) (ops : FloatOps) (R : RandSrc) (d : ℕ) (lo hi : Expr) (param : String) (body : Expr) (env : Env) (c : ℕ) :
    evalExpr fns ops R d (.sum lo hi param body) env c =
      match evalExpr fns ops R d lo env c with
      | .error m => .error m
      | .ok (lv, env1, c1) =>
        match evalExpr fns ops R d hi env1 c1 with
        | .error m => .error m
        | .ok (hv, env2, c2) =>
            evalLoop fns ops R d true param body (intRange lv.ceilI64 hv.floorI64) (FVal.fin 0) env2 c2 := by
  simp only [evalExpr, Except.bind, bind]
  cases evalExpr fns ops R d lo env c with
  | error m => rfl
  | ok t =>
      obtain ⟨lv, env1, c1⟩ := t
      simp only
      cases evalExpr fns ops R d hi env1 c1 with
      | error m => rfl
      | ok t2 => obtain ⟨hv, env2, c2⟩ := t2; rfl

theorem evalExpr_product (fns : FnTable) (ops : FloatOps) (R : RandSrc) (d : ℕ) (lo hi : Expr) (param : String) (body : Expr) (env : Env) (c : ℕ) :
    evalExpr fns ops R d (.product lo hi param body) env c =
      match evalExpr fns ops R d lo env c with
      | .error m => .error m
      | .ok (lv, env1, c1) =>
        match evalExpr fns ops R d hi env1 c1 with
        | .error m => .error m
        | .ok (hv, env2, c2) =>
            evalLoop fns ops R d false param body (intRange lv.ceilI64 hv.floorI64) (FVal.fin 1) env2 c2 := by
  simp only [evalExpr, Except.bind, bind]
  cases evalExpr fns ops R d lo env c with
  | error m => rfl
  | ok t =>
      obtain ⟨lv, env1, c1⟩ := t
      simp only
      cases evalExpr fns ops R d hi env1 c1 with
      | error m => rfl
      | ok t2 => obtain ⟨hv, env2, c2⟩ := t2; rfl

theorem evalSeq_nil (fns : FnTable) (ops : FloatOps) (R : RandSrc) (d : ℕ) (last : FVal) (env : Env) (c : ℕ) :
    evalSeq fns ops R d [] last env c = .ok (last, env, c) := by
  simp only [evalSeq]

theorem evalSeq_cons (fns : FnTable) (ops : FloatOps) (R : RandSrc) (d : ℕ) (e : Expr) (es : List Expr) (last : FVal) (env : Env) (c : ℕ) :
    evalSeq fns ops R d (e :: es) last env c =
      match evalExpr fns ops R d e env c with
      | .error m => .error m
      | .ok (v, env1, c1) => evalSeq fns ops R d es v env1 c1 := by
  simp only [evalSeq, Except.bind, bind]
  cases evalExpr fns ops R d e env c with
  | error m => rfl
  | ok t => obtain ⟨v, env1, c1⟩ := t; rfl

theorem evalLoop_nil (fns : FnTable) (ops : FloatOps) (R : RandSrc) (d : ℕ) (isSum : Bool) (param : String) (body : Expr) (acc : FVal)
    (env : Env) (c : ℕ) :
    evalLoop fns ops R d isSum param body [] acc env c = .ok (acc, env, c) := by
  simp only [evalLoop]

theorem evalLoop_cons (fns : FnTable) (ops : FloatOps) (R : RandSrc) (d : ℕ) (isSum : Bool) (param : String) (body : Expr) (i : ℤ)
    (is : List ℤ) (acc : FVal) (env : Env) (c : ℕ) :
    evalLoop fns ops R d isSum param body (i :: is) acc env c =
      match evalExpr fns ops R d body (env.insert param (.fin i)) c with
      | .error m => .error m
      | .ok (v, env1, c1) =>
          evalLoop fns ops R d isSum param body is
            (if isSum then acc.fadd v else acc.fmul v) (env1.restore param (env param)) c1 := by
  simp only [evalLoop, Except.bind, bind]
  cases evalExpr fns ops R d body (env.insert param (.fin i)) c with
  | error m => rfl
  | ok t => obtain ⟨v, env1, c1⟩ := t; rfl

theorem runInner_nil (fns : FnTable) (ops : FloatOps) (R : RandSrc) (d : ℕ) (s : Stack) (env : Env) (c : ℕ) :
    runInner fns ops R d [] s env c = .ok (s, env, c) := by
  simp only [runInner]

theorem runInner_cons (fns : FnTable) (ops : FloatOps) (R : RandSrc) (d : ℕ) (i : Bytecode) (rest : Program) (s : Stack) (env : Env) (c : ℕ) :
    runInner fns ops R d (i :: rest) s env c =
      match execInstr fns ops R d i s env c with
      | .error m => .error m
      | .ok (s1, env1, c1) => runInner fns ops R d rest s1 env1 c1 := by
  simp only [runInner, Except.bind, bind]
  cases execInstr fns ops R d i s env c with
  | error m => rfl
  | ok t => obtain ⟨s1, env1, c1⟩ := t; rfl

theorem runLoop_nil (fns : FnTable) (ops : FloatOps) (R : RandSrc) (d : ℕ) (isSum : Bool) (param : String) (body : Program) (acc : FVal)
    (env : Env) (c : ℕ) :
    runLoop fns ops R d isSum param body [] acc env c = .ok (acc, env, c) := by
  simp only [runLoop]

theorem runLoop_cons (fns : FnTable) (ops : FloatOps) (R : RandSrc) (d : ℕ) (isSum : Bool) (param : String) (body : Program) (i : ℤ)
    (is : List ℤ) (acc : FVal) (env : Env) (c : ℕ) :
    runLoop fns ops R d isSum param body (i :: is) acc env c =
      match runInner fns ops R d body [] (env.insert param (.fin i)) c with
      | .error m => .error m
      | .ok ([], _, _) => .error "No result on stack (body)"
      | .ok (v :: _, env1, c1) =>
          runLoop fns ops R d isSum param body is
            (if isSum then acc.fadd v else acc.fmul v) (env1.restore param (env param)) c1 := by
  simp only [runLoop, Except.bind, bind]
  cases runInner fns ops R d body [] (env.insert param (.fin i)) c with
  | error m => rfl
  | ok t =>
      obtain ⟨bs, env1, c1⟩ := t
      cases bs with
      | nil => rfl
      | cons v rest => rfl

theorem runTopLoop_nil (fns : FnTable) (ops : FloatOps) (R : RandSrc) (d : ℕ) (isSum : Bool) (param : String) (body : Program) (acc : FVal)
    (env : Env) (c : ℕ) :
    runTopLoop fns ops R d isSum param body [] acc env c = .ok (acc, env, c) := by
  simp only [runTopLoop]

theorem runTopLoop_cons (fns : FnTable) (ops : FloatOps) (R : RandSrc) (d : ℕ) (isSum : Bool) (param : String) (body : Program) (i : ℤ)
    (is : List ℤ) (acc : FVal) (env : Env) (c : ℕ) :
    runTopLoop fns ops R d isSum param body (i :: is) acc env c =
      match runInner fns ops R d body [] (env.insert param (.fin i)) c with
      | .error m => .error m
      | .ok ([], _, _) => .error "No result on stack (body)"
      | .ok (v :: _, env1, c1) =>
          runTopLoop fns ops R d isSum param body is
            (if isSum then acc.fadd v else acc.fmul v) env1 c1 := by
  simp only [runTopLoop, Except.bind, bind]
  cases runInner fns ops R d body [] (env.insert param (.fin i)) c with
  | error m => rfl
  | ok t =>
      obtain ⟨bs, env1, c1⟩ := t
      cases bs with
      | nil => rfl
      | cons v rest => rfl

theorem runTop_nil (fns : FnTable) (ops : FloatOps) (R : RandSrc) (d : ℕ) (s : Stack) (env : Env) (c : ℕ) :
    runTop fns ops R d [] s env c = .ok (s, env, c) := by
  simp only [runTop]

theorem runTop_sumLoop_cons (fns : FnTable) (ops : FloatOps) (R : RandSrc) (d : ℕ) (lo hi : Program) (param : String) (body : Program)
    (rest : Program) (s : Stack) (env : Env) (c : ℕ) :
    runTop fns ops R d (.sumLoop lo hi param body :: rest) s env c =
      match runInner fns ops R d lo [] env c with
      | .error m => .error m
      | .ok ([], _, _) => .error "No result on stack (from)"
      | .ok (lv :: _, env1, c1) =>
        match runInner fns ops R d hi [] env1 c1 with
        | .error m => .error m
        | .ok ([], _, _) => .error "No result on stack (to)"
        | .ok (hv :: _, env2, c2) =>
          match runTopLoop fns ops R d true param body
              (intRange lv.ceilI64 hv.floorI64) (FVal.fin 0) env2 c2 with
          | .error m => .error m
          | .ok (acc, env3, c3) => runTop fns ops R d rest (acc :: s) (env3.remove param) c3 := by
  simp only [runTop, Except.bind, bind]
  cases runInner fns ops R d lo [] env c with
  | error m => rfl
  | ok t =>
      obtain ⟨s1, env1, c1⟩ := t
      cases s1 with
      | nil => rfl
      | cons lv r1 =>
          simp only
          cases runInner fns ops R d hi [] env1 c1 with
          | error m => rfl
          | ok t2 =>
              obtain ⟨s2, env2, c2⟩ := t2
              cases s2 with
              | nil => rfl
              | cons hv r2 =>
                  simp only
                  cases runTopLoop fns ops R d true param body
                      (intRange lv.ceilI64 hv.floorI64) (FVal.fin 0) env2 c2 with
                  | error m => rfl
                  | ok t3 => obtain ⟨acc, env3, c3⟩ := t3; rfl

theorem runTop_productLoop_cons (fns : FnTable) (ops : FloatOps) (R : RandSrc) (d : ℕ) (lo hi : Program) (param : String) (body : Program)
    (rest : Program) (s : Stack) (env : Env) (c : ℕ) :
    runTop fns ops R d (.productLoop lo hi param body :: rest) s env c =
      match runInner fns ops R d lo [] env c with
      | .error m => .error m
      | .ok ([], _, _) => .error "No result on stack (from)"
      | .ok (lv :: _, env1, c1) =>
        match runInner fns ops R d hi [] env1 c1 with
        | .error m => .error m
        | .ok ([], _, _) => .error "No result on stack (to)"
        | .ok (hv :: _, env2, c2) =>
          match runTopLoop fns ops R d false param body
              (intRange lv.ceilI64 hv.floorI64) (FVal.fin 1) env2 c2 with
          | .error m => .error m
          | .ok (acc, env3, c3) => runTop fns ops R d rest (acc :: s) (env3.remove param) c3 := by
  simp only [runTop, Except.bind, bind]
  cases runInner fns ops R d lo [] env c with
  | error m => rfl
  | ok t =>
      obtain ⟨s1, env1, c1⟩ := t
      cases s1 with
      | nil => rfl
      | cons lv r1 =>
          simp only
          cases runInner fns ops R d hi [] env1 c1 with
          | error m => rfl
          | ok t2 =>
              obtain ⟨s2, env2, c2⟩ := t2
              cases s2 with
              | nil => rfl
              | cons hv r2 =>
                  simp only
                  cases runTopLoop fns ops R d false param body
                      (intRange lv.ceilI64 hv.floorI64) (FVal.fin 1) env2 c2 with
                  | error m => rfl
                  | ok t3 => obtain ⟨acc, env3, c3⟩ := t3; rfl

theorem compile_number (n : FVal) : compile (.number n) = some [.pushNumber n] := by
  simp only [compile]

theorem compile_ident (name : String) : compile (.ident name) = some [.loadVar name] := by
  simp only [compile]

theorem compile_assign (name : String) (e : Expr) :
    compile (.assign name e) =
      match compile e with
      | none => none
      | some p => some (p ++ [.storeVar name]) := by
  simp only [compile, Option.bind, bind]
  cases compile e <;> rfl

theorem compile_binaryOp (l : Expr) (op : BinaryOperator) (r : Expr) :
    compile (.binaryOp l op r) =
      match compile l with
      | none => none
      | some lp =>
        match compile r with
        | none => none
        | some rp =>
            some (lp ++ rp ++ [match op with
              | .plus => .add
              | .minus => .sub
              | .star => .mul
              | .slash => .div
              | .pow => .pow]) := by
  simp only [compile, Option.bind, bind]
  cases compile l with
  | none => rfl
  | some lp =>
      simp only
      cases compile r <;> rfl

theorem compile_fn_sin (arg : Expr) :
    compile (.function .sin arg) =
      match compile arg with
      | none => none
      | some p => some (p ++ [.sin]) := by
  simp only [compile, Option.bind, bind]
  cases compile arg <;> rfl

theorem compile_fn_cos (arg : Expr) :
    compile (.function .cos arg) =
      match compile arg with
      | none => none
      | some p => some (p ++ [.cos]) := by
  simp only [compile, Option.bind, bind]
  cases compile arg <;> rfl

theorem compile_fn_tan (arg : Expr) :
    compile (.function .tan arg) =
      match compile arg with
      | none => none
      | some p => some (p ++ [.tan]) := by
  simp only [compile, Option.bind, bind]
  cases compile arg <;> rfl

theorem compile_fn_cot (arg : Expr) :
    compile (.function .cot arg) =
      match compile arg with
      | none => none
      | some p => some (p ++ [.cot]) := by
  simp only [compile, Option.bind, bind]
  cases compile arg <;> rfl

theorem compile_fn_sec (arg : Expr) :
    compile (.function .sec arg) =
      match compile arg with
      | none => none
      | some p => some (p ++ [.sec]) := by
  simp only [compile, Option.bind, bind]
  cases compile arg <;> rfl

theorem compile_fn_csc (arg : Expr) :
    compile (.function .csc arg) =
      match compile arg with
      | none => none
      | some p => some (p ++ [.csc]) := by
  simp only [compile, Option.bind, bind]
  cases compile arg <;> rfl

theorem compile_fn_sinh (arg : Expr) :
    compile (.function .sinh arg) =
      match compile arg with
      | none => none
      | some p => some (p ++ [.sinh]) := by
  simp only [compile, Option.bind, bind]
  cases compile arg <;> rfl

theorem compile_fn_cosh (arg : Expr) :
    compile (.function .cosh arg) =
      match compile arg with
      | none => none
      | some p => some (p ++ [.cosh]) := by
  simp only [compile, Option.bind, bind]
  cases compile arg <;> rfl

theorem compile_fn_tanh (arg : Expr) :
    compile (.function .tanh arg) =
      match compile arg with
      | none => none
      | some p => some (p ++ [.tanh]) := by
  simp only [compile, Option.bind, bind]
  cases compile arg <;> rfl

theorem compile_fn_asinh (arg : Expr) :
    compile (.function .asinh arg) =
      match compile arg with
      | none => none
      | some p => some (p ++ [.asinh]) := by
  simp only [compile, Option.bind, bind]
  cases compile arg <;> rfl

theorem compile_fn_acosh (arg : Expr) :
    compile (.function .acosh arg) =
      match compile arg with
      | none => none
      | some p => some (p ++ [.acosh]) := by
  simp only [compile, Option.bind, bind]
  cases compile arg <;> rfl

theorem compile_fn_atanh (arg : Expr) :
    compile (.function .atanh arg) =
      match compile arg with
      | none => none
      | some p => some (p ++ [.atanh]) := by
  simp only [compile, Option.bind, bind]
  cases compile arg <;> rfl

theorem compile_fn_exp (arg : Expr) :
    compile (.function .exp arg) =
      match compile arg with
      | none => none
      | some p => some (p ++ [.exp]) := by
  simp only [compile, Option.bind, bind]
  cases compile arg <;> rfl

theorem compile_fn_log (arg : Expr) :
    compile (.function .log arg) =
      match compile arg with
      | none => none
      | some p => some (p ++ [.log]) := by
  simp only [compile, Option.bind, bind]
  cases compile arg <;> rfl

theorem compile_fn_log10 (arg : Expr) :
    compile (.function .log10 arg) =
      match compile arg with
      | none => none
      | some p => some (p ++ [.log10]) := by
  simp only [compile, Option.bind, bind]
  cases compile arg <;> rfl

theorem compile_fn_log2 (arg : Expr) :
    compile (.function .log2 arg) =
      match compile arg with
      | none => none
      | some p => some (p ++ [.log2]) := by
  simp only [compile, Option.bind, bind]
  cases compile arg <;> rfl

theorem compile_fn_sqrt (arg : Expr) :
    compile (.function .sqrt arg) =
      match compile arg with
      | none => none
      | some p => some (p ++ [.sqrt]) := by
  simp only [compile, Option.bind, bind]
  cases compile arg <;> rfl

theorem compile_fn_abs (arg : Expr) :
    compile (.function .abs arg) =
      match compile arg with
      | none => none
      | some p => some (p ++ [.abs]) := by
  simp only [compile, Option.bind, bind]
  cases compile arg <;> rfl

theorem compile_fn_asin (arg : Expr) :
    compile (.function .asin arg) =
      match compile arg with
      | none => none
      | some p => some (p ++ [.asin]) := by
  simp only [compile, Option.bind, bind]
  cases compile arg <;> rfl

theorem compile_fn_acos (arg : Expr) :
    compile (.function .acos arg) =
      match compile arg with
      | none => none
      | some p => some (p ++ [.acos]) := by
  simp only [compile, Option.bind, bind]
  cases compile arg <;> rfl

theorem compile_fn_atan (arg : Expr) :
    compile (.function .atan arg) =
      match compile arg with
      | none => none
      | some p => some (p ++ [.atan]) := by
  simp only [compile, Option.bind, bind]
  cases compile arg <;> rfl

theorem compile_fn_acot (arg : Expr) :
    compile (.function .acot arg) =
      match compile arg with
      | none => none
      | some p => some (p ++ [.acot]) := by
  simp only [compile, Option.bind, bind]
  cases compile arg <;> rfl

theorem compile_fn_asec (arg : Expr) :
    compile (.function .asec arg) =
      match compile arg with
      | none => none
      | some p => some (p ++ [.asec]) := by
  simp only [compile, Option.bind, bind]
  cases compile arg <;> rfl

theorem compile_fn_acsc (arg : Expr) :
    compile (.function .acsc arg) =
      match compile arg with
      | none => none
      | some p => some (p ++ [.acsc]) := by
  simp only [compile, Option.bind, bind]
  cases compile arg <;> rfl

theorem compile_fn_pow (arg : Expr) :
    compile (.function .pow arg) =
      match compile arg with
      | none => none
      | some p => some (p ++ [.pow]) := by
  simp only [compile, Option.bind, bind]
  cases compile arg <;> rfl

theorem compile_fn_fact (arg : Expr) :
    compile (.function .fact arg) =
      match compile arg with
      | none => none
      | some p => some (p ++ [.fact]) := by
  simp only [compile, Option.bind, bind]
  cases compile arg <;> rfl

theorem compile_fn_floor (arg : Expr) :
    compile (.function .floor arg) =
      match compile arg with
      | none => none
      | some p => some (p ++ [.floor]) := by
  simp only [compile, Option.bind, bind]
  cases compile arg <;> rfl

theorem compile_fn_rand (arg : Expr) : compile (.function .rand arg) = some [.rand] := by
  simp only [compile]

theorem compile_functionDef (name arg : String) (body : Expr) :
    compile (.functionDef name arg body) = some [] := by
  simp only [compile]

theorem compile_functionCall (name : String) (arg : Expr) :
    compile (.functionCall name arg) =
      match compile arg with
      | none => none
      | some p => some (p ++ [.callUserFunction name]) := by
  simp only [compile, Option.bind, bind]
  cases compile arg <;> rfl

theorem compile_sequence (es : List Expr) :
    compile (.sequence es) = compileSeq es := by
  simp only [compile]

theorem compileSeq_nil : compileSeq [] = some [] := by
  simp only [compileSeq]

theorem compileSeq_single (e : Expr) : compileSeq [e] = compile e := by
  simp only [compileSeq]

theorem compileSeq_cons (e e2 : Expr) (es : List Expr) :
    compileSeq (e :: e2 :: es) =
      match compile e with
      | none => none
      | some p =>
        match compileSeq (e2 :: es) with
        | none => none
        | some r => some (p ++ (if e.isAssign then [] else [.storeVar "_tmp"]) ++ r) := by
  simp only [compileSeq, Option.bind, bind]
  cases compile e with
  | none => rfl
  | some p =>
      simp only
      cases compileSeq (e2 :: es) <;> rfl

theorem pureE_number (n : FVal) : pureE (.number n) = true := by simp [pureE]

theorem pureE_ident (x : String) : pureE (.ident x) = !(x == "_tmp") := by simp only [pureE]

theorem pureE_assign (x : String) (e : Expr) : pureE (.assign x e) = false := by
  simp only [pureE]

theorem pureE_binaryOp (l : Expr) (op : BinaryOperator) (r : Expr) :
    pureE (.binaryOp l op r) = (pureE l && pureE r) := by simp only [pureE]

theorem pureE_function (f : SpecialFunction) (a : Expr) :
    pureE (.function f a) = (vmSafeFn f && pureE a) := by simp only [pureE]

theorem pureE_functionDef (n a : String) (b : Expr) : pureE (.functionDef n a b) = false := by
  simp only [pureE]

theorem pureE_functionCall (n : String) (a : Expr) : pureE (.functionCall n a) = false := by
  simp only [pureE]

theorem pureE_sequence (es : List Expr) : pureE (.sequence es) = seqOk es := by
  simp only [pureE]

theorem pureE_sum (lo hi : Expr) (p : String) (b : Expr) : pureE (.sum lo hi p b) = false := by
  simp only [pureE]

theorem pureE_product (lo hi : Expr) (p : String) (b : Expr) :
    pureE (.product lo hi p b) = false := by
  simp only [pureE]

theorem stmtE_assign (x : String) (e : Expr) : stmtE (.assign x e) = pureE e := by
  simp only [stmtE]

theorem seqOk_nil : seqOk [] = false := by simp only [seqOk]

theorem seqOk_single (e : Expr) : seqOk [e] = pureE e := by simp only [seqOk]

theorem seqOk_cons (e e2 : Expr) (es : List Expr) :
    seqOk (e :: e2 :: es) = (stmtE e && seqOk (e2 :: es)) := by
  simp only [seqOk]

theorem stmtE_number (n : FVal) : stmtE (.number n) = pureE (.number n) := by
  simp only [stmtE]

theorem stmtE_ident (x : String) : stmtE (.ident x) = pureE (.ident x) := by
  simp only [stmtE]

theorem stmtE_binaryOp (l : Expr) (op : BinaryOperator) (r : Expr) : stmtE (.binaryOp l op r) = pureE (.binaryOp l op r) := by
  simp only [stmtE]

theorem stmtE_function (f : SpecialFunction) (a : Expr) : stmtE (.function f a) = pureE (.function f a) := by
  simp only [stmtE]

theorem stmtE_functionDef (n a : String) (b : Expr) : stmtE (.functionDef n a b) = pureE (.functionDef n a b) := by
  simp only [stmtE]

theorem stmtE_functionCall (n : String) (a : Expr) : stmtE (.functionCall n a) = pureE (.functionCall n a) := by
  simp only [stmtE]

theorem stmtE_sequence (es : List Expr) : stmtE (.sequence es) = pureE (.sequence es) := by
  simp only [stmtE]

theorem stmtE_sum (lo hi : Expr) (p : String) (b : Expr) : stmtE (.sum lo hi p b) = pureE (.sum lo hi p b) := by
  simp only [stmtE]

theorem stmtE_product (lo hi : Expr) (p : String) (b : Expr) : stmtE (.product lo hi p b) = pureE (.product lo hi p b) := by
  simp only [stmtE]


/-! ## Compiler correctness on VM-compatible expressions -/

theorem envAgree_refl (e : Env) : envAgree e e := fun _ _ => rfl

theorem envAgree_insert {ev vv : Env} (h : envAgree ev vv) (k : String) (v : FVal) :
    envAgree (ev.insert k v) (vv.insert k v) := by
  intro k2 hk2
  by_cases hkk : k2 = k
  · subst hkk; simp [Env.insert]
  · simp [Env.insert, hkk, h k2 hk2]

theorem envAgree_insert_tmp {ev vv : Env} (h : envAgree ev vv) (v : FVal) :
    envAgree ev (vv.insert "_tmp" v) := by
  intro k2 hk2
  simp [Env.insert, hk2, h k2 hk2]

set_option maxHeartbeats 3200000 in
mutual

/-- Running the compiled code of a value-producing VM-compatible
expression from a VM environment that agrees with the evaluator's
environment pushes exactly the evaluator's value (or both sides fail),
leaving the stack below untouched and the environments in agreement. -/
theorem compilePure_correct (fns : FnTable) (ops : FloatOps) (R : RandSrc) (d : ℕ) :
    ∀ (e : Expr), pureE e = true → ∀ (p : Program), compile e = some p →
    ∀ (ev vv : Env), envAgree ev vv → ∀ (s : Stack) (c : ℕ),
    (match evalExpr fns ops R d e ev c with
     | .error _ => ∃ m, runInner fns ops R d p s vv c = .error m
     | .ok (v, ev2, c2) => ∃ vv2,
         runInner fns ops R d p s vv c = .ok (v :: s, vv2, c2) ∧ envAgree ev2 vv2)
  | .number n, he, p, hc, ev, vv, hag, s, c => by
      rw [compile_number, Option.some.injEq] at hc
      subst hc
      simp only [evalExpr_number]
      exact ⟨vv, by simp only [runInner_cons, execInstr_pushNumber, runInner_nil], hag⟩
  | .ident x, he, p, hc, ev, vv, hag, s, c => by
      rw [compile_ident, Option.some.injEq] at hc
      subst hc
      rw [pureE_ident] at he
      have hx : x ≠ "_tmp" := by simpa using he
      simp only [evalExpr_ident]
      cases hvx : ev x with
      | none =>
          have hvv : vv x = none := by rw [← hag x hx]; exact hvx
          exact ⟨"Variable not found", by
            simp only [runInner_cons, execInstr_loadVar_missing fns ops R d x s vv c hvv]⟩
      | some v =>
          have hvv : vv x = some v := by rw [← hag x hx]; exact hvx
          exact ⟨vv, by
            simp only [runInner_cons, execInstr_loadVar_found fns ops R d x v s vv c hvv,
              runInner_nil], hag⟩
  | .assign x e2, he, p, hc, ev, vv, hag, s, c => by
      rw [pureE_assign] at he; exact absurd he (by simp)
  | .functionDef n a b, he, p, hc, ev, vv, hag, s, c => by
      rw [pureE_functionDef] at he; exact absurd he (by simp)
  | .functionCall n a, he, p, hc, ev, vv, hag, s, c => by
      rw [pureE_functionCall] at he; exact absurd he (by simp)
  | .sum lo hi pr b, he, p, hc, ev, vv, hag, s, c => by
      rw [pureE_sum] at he; exact absurd he (by simp)
  | .product lo hi pr b, he, p, hc, ev, vv, hag, s, c => by
      rw [pureE_product] at he; exact absurd he (by simp)
  | .binaryOp l op r, he, p, hc, ev, vv, hag, s, c => by
      rw [pureE_binaryOp, Bool.and_eq_true] at he
      obtain ⟨hl, hr⟩ := he
      rw [compile_binaryOp] at hc
      cases hcl : compile l with
      | none => rw [hcl] at hc; exact absurd hc (by simp)
      | some lp =>
        rw [hcl] at hc
        cases hcr : compile r with
        | none => simp only [hcr] at hc; exact absurd hc (by simp)
        | some rp =>
          simp only [hcr, Option.some.injEq] at hc
          subst hc
          simp only [evalExpr_binaryOp]
          cases hevl : evalExpr fns ops R d l ev c with
          | error m =>
              simp only [hevl]
              have hih := compilePure_correct fns ops R d l hl lp hcl ev vv hag s c
              rw [hevl] at hih
              obtain ⟨m2, hm⟩ := hih
              exact ⟨m2, by simp only [List.append_assoc, runInner_append, hm]⟩
          | ok t =>
              obtain ⟨lv, ev1, c1⟩ := t
              simp only [hevl]
              have hih := compilePure_correct fns ops R d l hl lp hcl ev vv hag s c
              rw [hevl] at hih
              obtain ⟨vv1, hrun1, hag1⟩ := hih
              cases hevr : evalExpr fns ops R d r ev1 c1 with
              | error m =>
                  simp only [hevr]
                  have hih2 := compilePure_correct fns ops R d r hr rp hcr ev1 vv1 hag1
                    (lv :: s) c1
                  rw [hevr] at hih2
                  obtain ⟨m2, hm2⟩ := hih2
                  exact ⟨m2, by simp only [List.append_assoc, runInner_append, hrun1, hm2]⟩
              | ok t2 =>
                  obtain ⟨rv, ev2, c2⟩ := t2
                  simp only [hevr]
                  have hih2 := compilePure_correct fns ops R d r hr rp hcr ev1 vv1 hag1
                    (lv :: s) c1
                  rw [hevr] at hih2
                  obtain ⟨vv2, hrun2, hag2⟩ := hih2
                  refine ⟨vv2, ?_, hag2⟩
                  cases op <;>
                    simp only [List.append_assoc, runInner_append, hrun1, hrun2,
                      runInner_cons, runInner_nil, execInstr_add, execInstr_sub,
                      execInstr_mul, execInstr_div, execInstr_pow]
  | .function f arg, he, p, hc, ev, vv, hag, s, c => by
      rw [pureE_function, Bool.and_eq_true] at he
      obtain ⟨hsafe, harg⟩ := he
      cases f
      case rand => simp [vmSafeFn] at hsafe
      case randInt => simp [vmSafeFn] at hsafe
      case logBase => simp [vmSafeFn] at hsafe
      case pow => simp [vmSafeFn] at hsafe
      all_goals
        simp only [compile_fn_sin, compile_fn_cos, compile_fn_tan, compile_fn_cot, compile_fn_sec, compile_fn_csc, compile_fn_sinh, compile_fn_cosh, compile_fn_tanh, compile_fn_asinh, compile_fn_acosh, compile_fn_atanh, compile_fn_exp, compile_fn_log, compile_fn_log10, compile_fn_log2, compile_fn_sqrt, compile_fn_abs, compile_fn_asin, compile_fn_acos, compile_fn_atan, compile_fn_acot, compile_fn_asec, compile_fn_acsc, compile_fn_fact, compile_fn_floor] at hc
        cases hca : compile arg with
        | none => rw [hca] at hc; exact absurd hc (by simp)
        | some ap =>
          rw [hca] at hc
          simp only [Option.some.injEq] at hc
          subst hc
          simp only [evalExpr_fn_sin, evalExpr_fn_cos, evalExpr_fn_tan, evalExpr_fn_cot, evalExpr_fn_sec, evalExpr_fn_csc, evalExpr_fn_sinh, evalExpr_fn_cosh, evalExpr_fn_tanh, evalExpr_fn_asinh, evalExpr_fn_acosh, evalExpr_fn_atanh, evalExpr_fn_exp, evalExpr_fn_log, evalExpr_fn_log10, evalExpr_fn_log2, evalExpr_fn_sqrt, evalExpr_fn_abs, evalExpr_fn_asin, evalExpr_fn_acos, evalExpr_fn_atan, evalExpr_fn_acot, evalExpr_fn_asec, evalExpr_fn_acsc, evalExpr_fn_fact, evalExpr_fn_floor]
          cases hev : evalExpr fns ops R d arg ev c with
          | error m =>
              simp only [hev]
              have hih := compilePure_correct fns ops R d arg harg ap hca ev vv hag s c
              rw [hev] at hih
              obtain ⟨m2, hm⟩ := hih
              exact ⟨m2, by simp only [runInner_append, hm]⟩
          | ok t =>
              obtain ⟨v, ev1, c1⟩ := t
              simp only [hev]
              have hih := compilePure_correct fns ops R d arg harg ap hca ev vv hag s c
              rw [hev] at hih
              obtain ⟨vv1, hrun, hag1⟩ := hih
              refine ⟨vv1, ?_, hag1⟩
              simp only [runInner_append, hrun, runInner_cons, runInner_nil, execInstr_sin, execInstr_cos, execInstr_tan, execInstr_cot, execInstr_sec, execInstr_csc, execInstr_sinh, execInstr_cosh, execInstr_tanh, execInstr_asinh, execInstr_acosh, execInstr_atanh, execInstr_exp, execInstr_log, execInstr_log10, execInstr_log2, execInstr_sqrt, execInstr_abs, execInstr_asin, execInstr_acos, execInstr_atan, execInstr_acot, execInstr_asec, execInstr_acsc, execInstr_fact, execInstr_floor]
  | .sequence es, he, p, hc, ev, vv, hag, s, c => by
      rw [pureE_sequence] at he
      rw [compile_sequence] at hc
      simp only [evalExpr_sequence]
      exact compileSeqOk_correct fns ops R d es he p hc (.fin 0) ev vv hag s c
termination_by e => (sizeOf e, 0)

/-- Statement version: an assignment's compiled code leaves the stack
unchanged (its value is consumed by the emitted store); any other
statement behaves as a value-producing expression. -/
theorem compileStmt_correct (fns : FnTable) (ops : FloatOps) (R : RandSrc) (d : ℕ) :
    ∀ (e : Expr), stmtE e = true → ∀ (p : Program), compile e = some p →
    ∀ (ev vv : Env), envAgree ev vv → ∀ (s : Stack) (c : ℕ),
    (match evalExpr fns ops R d e ev c with
     | .error _ => ∃ m, runInner fns ops R d p s vv c = .error m
     | .ok (v, ev2, c2) => ∃ vv2,
         runInner fns ops R d p s vv c =
           .ok ((if e.isAssign then s else v :: s), vv2, c2) ∧ envAgree ev2 vv2)
  | .assign x e2, he, p, hc, ev, vv, hag, s, c => by
      rw [stmtE_assign] at he
      rw [compile_assign] at hc
      cases hce : compile e2 with
      | none => rw [hce] at hc; exact absurd hc (by simp)
      | some ep =>
        rw [hce] at hc
        simp only [Option.some.injEq] at hc
        subst hc
        simp only [evalExpr_assign]
        cases hev : evalExpr fns ops R d e2 ev c with
        | error m =>
            simp only [hev]
            have hih := compilePure_correct fns ops R d e2 he ep hce ev vv hag s c
            rw [hev] at hih
            obtain ⟨m2, hm⟩ := hih
            exact ⟨m2, by simp only [runInner_append, hm]⟩
        | ok t =>
            obtain ⟨v, ev1, c1⟩ := t
            simp only [hev]
            have hih := compilePure_correct fns ops R d e2 he ep hce ev vv hag s c
            rw [hev] at hih
            obtain ⟨vv1, hrun, hag1⟩ := hih
            refine ⟨vv1.insert x v, ?_, envAgree_insert hag1 x v⟩
            simp [runInner_append, hrun, runInner_cons, execInstr_storeVar,
              runInner_nil, Expr.isAssign]
  | .number n, he, p, hc, ev, vv, hag, s, c => by
      rw [stmtE_number] at he
      exact compilePure_correct fns ops R d (.number n) he p hc ev vv hag s c
  | .ident x, he, p, hc, ev, vv, hag, s, c => by
      rw [stmtE_ident] at he
      exact compilePure_correct fns ops R d (.ident x) he p hc ev vv hag s c
  | .binaryOp l op r, he, p, hc, ev, vv, hag, s, c => by
      rw [stmtE_binaryOp] at he
      exact compilePure_correct fns ops R d (.binaryOp l op r) he p hc ev vv hag s c
  | .function f a, he, p, hc, ev, vv, hag, s, c => by
      rw [stmtE_function] at he
      exact compilePure_correct fns ops R d (.function f a) he p hc ev vv hag s c
  | .functionDef n a b, he, p, hc, ev, vv, hag, s, c => by
      rw [stmtE_functionDef] at he
      exact compilePure_correct fns ops R d (.functionDef n a b) he p hc ev vv hag s c
  | .functionCall n a, he, p, hc, ev, vv, hag, s, c => by
      rw [stmtE_functionCall] at he
      exact compilePure_correct fns ops R d (.functionCall n a) he p hc ev vv hag s c
  | .sequence es, he, p, hc, ev, vv, hag, s, c => by
      rw [stmtE_sequence] at he
      exact compilePure_correct fns ops R d (.sequence es) he p hc ev vv hag s c
  | .sum lo hi pr b, he, p, hc, ev, vv, hag, s, c => by
      rw [stmtE_sum] at he
      exact compilePure_correct fns ops R d (.sum lo hi pr b) he p hc ev vv hag s c
  | .product lo hi pr b, he, p, hc, ev, vv, hag, s, c => by
      rw [stmtE_product] at he
      exact compilePure_correct fns ops R d (.product lo hi pr b) he p hc ev vv hag s c
termination_by e => (sizeOf e, 1)

/-- Sequence-body version: the compiled element list executes the
statements in order, discards every non-final value through the `_tmp`
store, and pushes exactly the final element's value. -/
theorem compileSeqOk_correct (fns : FnTable) (ops : FloatOps) (R : RandSrc) (d : ℕ) :
    ∀ (es : List Expr), seqOk es = true → ∀ (p : Program), compileSeq es = some p →
    ∀ (acc : FVal) (ev vv : Env), envAgree ev vv → ∀ (s : Stack) (c : ℕ),
    (match evalSeq fns ops R d es acc ev c with
     | .error _ => ∃ m, runInner fns ops R d p s vv c = .error m
     | .ok (v, ev2, c2) => ∃ vv2,
         runInner fns ops R d p s vv c = .ok (v :: s, vv2, c2) ∧ envAgree ev2 vv2)
  | [], he, p, hc, acc, ev, vv, hag, s, c => by
      rw [seqOk_nil] at he; exact absurd he (by simp)
  | [e], he, p, hc, acc, ev, vv, hag, s, c => by
      rw [seqOk_single] at he
      rw [compileSeq_single] at hc
      simp only [evalSeq_cons]
      have hih := compilePure_correct fns ops R d e he p hc ev vv hag s c
      cases hev : evalExpr fns ops R d e ev c with
      | error m =>
          try simp only [hev]
          rw [hev] at hih
          exact hih
      | ok t =>
          obtain ⟨v, ev1, c1⟩ := t
          try simp only [hev, evalSeq_nil]
          rw [hev] at hih
          exact hih
  | e :: e2 :: rest2, he, p, hc, acc, ev, vv, hag, s, c => by
      rw [seqOk_cons, Bool.and_eq_true] at he
      obtain ⟨hstmt, hrest⟩ := he
      rw [compileSeq_cons] at hc
      cases hce : compile e with
      | none => rw [hce] at hc; exact absurd hc (by simp)
      | some pe =>
        rw [hce] at hc
        cases hcr : compileSeq (e2 :: rest2) with
        | none => simp only [hcr] at hc; exact absurd hc (by simp)
        | some pr =>
          simp only [hcr, Option.some.injEq] at hc
          subst hc
          rw [evalSeq_cons]
          cases hev : evalExpr fns ops R d e ev c with
          | error m =>
              try simp only [hev]
              have hih := compileStmt_correct fns ops R d e hstmt pe hce ev vv hag s c
              rw [hev] at hih
              obtain ⟨m2, hm⟩ := hih
              exact ⟨m2, by simp only [List.append_assoc, runInner_append, hm]⟩
          | ok t =>
              obtain ⟨v, ev1, c1⟩ := t
              try simp only [hev]
              have hih := compileStmt_correct fns ops R d e hstmt pe hce ev vv hag s c
              rw [hev] at hih
              obtain ⟨vv1, hrun1, hag1⟩ := hih
              by_cases hassign : e.isAssign = true
              · rw [if_pos hassign] at hrun1
                have hpeq : pe ++ (if e.isAssign then [] else [.storeVar "_tmp"]) ++ pr =
                    pe ++ pr := by
                  rw [hassign]
                  simp
                rw [hpeq]
                have hihr := compileSeqOk_correct fns ops R d (e2 :: rest2) hrest pr hcr
                  v ev1 vv1 hag1 s c1
                cases hevs : evalSeq fns ops R d (e2 :: rest2) v ev1 c1 with
                | error m =>
                    try simp only [hevs]
                    rw [hevs] at hihr
                    obtain ⟨m2, hm2⟩ := hihr
                    exact ⟨m2, by simp only [runInner_append, hrun1, hm2]⟩
                | ok t2 =>
                    obtain ⟨v2, ev2, c2⟩ := t2
                    try simp only [hevs]
                    rw [hevs] at hihr
                    obtain ⟨vv2, hrun2, hag2⟩ := hihr
                    exact ⟨vv2, by simp only [runInner_append, hrun1, hrun2], hag2⟩
              · have hassign2 : e.isAssign = false := by
                  simpa using hassign
                rw [if_neg (by simp [hassign2])] at hrun1
                have hpeq : pe ++ (if e.isAssign then [] else [.storeVar "_tmp"]) ++ pr =
                    pe ++ ([Bytecode.storeVar "_tmp"] ++ pr) := by
                  rw [hassign2]
                  simp
                rw [hpeq]
                have hag1t := envAgree_insert_tmp hag1 v
                have hihr := compileSeqOk_correct fns ops R d (e2 :: rest2) hrest pr hcr
                  v ev1 (vv1.insert "_tmp" v) hag1t s c1
                cases hevs : evalSeq fns ops R d (e2 :: rest2) v ev1 c1 with
                | error m =>
                    try simp only [hevs]
                    rw [hevs] at hihr
                    obtain ⟨m2, hm2⟩ := hihr
                    exact ⟨m2, by
                      simp only [runInner_append, hrun1, runInner_cons,
                        execInstr_storeVar, runInner_nil, hm2]⟩
                | ok t2 =>
                    obtain ⟨v2, ev2, c2⟩ := t2
                    try simp only [hevs]
                    rw [hevs] at hihr
                    obtain ⟨vv2, hrun2, hag2⟩ := hihr
                    exact ⟨vv2, by
                      simp only [runInner_append, hrun1, runInner_cons,
                        execInstr_storeVar, runInner_nil, hrun2], hag2⟩
termination_by es => (sizeOf es, 0)

end

/-! ## Claim theorems: error handling and float semantics -/

/-- Claim C8: executing the `Fact` instruction on `3` pushes `6` and on
`-1` pushes NaN, and executing `Div` with left operand `1` and right
operand `0` (the right operand on top of the stack) pushes positive
infinity — each is an `ok` outcome, never a typed error. -/
theorem C8_fact_neg_div_zero_follow_float_semantics
    (fns : FnTable) (ops : FloatOps) (R : RandSrc) (d : ℕ)
    (s : Stack) (env : Env) (c : ℕ) :
    execInstr fns ops R d .fact (.fin 3 :: s) env c = .ok (.fin 6 :: s, env, c) ∧
    execInstr fns ops R d .fact (.fin (-1) :: s) env c = .ok (.nan :: s, env, c) ∧
    execInstr fns ops R d .div (.fin 0 :: .fin 1 :: s) env c = .ok (.inf :: s, env, c) := by
  refine ⟨?_, ?_, ?_⟩
  · have h3 : factorial (.fin 3) = .fin 6 := by
      norm_num [factorial, FVal.floorU64, Nat.factorial]
    rw [execInstr_fact, h3]
  · have hneg : factorial (.fin (-1)) = .nan := by
      norm_num [factorial]
    rw [execInstr_fact, hneg]
  · have hdiv : (FVal.fin 1).fdiv (.fin 0) = .inf := by
      norm_num [FVal.fdiv]
    rw [execInstr_div, hdiv]

set_option maxHeartbeats 2000000 in
/-- Claim C3 (counterexample): the top-level VM removes a loop's
parameter binding instead of restoring it.  The program binds `i := 7`,
runs `sum(from:1, to:1, para:i, i)` (storing the pushed sum into `z`),
and then reads `i` again: the claim says `i` is restored to `7`, but the
top-level `SumLoop` arm removes `i`, so the final `LoadVar "i"` fails
with "Variable not found". -/
theorem C3_counterexample_toplevel_loop_removes_param :
    run_bytecode_with_functions FnTable.empty trivOps trivRand 0
      [.pushNumber (.fin 7), .storeVar "i",
       .sumLoop [.pushNumber (.fin 1)] [.pushNumber (.fin 1)] "i" [.loadVar "i"],
       .storeVar "z", .loadVar "i"] = .error "Variable not found" := by
  simp only [run_bytecode_with_functions, runTop, execInstr, runInner, runTopLoop,
    Except.bind, bind, intRange, FVal.ceilI64, FVal.floorI64, FVal.satI64,
    FVal.i64Min, FVal.i64Max, Env.insert, Env.empty, Env.remove, ite_true, ite_false]
  norm_num [List.range, List.range.loop, Env.insert, Env.remove, FVal.fadd]
  decide

/-- The parameter binding after an inner-VM loop iteration list equals
the binding before it (each iteration saves the binding before the body
and restores it after). -/
theorem runLoop_restores_param (fns : FnTable) (ops : FloatOps) (R : RandSrc) (d : ℕ)
    (isSum : Bool) (param : String) (body : Program) (is : List ℤ) :
    ∀ (acc : FVal) (env : Env) (c : ℕ) (r : FVal × Env × ℕ),
    runLoop fns ops R d isSum param body is acc env c = .ok r →
    r.2.1 param = env param := by
  induction is with
  | nil =>
      intro acc env c r h
      simp only [runLoop] at h
      cases h
      rfl
  | cons i is ih =>
      intro acc env c r h
      simp only [runLoop] at h
      cases hb : runInner fns ops R d body [] (env.insert param (.fin i)) c with
      | error e => rw [hb] at h; simp [Except.bind, bind] at h
      | ok t =>
          rw [hb] at h
          simp only [Except.bind, bind] at h
          obtain ⟨bs, env1, c1⟩ := t
          cases bs with
          | nil => simp at h
          | cons v _ =>
              simp only at h
              have hres := ih _ _ _ _ h
              rw [hres, Env.restore_same]

/-- Claim C3 (amended): user-function calls (whose instruction is shared
verbatim by both VM entry points) restore the prior binding of the
function's parameter — or leave it unbound — and so do
`SumLoop`/`ProductLoop` instructions executed by the *inner* VM,
relative to the environment after their bound sub-programs ran; the
*top-level* VM instead deletes the loop parameter after the loop, so a
program consisting of a single top-level loop always ends with the
parameter unbound. -/
theorem C3_amended_param_save_restore
    (fns : FnTable) (ops : FloatOps) (R : RandSrc) (d : ℕ) :
    (∀ (isSum : Bool) (param : String) (body : Program) (is : List ℤ)
        (acc : FVal) (env : Env) (c : ℕ) (r : FVal × Env × ℕ),
      runLoop fns ops R d isSum param body is acc env c = .ok r →
      r.2.1 param = env param) ∧
    (∀ (name argName : String) (body : Expr) (s : Stack) (env : Env) (c : ℕ)
        (r : Stack × Env × ℕ),
      fns name = some (argName, body) →
      execInstr fns ops R d (.callUserFunction name) s env c = .ok r →
      r.2.1 argName = env argName) ∧
    (∀ (lo hi body : Program) (param : String) (s s1 s2 : Stack)
        (env env1 env2 : Env) (c c1 c2 : ℕ) (r : Stack × Env × ℕ),
      runInner fns ops R d lo [] env c = .ok (s1, env1, c1) →
      runInner fns ops R d hi [] env1 c1 = .ok (s2, env2, c2) →
      execInstr fns ops R d (.sumLoop lo hi param body) s env c = .ok r →
      r.2.1 param = env2 param) ∧
    (∀ (lo hi body : Program) (param : String) (s s1 s2 : Stack)
        (env env1 env2 : Env) (c c1 c2 : ℕ) (r : Stack × Env × ℕ),
      runInner fns ops R d lo [] env c = .ok (s1, env1, c1) →
      runInner fns ops R d hi [] env1 c1 = .ok (s2, env2, c2) →
      execInstr fns ops R d (.productLoop lo hi param body) s env c = .ok r →
      r.2.1 param = env2 param) ∧
    (∀ (lo hi body : Program) (param : String) (s : Stack) (env : Env) (c : ℕ)
        (r : Stack × Env × ℕ),
      runTop fns ops R d [.sumLoop lo hi param body] s env c = .ok r →
      r.2.1 param = none) := by
  refine ⟨runLoop_restores_param fns ops R d, ?_, ?_, ?_, ?_⟩
  · intro name argName body s env c r hlook hex
    simp only [execInstr, hlook] at hex
    cases s with
    | nil => simp at hex
    | cons argVal s =>
        simp only [Except.bind, bind] at hex
        cases he : evalExpr fns ops R d body (env.insert argName argVal) c with
        | error e => rw [he] at hex; simp at hex
        | ok t =>
            rw [he] at hex
            simp only at hex
            cases hex
            simp [Env.restore_same]
  · intro lo hi body param s s1 s2 env env1 env2 c c1 c2 r h1 h2 hex
    simp only [execInstr, h1, Except.bind, bind] at hex
    cases s1 with
    | nil => simp at hex
    | cons lv _ =>
        simp only [h2] at hex
        cases s2 with
        | nil => simp at hex
        | cons hv _ =>
            simp only at hex
            cases hl : runLoop fns ops R d true param body
                (intRange lv.ceilI64 hv.floorI64) (.fin 0) env2 c2 with
            | error e => rw [hl] at hex; simp at hex
            | ok t =>
                rw [hl] at hex
                simp only at hex
                cases hex
                exact runLoop_restores_param fns ops R d _ _ _ _ _ _ _ _ hl
  · intro lo hi body param s s1 s2 env env1 env2 c c1 c2 r h1 h2 hex
    simp only [execInstr, h1, Except.bind, bind] at hex
    cases s1 with
    | nil => simp at hex
    | cons lv _ =>
        simp only [h2] at hex
        cases s2 with
        | nil => simp at hex
        | cons hv _ =>
            simp only at hex
            cases hl : runLoop fns ops R d false param body
                (intRange lv.ceilI64 hv.floorI64) (.fin 1) env2 c2 with
            | error e => rw [hl] at hex; simp at hex
            | ok t =>
                rw [hl] at hex
                simp only at hex
                cases hex
                exact runLoop_restores_param fns ops R d _ _ _ _ _ _ _ _ hl
  · intro lo hi body param s env c r hrun
    simp only [runTop] at hrun
    cases h1 : runInner fns ops R d lo [] env c with
    | error e => rw [h1] at hrun; simp [Except.bind, bind] at hrun
    | ok t1 =>
        rw [h1] at hrun
        simp only [Except.bind, bind] at hrun
        obtain ⟨s1, env1, c1⟩ := t1
        cases s1 with
        | nil => simp at hrun
        | cons lv _ =>
            simp only at hrun
            cases h2 : runInner fns ops R d hi [] env1 c1 with
            | error e => rw [h2] at hrun; simp at hrun
            | ok t2 =>
                rw [h2] at hrun
                simp only at hrun
                obtain ⟨s2, env2, c2⟩ := t2
                cases s2 with
                | nil => simp at hrun
                | cons hv _ =>
                    simp only at hrun
                    cases hl : runTopLoop fns ops R d true param body
                        (intRange lv.ceilI64 hv.floorI64) (.fin 0) env2 c2 with
                    | error e => rw [hl] at hrun; simp at hrun
                    | ok t3 =>
                        rw [hl] at hrun
                        simp only [runTop] at hrun
                        cases hrun
                        simp [Env.remove]


/-! ## Lexer facts -/

/-- `splitLines` on a nonempty newline-free character list is the single
line itself. -/
theorem splitLines_nonl (c : Char) (cs : List Char)
    (h : (c :: cs).dropWhile (fun x => !(x == '\n')) = []) :
    splitLines (c :: cs) = [(c :: cs).takeWhile (fun x => !(x == '\n'))] := by
  rw [splitLines]
  split
  all_goals first
    | rfl
    | (rename_i heq; rw [h] at heq; exact absurd heq (by simp))
    | simp

/-- One-step unfolding of `tokenizeLine` on a nonempty line. -/
theorem tokenizeLine_cons_eq (c : Char) (cs : List Char) :
    tokenizeLine (c :: cs) =
      if (c.isDigit || c == '.') then
        match parseF64 (c :: cs.takeWhile (fun d => d.isDigit || d == '.')) with
        | some n => .number n :: tokenizeLine (cs.dropWhile (fun d => d.isDigit || d == '.'))
        | none => tokenizeLine (cs.dropWhile (fun d => d.isDigit || d == '.'))
      else if c == '+' then .operator .plus :: tokenizeLine cs
      else if c == '-' then .operator .minus :: tokenizeLine cs
      else if c == '*' then .operator .star :: tokenizeLine cs
      else if c == '/' then .operator .slash :: tokenizeLine cs
      else if c == '^' then .operator .pow :: tokenizeLine cs
      else if c == '!' then .function .fact :: tokenizeLine cs
      else if c == '(' then .lparen :: tokenizeLine cs
      else if c == ')' then .rparen :: tokenizeLine cs
      else if c == '|' then .pipe :: tokenizeLine cs
      else if c == ',' then .comma :: tokenizeLine cs
      else if c == '=' then
        (match cs with
         | '>' :: cs2 => .arrow :: tokenizeLine cs2
         | cs1 => .assign :: tokenizeLine cs1)
      else if c.isAlpha then
        keywordTok (String.mk (c :: cs.takeWhile (fun d => d.isAlphanum || d == '_'))) ::
          tokenizeLine (cs.dropWhile (fun d => d.isAlphanum || d == '_'))
      else tokenizeLine cs := by
  cases cs with
  | nil =>
      rw [tokenizeLine.eq_3 c [] (fun cs2 he => List.noConfusion he)]
  | cons d ds =>
      by_cases hd : d = '>'
      · subst hd
        rw [tokenizeLine.eq_2]
        rfl
      · rw [tokenizeLine.eq_3 c (d :: ds)
          (fun cs2 he => hd (List.cons.inj he).1)]
        have hm : (match d :: ds with
            | '>' :: cs2 => Token.arrow :: tokenizeLine cs2
            | cs1 => Token.assign :: tokenizeLine cs1) =
            Token.assign :: tokenizeLine (d :: ds) := by
          split
          · next cs2 heq => exact absurd ((List.cons.inj heq).1) hd
          · rfl
        rw [hm]

theorem keywordTable_no_asin : ∀ kv ∈ keywordTable, kv.2 ≠ Token.function .asin := by
  decide

theorem keywordTok_ne_asin (s : String) : keywordTok s ≠ Token.function .asin := by
  rw [keywordTok]
  cases hf : keywordTable.find? (fun kv => kv.1 == s.toLower) with
  | none => simp
  | some kv =>
      have hm := List.mem_of_find?_eq_some hf
      exact keywordTable_no_asin kv hm

theorem asin_ne_keywordTok (s : String) : Token.function .asin ≠ keywordTok s :=
  fun h => keywordTok_ne_asin s h.symm

/-- No input line ever lexes to the `Asin` function token. -/
theorem tokenizeLine_no_asin : ∀ (cs : List Char),
    Token.function .asin ∉ tokenizeLine cs := by
  intro cs
  induction cs using tokenizeLine.induct with
  | case1 => simp [tokenizeLine]
  | case2 c cs h1 v hp ih =>
      rw [tokenizeLine_cons_eq]
      simp [h1, hp, List.mem_cons, ih]
  | case3 c cs h1 hp ih =>
      rw [tokenizeLine_cons_eq]
      simp [h1, hp, List.mem_cons, ih]
  | case4 c cs h1 h2 ih =>
      rw [tokenizeLine_cons_eq]
      simp [h1, h2, List.mem_cons, ih]
  | case5 c cs h1 h2 h3 ih =>
      rw [tokenizeLine_cons_eq]
      simp [h1, h2, h3, List.mem_cons, ih]
  | case6 c cs h1 h2 h3 h4 ih =>
      rw [tokenizeLine_cons_eq]
      simp [h1, h2, h3, h4, List.mem_cons, ih]
  | case7 c cs h1 h2 h3 h4 h5 ih =>
      rw [tokenizeLine_cons_eq]
      simp [h1, h2, h3, h4, h5, List.mem_cons, ih]
  | case8 c cs h1 h2 h3 h4 h5 h6 ih =>
      rw [tokenizeLine_cons_eq]
      simp [h1, h2, h3, h4, h5, h6, List.mem_cons, ih]
  | case9 c cs h1 h2 h3 h4 h5 h6 h7 ih =>
      rw [tokenizeLine_cons_eq]
      simp [h1, h2, h3, h4, h5, h6, h7, List.mem_cons, ih]
  | case10 c cs h1 h2 h3 h4 h5 h6 h7 h8 ih =>
      rw [tokenizeLine_cons_eq]
      simp [h1, h2, h3, h4, h5, h6, h7, h8, List.mem_cons, ih]
  | case11 c cs h1 h2 h3 h4 h5 h6 h7 h8 h9 ih =>
      rw [tokenizeLine_cons_eq]
      simp [h1, h2, h3, h4, h5, h6, h7, h8, h9, List.mem_cons, ih]
  | case12 c cs h1 h2 h3 h4 h5 h6 h7 h8 h9 h10 ih =>
      rw [tokenizeLine_cons_eq]
      simp [h1, h2, h3, h4, h5, h6, h7, h8, h9, h10, List.mem_cons, ih]
  | case13 c cs h1 h2 h3 h4 h5 h6 h7 h8 h9 h10 h11 ih =>
      rw [tokenizeLine_cons_eq]
      simp [h1, h2, h3, h4, h5, h6, h7, h8, h9, h10, h11, List.mem_cons, ih]
  | case14 c h1 h2 h3 h4 h5 h6 h7 h8 h9 h10 h11 h12 cs2 ih =>
      rw [tokenizeLine_cons_eq]
      simp [h1, h2, h3, h4, h5, h6, h7, h8, h9, h10, h11, h12, List.mem_cons, ih]
  | case15 c h1 h2 h3 h4 h5 h6 h7 h8 h9 h10 h11 h12 cs1 hne ih =>
      rw [tokenizeLine_cons_eq]
      simp only [h1, h2, h3, h4, h5, h6, h7, h8, h9, h10, h11, h12, ite_true, ite_false, Bool.false_eq_true, if_false, if_true]
      rcases cs1 with _ | ⟨d, ds⟩
      · simp [List.mem_cons, ih]
      · by_cases hd : d = '>'
        · subst hd
          exact absurd rfl (fun he => hne ds he)
        · simp [List.mem_cons, ih]
  | case16 c cs h1 h2 h3 h4 h5 h6 h7 h8 h9 h10 h11 h12 h13 ih =>
      rw [tokenizeLine_cons_eq]
      simp [h1, h2, h3, h4, h5, h6, h7, h8, h9, h10, h11, h12, h13, List.mem_cons, ih, asin_ne_keywordTok]
  | case17 c cs h1 h2 h3 h4 h5 h6 h7 h8 h9 h10 h11 h12 h13 ih =>
      rw [tokenizeLine_cons_eq]
      simp [h1, h2, h3, h4, h5, h6, h7, h8, h9, h10, h11, h12, h13, List.mem_cons, ih]


/-! ## Compiled pure expressions contain only simple instructions -/

set_option maxHeartbeats 1600000 in
mutual

/-- The compiled code of a value-producing VM-compatible expression uses
no `CallUserFunction` and no loop instruction. -/
theorem compilePure_simple : ∀ (e : Expr), pureE e = true → ∀ (p : Program),
    compile e = some p → simpleProg p = true
  | .number n, he, p, hc => by
      rw [compile_number, Option.some.injEq] at hc
      subst hc
      simp [simpleProg, simpleInstr]
  | .ident x, he, p, hc => by
      rw [compile_ident, Option.some.injEq] at hc
      subst hc
      simp [simpleProg, simpleInstr]
  | .assign x e2, he, p, hc => by
      rw [pureE_assign] at he; exact absurd he (by simp)
  | .functionDef n a b, he, p, hc => by
      rw [pureE_functionDef] at he; exact absurd he (by simp)
  | .functionCall n a, he, p, hc => by
      rw [pureE_functionCall] at he; exact absurd he (by simp)
  | .sum lo hi pr b, he, p, hc => by
      rw [pureE_sum] at he; exact absurd he (by simp)
  | .product lo hi pr b, he, p, hc => by
      rw [pureE_product] at he; exact absurd he (by simp)
  | .binaryOp l op r, he, p, hc => by
      rw [pureE_binaryOp, Bool.and_eq_true] at he
      obtain ⟨hl, hr⟩ := he
      rw [compile_binaryOp] at hc
      cases hcl : compile l with
      | none => rw [hcl] at hc; exact absurd hc (by simp)
      | some lp =>
        rw [hcl] at hc
        cases hcr : compile r with
        | none => simp only [hcr] at hc; exact absurd hc (by simp)
        | some rp =>
          simp only [hcr, Option.some.injEq] at hc
          subst hc
          have h1 := compilePure_simple l hl lp hcl
          have h2 := compilePure_simple r hr rp hcr
          simp only [simpleProg, List.all_append] at h1 h2 ⊢
          cases op <;> simp [h1, h2, simpleInstr]
  | .function f arg, he, p, hc => by
      rw [pureE_function, Bool.and_eq_true] at he
      obtain ⟨hsafe, harg⟩ := he
      cases f
      case rand => simp [vmSafeFn] at hsafe
      case randInt => simp [vmSafeFn] at hsafe
      case logBase => simp [vmSafeFn] at hsafe
      case pow => simp [vmSafeFn] at hsafe
      all_goals
        simp only [compile_fn_sin, compile_fn_cos, compile_fn_tan, compile_fn_cot, compile_fn_sec, compile_fn_csc, compile_fn_sinh, compile_fn_cosh, compile_fn_tanh, compile_fn_asinh, compile_fn_acosh, compile_fn_atanh, compile_fn_exp, compile_fn_log, compile_fn_log10, compile_fn_log2, compile_fn_sqrt, compile_fn_abs, compile_fn_asin, compile_fn_acos, compile_fn_atan, compile_fn_acot, compile_fn_asec, compile_fn_acsc, compile_fn_fact, compile_fn_floor] at hc
        cases hca : compile arg with
        | none => rw [hca] at hc; exact absurd hc (by simp)
        | some ap =>
          rw [hca] at hc
          simp only [Option.some.injEq] at hc
          subst hc
          have h1 := compilePure_simple arg harg ap hca
          simp only [simpleProg, List.all_append] at h1 ⊢
          simp [h1, simpleInstr]
  | .sequence es, he, p, hc => by
      rw [pureE_sequence] at he
      rw [compile_sequence] at hc
      exact compileSeqOk_simple es he p hc
termination_by e => (sizeOf e, 0)

/-- Statement version of `compilePure_simple`. -/
theorem compileStmt_simple : ∀ (e : Expr), stmtE e = true → ∀ (p : Program),
    compile e = some p → simpleProg p = true
  | .assign x e2, he, p, hc => by
      rw [stmtE_assign] at he
      rw [compile_assign] at hc
      cases hce : compile e2 with
      | none => rw [hce] at hc; exact absurd hc (by simp)
      | some ep =>
        rw [hce] at hc
        simp only [Option.some.injEq] at hc
        subst hc
        have h1 := compilePure_simple e2 he ep hce
        simp only [simpleProg, List.all_append] at h1 ⊢
        simp [h1, simpleInstr]
  | .number n, he, p, hc => by
      rw [stmtE_number] at he
      exact compilePure_simple (.number n) he p hc
  | .ident x, he, p, hc => by
      rw [stmtE_ident] at he
      exact compilePure_simple (.ident x) he p hc
  | .binaryOp l op r, he, p, hc => by
      rw [stmtE_binaryOp] at he
      exact compilePure_simple (.binaryOp l op r) he p hc
  | .function f a, he, p, hc => by
      rw [stmtE_function] at he
      exact compilePure_simple (.function f a) he p hc
  | .functionDef n a b, he, p, hc => by
      rw [stmtE_functionDef] at he
      exact compilePure_simple (.functionDef n a b) he p hc
  | .functionCall n a, he, p, hc => by
      rw [stmtE_functionCall] at he
      exact compilePure_simple (.functionCall n a) he p hc
  | .sequence es, he, p, hc => by
      rw [stmtE_sequence] at he
      exact compilePure_simple (.sequence es) he p hc
  | .sum lo hi pr b, he, p, hc => by
      rw [stmtE_sum] at he
      exact compilePure_simple (.sum lo hi pr b) he p hc
  | .product lo hi pr b, he, p, hc => by
      rw [stmtE_product] at he
      exact compilePure_simple (.product lo hi pr b) he p hc
termination_by e => (sizeOf e, 1)

/-- Sequence version of `compilePure_simple`. -/
theorem compileSeqOk_simple : ∀ (es : List Expr), seqOk es = true → ∀ (p : Program),
    compileSeq es = some p → simpleProg p = true
  | [], he, p, hc => by
      rw [seqOk_nil] at he; exact absurd he (by simp)
  | [e], he, p, hc => by
      rw [seqOk_single] at he
      rw [compileSeq_single] at hc
      exact compilePure_simple e he p hc
  | e :: e2 :: rest2, he, p, hc => by
      rw [seqOk_cons, Bool.and_eq_true] at he
      obtain ⟨hstmt, hrest⟩ := he
      rw [compileSeq_cons] at hc
      cases hce : compile e with
      | none => rw [hce] at hc; exact absurd hc (by simp)
      | some pe =>
        rw [hce] at hc
        cases hcr : compileSeq (e2 :: rest2) with
        | none => simp only [hcr] at hc; exact absurd hc (by simp)
        | some pr =>
          simp only [hcr, Option.some.injEq] at hc
          subst hc
          have h1 := compileStmt_simple e hstmt pe hce
          have h2 := compileSeqOk_simple (e2 :: rest2) hrest pr hcr
          simp only [simpleProg, List.all_append, Bool.and_eq_true] at h1 h2 ⊢
          refine ⟨⟨h1, ?_⟩, h2⟩
          cases hia : e.isAssign <;> simp [simpleInstr]
termination_by es => (sizeOf es, 0)

end

/-- Simple instructions are in particular not loop instructions. -/
theorem simpleProg_loopFree (p : Program) (h : simpleProg p = true) :
    loopFreeProg p = true := by
  simp only [simpleProg, loopFreeProg, List.all_eq_true] at h ⊢
  intro i hi
  have hsi := h i hi
  cases i <;> simp_all [simpleInstr, loopFreeInstr]

/-! ## Simple instructions never unbind environment keys -/

/-- A simple instruction maps a bound environment key to a bound key. -/
theorem execInstr_env_keep (fns : FnTable) (ops : FloatOps) (R : RandSrc) (d : ℕ)
    (i : Bytecode) (hi : simpleInstr i = true) (s : Stack) (env : Env) (c : ℕ)
    (r : Stack × Env × ℕ) (h : execInstr fns ops R d i s env c = .ok r)
    (k : String) (w : FVal) (hk : env k = some w) : ∃ w2, r.2.1 k = some w2 := by
  cases i
  case callUserFunction n => exact absurd hi (by simp [simpleInstr])
  case sumLoop lo hi2 pa bo => exact absurd hi (by simp [simpleInstr])
  case productLoop lo hi2 pa bo => exact absurd hi (by simp [simpleInstr])
  case storeVar name =>
      rcases s with _ | ⟨v, s⟩
      · simp only [execInstr] at h
        exact absurd h (by simp)
      · simp only [execInstr] at h
        cases h
        by_cases hkn : k = name
        · exact ⟨v, by simp [Env.insert, hkn]⟩
        · exact ⟨w, by simp only [Env.insert]; simp [hkn, hk]⟩
  all_goals rcases s with _ | ⟨a, _ | ⟨b, s⟩⟩
  all_goals simp only [execInstr] at h
  all_goals repeat' split at h
  all_goals try simp only at h
  all_goals repeat' split at h
  all_goals
    first
      | (cases h; exact ⟨w, hk⟩)
      | simp at h

/-- Running a program of simple instructions keeps every bound key bound. -/
theorem runInner_env_keep (fns : FnTable) (ops : FloatOps) (R : RandSrc) (d : ℕ) :
    ∀ (p : Program), simpleProg p = true → ∀ (s : Stack) (env : Env) (c : ℕ)
    (r : Stack × Env × ℕ), runInner fns ops R d p s env c = .ok r →
    ∀ (k : String) (w : FVal), env k = some w → ∃ w2, r.2.1 k = some w2 := by
  intro p
  induction p with
  | nil =>
      intro hp s env c r h k w hk
      rw [runInner_nil] at h
      cases h
      exact ⟨w, hk⟩
  | cons i rest ih =>
      intro hp s env c r h k w hk
      simp only [simpleProg, List.all_cons, Bool.and_eq_true] at hp
      obtain ⟨hi, hrest⟩ := hp
      rw [runInner_cons] at h
      cases hex : execInstr fns ops R d i s env c with
      | error m => rw [hex] at h; exact absurd h (by simp)
      | ok t =>
          rw [hex] at h
          obtain ⟨s1, env1, c1⟩ := t
          simp only at h
          obtain ⟨w1, hw1⟩ := execInstr_env_keep fns ops R d i hi s env c _ hex k w hk
          exact ih hrest s1 env1 c1 r h k w1 hw1

/-! ## Closed form of the top-level loop -/

/-- When every iteration of the body pushes exactly `g i` and leaves the
environment as it found it, the top-level loop accumulates a fold. -/
theorem runTopLoop_closed (fns : FnTable) (ops : FloatOps) (R : RandSrc) (d : ℕ)
    (isSum : Bool) (param : String) (body : Program) (g : ℤ → FVal)
    (hbody : ∀ (i : ℤ) (env : Env) (c : ℕ),
      runInner fns ops R d body [] (env.insert param (.fin i)) c =
        .ok ([g i], env.insert param (.fin i), c)) :
    ∀ (is : List ℤ) (acc : FVal) (env : Env) (c : ℕ),
    ∃ env2, runTopLoop fns ops R d isSum param body is acc env c =
      .ok (is.foldl (fun a i => if isSum then a.fadd (g i) else a.fmul (g i)) acc,
        env2, c) := by
  intro is
  induction is with
  | nil =>
      intro acc env c
      exact ⟨env, by rw [runTopLoop_nil]; simp⟩
  | cons i is ih =>
      intro acc env c
      obtain ⟨env2, h2⟩ :=
        ih (if isSum then acc.fadd (g i) else acc.fmul (g i)) (env.insert param (.fin i)) c
      refine ⟨env2, ?_⟩
      rw [runTopLoop_cons, hbody]
      simpa using h2

/-- The single-`SumLoop` program pushes the fold of `fadd` over the
closed integer range of its bounds. -/
theorem runTop_sum_closed (fns : FnTable) (ops : FloatOps) (R : RandSrc) (d : ℕ)
    (plo phi body : Program) (param : String) (f t : FVal) (g : ℤ → FVal)
    (hlo : ∀ (env : Env) (c : ℕ), runInner fns ops R d plo [] env c = .ok ([f], env, c))
    (hhi : ∀ (env : Env) (c : ℕ), runInner fns ops R d phi [] env c = .ok ([t], env, c))
    (hbody : ∀ (i : ℤ) (env : Env) (c : ℕ),
      runInner fns ops R d body [] (env.insert param (.fin i)) c =
        .ok ([g i], env.insert param (.fin i), c))
    (s : Stack) (env : Env) (c : ℕ) :
    ∃ env2, runTop fns ops R d [.sumLoop plo phi param body] s env c =
      .ok ((intRange f.ceilI64 t.floorI64).foldl (fun a i => a.fadd (g i)) (.fin 0) :: s,
        env2, c) := by
  obtain ⟨env2, h2⟩ := runTopLoop_closed fns ops R d true param body g hbody
    (intRange f.ceilI64 t.floorI64) (.fin 0) env c
  refine ⟨env2.remove param, ?_⟩
  simp only [runTop_sumLoop_cons, hlo, hhi, h2, runTop_nil]
  simp

/-- The single-`ProductLoop` program pushes the fold of `fmul` over the
closed integer range of its bounds. -/
theorem runTop_prod_closed (fns : FnTable) (ops : FloatOps) (R : RandSrc) (d : ℕ)
    (plo phi body : Program) (param : String) (f t : FVal) (g : ℤ → FVal)
    (hlo : ∀ (env : Env) (c : ℕ), runInner fns ops R d plo [] env c = .ok ([f], env, c))
    (hhi : ∀ (env : Env) (c : ℕ), runInner fns ops R d phi [] env c = .ok ([t], env, c))
    (hbody : ∀ (i : ℤ) (env : Env) (c : ℕ),
      runInner fns ops R d body [] (env.insert param (.fin i)) c =
        .ok ([g i], env.insert param (.fin i), c))
    (s : Stack) (env : Env) (c : ℕ) :
    ∃ env2, runTop fns ops R d [.productLoop plo phi param body] s env c =
      .ok ((intRange f.ceilI64 t.floorI64).foldl (fun a i => a.fmul (g i)) (.fin 1) :: s,
        env2, c) := by
  obtain ⟨env2, h2⟩ := runTopLoop_closed fns ops R d false param body g hbody
    (intRange f.ceilI64 t.floorI64) (.fin 1) env c
  refine ⟨env2.remove param, ?_⟩
  simp only [runTop_productLoop_cons, hlo, hhi, h2, runTop_nil]
  simp


/-! ## Small run helpers -/

/-- A one-instruction push program. -/
theorem runConst_push (fns : FnTable) (ops : FloatOps) (R : RandSrc) (d : ℕ)
    (v : FVal) : ∀ (env : Env) (c : ℕ),
    runInner fns ops R d [.pushNumber v] [] env c = .ok ([v], env, c) := by
  intro env c
  simp [runInner_cons, execInstr_pushNumber, runInner_nil]

/-- A one-instruction load of the loop parameter. -/
theorem runBody_loadParam (fns : FnTable) (ops : FloatOps) (R : RandSrc) (d : ℕ)
    (param : String) : ∀ (i : ℤ) (env : Env) (c : ℕ),
    runInner fns ops R d [.loadVar param] [] (env.insert param (.fin i)) c =
      .ok ([.fin i], env.insert param (.fin i), c) := by
  intro i env c
  rw [runInner_cons,
    execInstr_loadVar_found fns ops R d param (.fin i) [] (env.insert param (.fin i)) c
      (Env.insert_same env param (.fin i))]
  simp [runInner_nil]

/-- On non-assignments, `stmtE` is `pureE`. -/
theorem stmtE_of_not_assign (e : Expr) (h : e.isAssign = false) : stmtE e = pureE e := by
  cases e
  case assign n e2 => simp [Expr.isAssign] at h
  case number n => rw [stmtE_number]
  case ident x => rw [stmtE_ident]
  case binaryOp l op r => rw [stmtE_binaryOp]
  case function f a => rw [stmtE_function]
  case functionDef n a b => rw [stmtE_functionDef]
  case functionCall n a => rw [stmtE_functionCall]
  case sequence es => rw [stmtE_sequence]
  case sum lo hi pr b => rw [stmtE_sum]
  case product lo hi pr b => rw [stmtE_product]

/-! ## Claim C1 -/

set_option maxHeartbeats 1600000 in
/-- Claim C1 (counterexample): the source `var x = 3` is syntactically
valid, contains no loop and no user-function definition or call, and the
tree-walking evaluator produces `Ok 3` for it — but compiling the parsed
AST and running the bytecode yields the "No result on stack" error (the
assignment's compiled code leaves nothing on the stack), so the two
pipelines disagree on this loop-free, function-free source. -/
theorem C1_counterexample_lone_assignment :
    tokenize "var x = 3" = [[.varKw, .ident "x", .assign, .number (.fin 3)]] ∧
    parse [[.varKw, .ident "x", .assign, .number (.fin 3)]] =
      .ok (.assign "x" (.number (.fin 3)), FnTable.empty) ∧
    loopFnFree (.assign "x" (.number (.fin 3))) = true ∧
    valOf (evalExpr FnTable.empty trivOps trivRand 0
      (.assign "x" (.number (.fin 3))) Env.empty 0) = .ok (.fin 3) ∧
    compile (.assign "x" (.number (.fin 3))) =
      some [.pushNumber (.fin 3), .storeVar "x"] ∧
    run_bytecode_with_functions FnTable.empty trivOps trivRand 0
      [.pushNumber (.fin 3), .storeVar "x"] = .error "No result on stack" := by
  refine ⟨?_, ?_, ?_, ?_, ?_, ?_⟩
  · have h : ("var x = 3").toList = ['v','a','r',' ','x',' ','=',' ','3'] := by decide
    rw [tokenize, h, splitLines_nonl _ _ (by decide)]
    simp [trimChars, tokenizeLine, keywordTok, keywordTable,
      parseF64, digitsToNat, String.toLower, String.map_eq]
  · simp [parse, parseLines, parseStatement, parseExpr, parseExprLoop, parseTerm,
      parseTermLoop, parsePower, parsePowerLoop, parseFactor, parseArgsLoop,
      parseSumProduct, parseSumProductAfter, factSuffix, parseFuel, Except.bind, bind]
  · simp [loopFnFree, loopFnFreeL]
  · rw [evalExpr_assign, evalExpr_number]
    simp [valOf, Except.map]
  · simp [compile_assign, compile_number]
  · have hlf : loopFreeProg [Bytecode.pushNumber (.fin 3), .storeVar "x"] = true := by
      decide
    simp only [run_bytecode_with_functions,
      runTop_eq_runInner FnTable.empty trivOps trivRand 0 _ hlf [] Env.empty 0,
      runInner_cons, execInstr_pushNumber, execInstr_storeVar, runInner_nil]

/-- Claim C1 (amended): restricted to value-producing VM-compatible
expressions (`pureE`: no loops, no function definitions or calls, no
assignment in value position, none of `rand`/`randint`/two-argument
`log`/`pow`, no use of the reserved name `_tmp`), compiling and running
agrees with direct evaluation from a fresh environment: the same value
on success, and both sides fail together. -/
theorem C1_amended_vm_matches_evaluator_on_pure
    (fns : FnTable) (ops : FloatOps) (R : RandSrc) (d : ℕ) (e : Expr) (p : Program)
    (he : pureE e = true) (hc : compile e = some p) :
    match evalExpr fns ops R d e Env.empty 0 with
    | .error _ => ∃ m, run_bytecode_with_functions fns ops R d p = .error m
    | .ok (v, _, _) => run_bytecode_with_functions fns ops R d p = .ok v := by
  have hmach := compilePure_correct fns ops R d e he p hc Env.empty Env.empty
    (envAgree_refl _) [] 0
  have hlf := simpleProg_loopFree p (compilePure_simple e he p hc)
  cases hev : evalExpr fns ops R d e Env.empty 0 with
  | error m =>
      rw [hev] at hmach
      obtain ⟨m2, hm⟩ := hmach
      exact ⟨m2, by
        simp only [run_bytecode_with_functions,
          runTop_eq_runInner fns ops R d p hlf [] Env.empty 0, hm]⟩
  | ok t =>
      obtain ⟨v, ev2, c2⟩ := t
      rw [hev] at hmach
      obtain ⟨vv2, hrun, hag⟩ := hmach
      simp only [run_bytecode_with_functions,
        runTop_eq_runInner fns ops R d p hlf [] Env.empty 0, hrun]

/-- Witness for C1 (amended) at the pure expression `5`. -/
theorem C1_amended_vm_matches_evaluator_on_pure_witness :
    run_bytecode_with_functions FnTable.empty trivOps trivRand 0
      [.pushNumber (.fin 5)] = .ok (.fin 5) := by
  have h := C1_amended_vm_matches_evaluator_on_pure FnTable.empty trivOps trivRand 0
    (.number (.fin 5)) [.pushNumber (.fin 5)] (pureE_number _) (compile_number _)
  rw [evalExpr_number] at h
  exact h

/-! ## Claim C2 -/

set_option maxHeartbeats 1600000 in
/-- Claim C2: a `SumLoop` (resp. `ProductLoop`) whose bound sub-programs
push `f` and `t` and whose body pushes `g i` under the parameter bound
to `i` pushes the `fadd`-fold (resp. `fmul`-fold) of `g` over the closed
integer range `ceil f .. floor t` started from `0` (resp. `1`) — so an
empty range yields `0` for sum and `1` for product — and concretely
`sum(from: 1, to: 5, para: i, i)` compiles and executes to `15`,
`product(from: 1, to: 4, para: i, i)` to `24`, and the empty-range
`sum(from: 5, to: 1, para: i, i)` / `product(from: 5, to: 1, para: i, i)`
to `0` / `1`. -/
theorem C2_sum_product_loop_semantics
    (fns : FnTable) (ops : FloatOps) (R : RandSrc) (d : ℕ)
    (plo phi body : Program) (param : String) (f t : FVal) (g : ℤ → FVal)
    (hlo : ∀ (env : Env) (c : ℕ), runInner fns ops R d plo [] env c = .ok ([f], env, c))
    (hhi : ∀ (env : Env) (c : ℕ), runInner fns ops R d phi [] env c = .ok ([t], env, c))
    (hbody : ∀ (i : ℤ) (env : Env) (c : ℕ),
      runInner fns ops R d body [] (env.insert param (.fin i)) c =
        .ok ([g i], env.insert param (.fin i), c))
    (s : Stack) (env : Env) (c : ℕ) :
    (∃ env2, runTop fns ops R d [.sumLoop plo phi param body] s env c =
      .ok ((intRange f.ceilI64 t.floorI64).foldl (fun a i => a.fadd (g i)) (.fin 0) :: s,
        env2, c)) ∧
    (∃ env2, runTop fns ops R d [.productLoop plo phi param body] s env c =
      .ok ((intRange f.ceilI64 t.floorI64).foldl (fun a i => a.fmul (g i)) (.fin 1) :: s,
        env2, c)) ∧
    run_bytecode_with_functions fns ops R d
      (compileD (.sum (.number (.fin 1)) (.number (.fin 5)) "i" (.ident "i"))) =
      .ok (.fin 15) ∧
    run_bytecode_with_functions fns ops R d
      (compileD (.product (.number (.fin 1)) (.number (.fin 4)) "i" (.ident "i"))) =
      .ok (.fin 24) ∧
    run_bytecode_with_functions fns ops R d
      (compileD (.sum (.number (.fin 5)) (.number (.fin 1)) "i" (.ident "i"))) =
      .ok (.fin 0) ∧
    run_bytecode_with_functions fns ops R d
      (compileD (.product (.number (.fin 5)) (.number (.fin 1)) "i" (.ident "i"))) =
      .ok (.fin 1) := by
  refine ⟨runTop_sum_closed fns ops R d plo phi body param f t g hlo hhi hbody s env c,
    runTop_prod_closed fns ops R d plo phi body param f t g hlo hhi hbody s env c,
    ?_, ?_, ?_, ?_⟩
  · have hcd : compileD (.sum (.number (.fin 1)) (.number (.fin 5)) "i" (.ident "i")) =
        [.sumLoop [.pushNumber (.fin 1)] [.pushNumber (.fin 5)] "i" [.loadVar "i"]] := by
      simp [compileD, compile]
    obtain ⟨env2, hrun⟩ := runTop_sum_closed fns ops R d _ _ _ "i" (.fin 1) (.fin 5)
      (fun j => .fin j) (runConst_push fns ops R d (.fin 1))
      (runConst_push fns ops R d (.fin 5)) (runBody_loadParam fns ops R d "i") [] Env.empty 0
    have hr : intRange (FVal.ceilI64 (.fin 1)) (FVal.floorI64 (.fin 5)) = [1, 2, 3, 4, 5] := by
      decide
    rw [hcd]
    simp only [run_bytecode_with_functions, hrun, hr]
    norm_num [FVal.fadd]
  · have hcd : compileD (.product (.number (.fin 1)) (.number (.fin 4)) "i" (.ident "i")) =
        [.productLoop [.pushNumber (.fin 1)] [.pushNumber (.fin 4)] "i" [.loadVar "i"]] := by
      simp [compileD, compile]
    obtain ⟨env2, hrun⟩ := runTop_prod_closed fns ops R d _ _ _ "i" (.fin 1) (.fin 4)
      (fun j => .fin j) (runConst_push fns ops R d (.fin 1))
      (runConst_push fns ops R d (.fin 4)) (runBody_loadParam fns ops R d "i") [] Env.empty 0
    have hr : intRange (FVal.ceilI64 (.fin 1)) (FVal.floorI64 (.fin 4)) = [1, 2, 3, 4] := by
      decide
    rw [hcd]
    simp only [run_bytecode_with_functions, hrun, hr]
    norm_num [FVal.fmul]
  · have hcd : compileD (.sum (.number (.fin 5)) (.number (.fin 1)) "i" (.ident "i")) =
        [.sumLoop [.pushNumber (.fin 5)] [.pushNumber (.fin 1)] "i" [.loadVar "i"]] := by
      simp [compileD, compile]
    obtain ⟨env2, hrun⟩ := runTop_sum_closed fns ops R d _ _ _ "i" (.fin 5) (.fin 1)
      (fun j => .fin j) (runConst_push fns ops R d (.fin 5))
      (runConst_push fns ops R d (.fin 1)) (runBody_loadParam fns ops R d "i") [] Env.empty 0
    have hr : intRange (FVal.ceilI64 (.fin 5)) (FVal.floorI64 (.fin 1)) = [] := by
      decide
    rw [hcd]
    simp only [run_bytecode_with_functions, hrun, hr]
    simp
  · have hcd : compileD (.product (.number (.fin 5)) (.number (.fin 1)) "i" (.ident "i")) =
        [.productLoop [.pushNumber (.fin 5)] [.pushNumber (.fin 1)] "i" [.loadVar "i"]] := by
      simp [compileD, compile]
    obtain ⟨env2, hrun⟩ := runTop_prod_closed fns ops R d _ _ _ "i" (.fin 5) (.fin 1)
      (fun j => .fin j) (runConst_push fns ops R d (.fin 5))
      (runConst_push fns ops R d (.fin 1)) (runBody_loadParam fns ops R d "i") [] Env.empty 0
    have hr : intRange (FVal.ceilI64 (.fin 5)) (FVal.floorI64 (.fin 1)) = [] := by
      decide
    rw [hcd]
    simp only [run_bytecode_with_functions, hrun, hr]
    simp

/-- Witness for C2: the general sum part at the concrete
`sum(from: 1, to: 5, para: i, i)` loop. -/
theorem C2_sum_product_loop_semantics_witness :
    ∃ env2, runTop FnTable.empty trivOps trivRand 0
      [.sumLoop [.pushNumber (.fin 1)] [.pushNumber (.fin 5)] "i" [.loadVar "i"]]
      [] Env.empty 0 =
      .ok ((intRange (FVal.ceilI64 (.fin 1)) (FVal.floorI64 (.fin 5))).foldl
        (fun a i => a.fadd (.fin i)) (.fin 0) :: [], env2, 0) :=
  (C2_sum_product_loop_semantics FnTable.empty trivOps trivRand 0
    [.pushNumber (.fin 1)] [.pushNumber (.fin 5)] [.loadVar "i"] "i"
    (.fin 1) (.fin 5) (fun j => .fin j)
    (runConst_push FnTable.empty trivOps trivRand 0 (.fin 1))
    (runConst_push FnTable.empty trivOps trivRand 0 (.fin 5))
    (runBody_loadParam FnTable.empty trivOps trivRand 0 "i") [] Env.empty 0).1

/-! ## Claim C6 -/

/-- Claim C6: after the last instruction the VM returns the top stack
value, and an empty final stack — as produced by the empty program,
which is what empty input parses and compiles to — is the typed
"No result on stack" error (the model's `run_bytecode_with_functions`
is a total function, so no panic is possible). -/
theorem C6_empty_stack_no_result
    (fns : FnTable) (ops : FloatOps) (R : RandSrc) (d : ℕ) :
    (∀ (p : Program) (s2 : Stack) (env2 : Env) (c2 : ℕ),
      runTop fns ops R d p [] Env.empty 0 = .ok (s2, env2, c2) →
      run_bytecode_with_functions fns ops R d p =
        match s2 with
        | [] => .error "No result on stack"
        | v :: _ => .ok v) ∧
    tokenize "" = [] ∧
    parse [] = .ok (.sequence [], FnTable.empty) ∧
    compile (.sequence []) = some [] ∧
    run_bytecode_with_functions fns ops R d [] = .error "No result on stack" := by
  refine ⟨?_, ?_, ?_, ?_, ?_⟩
  · intro p s2 env2 c2 hrun
    simp only [run_bytecode_with_functions, hrun]
  · have h : ("").toList = [] := by decide
    rw [tokenize, h]
    simp [splitLines]
  · rfl
  · rw [compile_sequence, compileSeq_nil]
  · simp only [run_bytecode_with_functions, runTop_nil]

/-! ## Claim C10 -/

/-- Claim C10: no input ever lexes to the `Asin` function token — the
keyword table has no `"asin"` entry, so the word lexes as an identifier —
and concretely `asin(1)` tokenizes to an identifier application, parses
as the user-function call `asin(1)`, compiles to a `CallUserFunction`,
and (with no user function of that name) execution fails with the typed
"User-defined function not found" error instead of computing an inverse
sine. -/
theorem C10_asin_not_keyword (ops : FloatOps) (R : RandSrc) (d : ℕ) :
    (∀ (input : String) (line : List Token), line ∈ tokenize input →
      Token.function .asin ∉ line) ∧
    tokenize "asin(1)" = [[.ident "asin", .lparen, .number (.fin 1), .rparen]] ∧
    parse [[.ident "asin", .lparen, .number (.fin 1), .rparen]] =
      .ok (.functionCall "asin" (.number (.fin 1)), FnTable.empty) ∧
    compile (.functionCall "asin" (.number (.fin 1))) =
      some [.pushNumber (.fin 1), .callUserFunction "asin"] ∧
    run_bytecode_with_functions FnTable.empty ops R d
      [.pushNumber (.fin 1), .callUserFunction "asin"] =
      .error "User-defined function not found" := by
  refine ⟨?_, ?_, ?_, ?_, ?_⟩
  · intro input line hmem
    rw [tokenize] at hmem
    have h1 := (List.mem_filter.mp hmem).1
    obtain ⟨cs, _, rfl⟩ := List.mem_map.mp h1
    exact tokenizeLine_no_asin cs
  · have h : ("asin(1)").toList = ['a','s','i','n','(','1',')'] := by decide
    rw [tokenize, h, splitLines_nonl _ _ (by decide)]
    simp [trimChars, tokenizeLine, keywordTok, keywordTable,
      parseF64, digitsToNat, String.toLower, String.map_eq]
  · simp [parse, parseLines, parseStatement, parseExpr, parseExprLoop, parseTerm,
      parseTermLoop, parsePower, parsePowerLoop, parseFactor, parseArgsLoop,
      parseSumProduct, parseSumProductAfter, factSuffix, parseFuel, Except.bind, bind]
  · simp [compile_functionCall, compile_number]
  · have hlf : loopFreeProg [Bytecode.pushNumber (.fin 1), .callUserFunction "asin"] =
        true := by decide
    simp only [run_bytecode_with_functions,
      runTop_eq_runInner FnTable.empty ops R d _ hlf [] Env.empty 0,
      runInner_cons, execInstr_pushNumber,
      execInstr_callUser_missing FnTable.empty ops R d "asin" [.fin 1] Env.empty 0 rfl]


/-! ## Claim C7 -/

set_option maxHeartbeats 1600000 in
/-- Claim C7: on any argument the evaluator can evaluate, the
tree-walking evaluator returns a typed error for the two-argument
logarithm, for `randint`, and (unconditionally) for a nested function
definition — while the bytecode VM executes `LogBase` and `RandInt` —
and every other AST node kind evaluates successfully inside bodies
(witnessed per node kind: number, identifier, assignment, binary
operation, special function, `rand`, nested user-function call,
sequence, sum and product). -/
theorem C7_evaluator_unsupported_ops
    (fns : FnTable) (ops : FloatOps) (R : RandSrc) (d : ℕ) (arg : Expr)
    (env : Env) (c : ℕ) (av : FVal) (env1 : Env) (c1 : ℕ) (n a : String) (b : Expr)
    (harg : evalExpr fns ops R d arg env c = .ok (av, env1, c1)) :
    evalExpr fns ops R d (.function .logBase arg) env c =
      .error "log base not supported in user function body" ∧
    evalExpr fns ops R d (.function .randInt arg) env c =
      .error "randint not supported in user function body" ∧
    evalExpr fns ops R d (.functionDef n a b) env c =
      .error "Nested function definitions not supported in body" ∧
    (∀ (x y : FVal) (s : Stack) (venv : Env) (vc : ℕ),
      execInstr fns ops R d .logBase (y :: x :: s) venv vc =
        .ok (ops.flog y x :: s, venv, vc)) ∧
    (∀ (s : Stack) (venv : Env) (vc : ℕ),
      execInstr fns ops R d .randInt (.fin 6 :: .fin 1 :: s) venv vc =
        .ok (.fin (R.randRange 1 6 vc) :: s, venv, vc + 1)) ∧
    isOkB (evalExpr fns ops R d (.number (.fin 2)) env c) = true ∧
    isOkB (evalExpr fns ops R d (.ident "y") (Env.empty.insert "y" (.fin 2)) c) = true ∧
    isOkB (evalExpr fns ops R d (.assign "z" (.number (.fin 1))) env c) = true ∧
    isOkB (evalExpr fns ops R d
      (.binaryOp (.number (.fin 1)) .plus (.number (.fin 2))) env c) = true ∧
    isOkB (evalExpr fns ops R d (.function .sin (.number (.fin 0))) env c) = true ∧
    isOkB (evalExpr fns ops R d (.function .rand (.number (.fin 0))) env c) = true ∧
    isOkB (evalExpr (FnTable.empty.insert "f" ("x", .ident "x")) ops R 1
      (.functionCall "f" (.number (.fin 2))) env c) = true ∧
    isOkB (evalExpr fns ops R d
      (.sequence [.number (.fin 1), .number (.fin 2)]) env c) = true ∧
    isOkB (evalExpr fns ops R d
      (.sum (.number (.fin 1)) (.number (.fin 2)) "i" (.ident "i")) env c) = true ∧
    isOkB (evalExpr fns ops R d
      (.product (.number (.fin 1)) (.number (.fin 2)) "i" (.ident "i")) env c) = true := by
  have hr12 : intRange (FVal.ceilI64 (.fin 1)) (FVal.floorI64 (.fin 2)) = [1, 2] := by
    decide
  refine ⟨?_, ?_, ?_, ?_, ?_, ?_, ?_, ?_, ?_, ?_, ?_, ?_, ?_, ?_, ?_⟩
  · simp only [evalExpr_fn_logBase, harg]
  · simp only [evalExpr_fn_randInt, harg]
  · exact evalExpr_functionDef fns ops R d n a b env c
  · intro x y s venv vc
    exact execInstr_logBase fns ops R d x y s venv vc
  · intro s venv vc
    simp only [execInstr]
    norm_num [FVal.fle, FVal.ceilI64, FVal.floorI64, FVal.satI64, FVal.i64Min, FVal.i64Max]
  · simp [isOkB, evalExpr_number]
  · simp [isOkB, evalExpr_ident, Env.insert_same]
  · simp [isOkB, evalExpr_assign, evalExpr_number]
  · simp [isOkB, evalExpr_binaryOp, evalExpr_number]
  · simp [isOkB, evalExpr_fn_sin, evalExpr_number]
  · simp [isOkB, evalExpr_fn_rand, evalExpr_number]
  · simp [isOkB, evalExpr_functionCall, evalExpr_number, evalExpr_ident,
      FnTable.insert, Env.insert_same]
  · simp [isOkB, evalExpr_sequence, evalSeq_cons, evalSeq_nil, evalExpr_number]
  · simp [isOkB, evalExpr_sum, evalExpr_number, hr12, evalLoop_cons, evalLoop_nil,
      evalExpr_ident, Env.insert_same]
  · simp [isOkB, evalExpr_product, evalExpr_number, hr12, evalLoop_cons, evalLoop_nil,
      evalExpr_ident, Env.insert_same]

/-- Witness for C7 at the argument `0`. -/
theorem C7_evaluator_unsupported_ops_witness :
    evalExpr FnTable.empty trivOps trivRand 0
      (.function .logBase (.number (.fin 0))) Env.empty 0 =
      .error "log base not supported in user function body" :=
  (C7_evaluator_unsupported_ops FnTable.empty trivOps trivRand 0 (.number (.fin 0))
    Env.empty 0 (.fin 0) Env.empty 0 "g" "x" (.number (.fin 0))
    (evalExpr_number FnTable.empty trivOps trivRand 0 (.fin 0) Env.empty 0)).1

/-! ## Top-level VM: one-step and append laws -/

/-- On a non-loop instruction the top-level VM steps exactly like
`execInstr` (its arms are duplicated from the inner VM). -/
theorem runTop_cons_nonloop (fns : FnTable) (ops : FloatOps) (R : RandSrc) (d : ℕ)
    (i : Bytecode) (hi : loopFreeInstr i = true) (rest : Program)
    (s : Stack) (env : Env) (c : ℕ) :
    runTop fns ops R d (i :: rest) s env c =
      match execInstr fns ops R d i s env c with
      | .error e => .error e
      | .ok (s1, env1, c1) => runTop fns ops R d rest s1 env1 c1 := by
  cases i
  case sumLoop lo hi2 param body => simp [loopFreeInstr] at hi
  case productLoop lo hi2 param body => simp [loopFreeInstr] at hi
  all_goals
    simp only [runTop]
    cases h : execInstr fns ops R d _ s env c with
    | error e => simp [Except.bind, bind]
    | ok r =>
        obtain ⟨s1, env1, c1⟩ := r
        simp [Except.bind, bind]

/-- Executing an appended program on the top-level VM is executing the
parts in order. -/
theorem runTop_append (fns : FnTable) (ops : FloatOps) (R : RandSrc) (d : ℕ)
    (p q : Program) : ∀ (s : Stack) (env : Env) (c : ℕ),
    runTop fns ops R d (p ++ q) s env c =
      match runTop fns ops R d p s env c with
      | .error e => .error e
      | .ok (s1, env1, c1) => runTop fns ops R d q s1 env1 c1 := by
  induction p with
  | nil => intro s env c; simp [runTop]
  | cons i rest ih =>
      intro s env c
      by_cases hlf : loopFreeInstr i = true
      · rw [List.cons_append, runTop_cons_nonloop fns ops R d i hlf,
          runTop_cons_nonloop fns ops R d i hlf]
        cases h : execInstr fns ops R d i s env c with
        | error e => rfl
        | ok r =>
            obtain ⟨s1, env1, c1⟩ := r
            simp only
            exact ih s1 env1 c1
      · cases i
        all_goals first
          | exact absurd rfl hlf
          | (rename_i lo hi param body;
             rw [List.cons_append, runTop_sumLoop_cons, runTop_sumLoop_cons];
               cases h1 : runInner fns ops R d lo [] env c with
               | error m => rfl
               | ok t1 =>
                   obtain ⟨s1, env1, c1⟩ := t1
                   cases s1 with
                   | nil => rfl
                   | cons lv r1 =>
                       simp only
                       cases h2 : runInner fns ops R d hi [] env1 c1 with
                       | error m => rfl
                       | ok t2 =>
                           obtain ⟨s2, env2, c2⟩ := t2
                           cases s2 with
                           | nil => rfl
                           | cons hv r2 =>
                               simp only
                               cases h3 : runTopLoop fns ops R d true param body
                                   (intRange lv.ceilI64 hv.floorI64) (.fin 0) env2 c2 with
                               | error m => rfl
                               | ok t3 =>
                                   obtain ⟨acc, env3, c3⟩ := t3
                                   simp only
                                   exact ih (acc :: s) (env3.remove param) c3)
          | (rename_i lo hi param body;
             rw [List.cons_append, runTop_productLoop_cons, runTop_productLoop_cons];
               cases h1 : runInner fns ops R d lo [] env c with
               | error m => rfl
               | ok t1 =>
                   obtain ⟨s1, env1, c1⟩ := t1
                   cases s1 with
                   | nil => rfl
                   | cons lv r1 =>
                       simp only
                       cases h2 : runInner fns ops R d hi [] env1 c1 with
                       | error m => rfl
                       | ok t2 =>
                           obtain ⟨s2, env2, c2⟩ := t2
                           cases s2 with
                           | nil => rfl
                           | cons hv r2 =>
                               simp only
                               cases h3 : runTopLoop fns ops R d false param body
                                   (intRange lv.ceilI64 hv.floorI64) (.fin 1) env2 c2 with
                               | error m => rfl
                               | ok t3 =>
                                   obtain ⟨acc, env3, c3⟩ := t3
                                   simp only
                                   exact ih (acc :: s) (env3.remove param) c3)


/-! ## Stack discipline of compiled value expressions -/

theorem compile_sum (lo hi : Expr) (param : String) (body : Expr) :
    compile (.sum lo hi param body) =
      match compile lo with
      | none => none
      | some lp =>
        match compile hi with
        | none => none
        | some hp =>
          match compile body with
          | none => none
          | some bp => some [.sumLoop lp hp param bp] := by
  simp only [compile, Option.bind, bind]
  cases compile lo with
  | none => rfl
  | some lp =>
      simp only
      cases compile hi with
      | none => rfl
      | some hp =>
          simp only
          cases compile body <;> rfl

theorem compile_product (lo hi : Expr) (param : String) (body : Expr) :
    compile (.product lo hi param body) =
      match compile lo with
      | none => none
      | some lp =>
        match compile hi with
        | none => none
        | some hp =>
          match compile body with
          | none => none
          | some bp => some [.productLoop lp hp param bp] := by
  simp only [compile, Option.bind, bind]
  cases compile lo with
  | none => rfl
  | some lp =>
      simp only
      cases compile hi with
      | none => rfl
      | some hp =>
          simp only
          cases compile body <;> rfl

/-- `RandInt` on a two-value stack either rejects the range or pushes
one integer. -/
theorem execInstr_randInt_shape (fns : FnTable) (ops : FloatOps) (R : RandSrc) (d : ℕ)
    (a b : FVal) (s : Stack) (env : Env) (c : ℕ) :
    execInstr fns ops R d .randInt (b :: a :: s) env c =
        .error "Invalid range for randint: min > max" ∨
    ∃ n : ℤ, execInstr fns ops R d .randInt (b :: a :: s) env c =
        .ok (.fin n :: s, env, c + 1) := by
  simp only [execInstr]
  by_cases hf : a.fle b = true
  · simp only [hf, if_true]
    by_cases hlt : b.floorI64 < a.ceilI64
    · exact .inl (by simp [hlt])
    · exact .inr ⟨R.randRange a.ceilI64 b.floorI64 c, by simp [hlt]⟩
  · simp only [hf, if_false, Bool.false_eq_true]
    by_cases hlt : a.floorI64 < b.ceilI64
    · exact .inl (by simp [hlt])
    · exact .inr ⟨R.randRange b.ceilI64 a.floorI64 c, by simp [hlt]⟩

set_option maxHeartbeats 6400000 in
mutual

/-- The compiled code of a `vexpr` value expression run at the top level
from any stack either fails or pushes exactly one value on top of it. -/
theorem vexprStack (fns : FnTable) (ops : FloatOps) (R : RandSrc) (d : ℕ) :
    ∀ (e : Expr), vexpr e = true → ∀ (p : Program), compile e = some p →
    ∀ (s : Stack) (env : Env) (c : ℕ),
    (∃ m, runTop fns ops R d p s env c = .error m) ∨
    (∃ v env2 c2, runTop fns ops R d p s env c = .ok (v :: s, env2, c2))
  | .number n, hv, p, hc, s, env, c => by
      rw [compile_number, Option.some.injEq] at hc
      subst hc
      refine .inr ⟨n, env, c, ?_⟩
      simp only [runTop_cons_nonloop, loopFreeInstr, execInstr_pushNumber, runTop_nil]
  | .ident x, hv, p, hc, s, env, c => by
      rw [compile_ident, Option.some.injEq] at hc
      subst hc
      cases henv : env x with
      | none =>
          refine .inl ⟨"Variable not found", ?_⟩
          simp only [runTop_cons_nonloop, loopFreeInstr,
            execInstr_loadVar_missing fns ops R d x s env c henv]
      | some v =>
          refine .inr ⟨v, env, c, ?_⟩
          simp only [runTop_cons_nonloop, loopFreeInstr,
            execInstr_loadVar_found fns ops R d x v s env c henv, runTop_nil]
  | .assign x e, hv, p, hc, s, env, c => by
      simp only [vexpr, Bool.false_eq_true] at hv
  | .functionDef nm aa bb, hv, p, hc, s, env, c => by
      simp only [vexpr, Bool.false_eq_true] at hv
  | .function .pow arg, hv, p, hc, s, env, c => by
      simp only [vexpr, Bool.false_eq_true] at hv
  | .function .rand arg, hv, p, hc, s, env, c => by
      rw [compile_fn_rand, Option.some.injEq] at hc
      subst hc
      refine .inr ⟨R.randF c, env, c + 1, ?_⟩
      simp only [runTop_cons_nonloop, loopFreeInstr, execInstr_rand, runTop_nil]
  | .binaryOp l op r, hv, p, hc, s, env, c => by
      simp only [vexpr, Bool.and_eq_true] at hv
      obtain ⟨hl, hr⟩ := hv
      rw [compile_binaryOp] at hc
      cases hcl : compile l with
      | none => rw [hcl] at hc; exact absurd hc (by simp)
      | some lp =>
        rw [hcl] at hc
        cases hcr : compile r with
        | none => simp only [hcr] at hc; exact absurd hc (by simp)
        | some rp =>
          simp only [hcr, Option.some.injEq] at hc
          subst hc
          rcases vexprStack fns ops R d l hl lp hcl s env c with ⟨m, hm⟩ | ⟨lv, env1, c1, hok1⟩
          · exact .inl ⟨m, by simp only [List.append_assoc, runTop_append, hm]⟩
          · rcases vexprStack fns ops R d r hr rp hcr (lv :: s) env1 c1 with
              ⟨m, hm⟩ | ⟨rv, env2, c2, hok2⟩
            · exact .inl ⟨m, by simp only [List.append_assoc, runTop_append, hok1, hm]⟩
            · cases op
              case plus =>
                exact .inr ⟨lv.fadd rv, env2, c2, by
                  simp only [List.append_assoc, runTop_append, hok1, hok2,
                    runTop_cons_nonloop, loopFreeInstr, execInstr_add, runTop_nil]⟩
              case minus =>
                exact .inr ⟨lv.fsub rv, env2, c2, by
                  simp only [List.append_assoc, runTop_append, hok1, hok2,
                    runTop_cons_nonloop, loopFreeInstr, execInstr_sub, runTop_nil]⟩
              case star =>
                exact .inr ⟨lv.fmul rv, env2, c2, by
                  simp only [List.append_assoc, runTop_append, hok1, hok2,
                    runTop_cons_nonloop, loopFreeInstr, execInstr_mul, runTop_nil]⟩
              case slash =>
                exact .inr ⟨lv.fdiv rv, env2, c2, by
                  simp only [List.append_assoc, runTop_append, hok1, hok2,
                    runTop_cons_nonloop, loopFreeInstr, execInstr_div, runTop_nil]⟩
              case pow =>
                exact .inr ⟨ops.fpowf lv rv, env2, c2, by
                  simp only [List.append_assoc, runTop_append, hok1, hok2,
                    runTop_cons_nonloop, loopFreeInstr, execInstr_pow, runTop_nil]⟩
  | .functionCall nm arg, hv, p, hc, s, env, c => by
      simp only [vexpr] at hv
      rw [compile_functionCall] at hc
      cases hca : compile arg with
      | none => rw [hca] at hc; exact absurd hc (by simp)
      | some ap =>
        rw [hca] at hc
        simp only [Option.some.injEq] at hc
        subst hc
        rcases vexprStack fns ops R d arg hv ap hca s env c with ⟨m, hm⟩ | ⟨av, env1, c1, hok1⟩
        · exact .inl ⟨m, by simp only [runTop_append, hm]⟩
        · cases hfn : fns nm with
          | none =>
              exact .inl ⟨"User-defined function not found", by
                simp only [runTop_append, hok1, runTop_cons_nonloop, loopFreeInstr,
                  execInstr_callUser_missing fns ops R d nm (av :: s) env1 c1 hfn]⟩
          | some pb =>
              obtain ⟨argName, body⟩ := pb
              cases hev : evalExpr fns ops R d body (env1.insert argName av) c1 with
              | error m =>
                  exact .inl ⟨m, by
                    simp only [runTop_append, hok1, runTop_cons_nonloop, loopFreeInstr,
                      execInstr_callUser_found fns ops R d nm argName body av s env1 c1 hfn,
                      hev]⟩
              | ok t =>
                  obtain ⟨v, env2, c2⟩ := t
                  refine .inr ⟨v, env2.restore argName (env1 argName), c2, ?_⟩
                  simp only [runTop_append, hok1, runTop_cons_nonloop, loopFreeInstr,
                    execInstr_callUser_found fns ops R d nm argName body av s env1 c1 hfn,
                    hev, runTop_nil]
  | .sequence es, hv, p, hc, s, env, c => by
      simp only [vexpr] at hv
      rw [compile_sequence] at hc
      rcases seqVStack fns ops R d es hv p hc s env c with
        ⟨m, hm⟩ | ⟨v, env2, c2, hok, _, _, _, _, _, _, _⟩
      · exact .inl ⟨m, hm⟩
      · exact .inr ⟨v, env2, c2, hok⟩
  | .function .randInt arg, hv, p, hc, s, env, c => by
      simp only [vexpr] at hv
      obtain ⟨a, b, harg, HA, HB⟩ := argPairStack fns ops R d arg hv
      subst harg
      simp only [compile, Option.bind, bind] at hc
      cases hpa : compile a with
      | none => rw [hpa] at hc; exact absurd hc (by simp)
      | some pa =>
        rw [hpa] at hc
        cases hpb : compile b with
        | none => simp only [hpb] at hc; exact absurd hc (by simp)
        | some pb =>
          simp only [hpb, Option.some.injEq] at hc
          subst hc
          rcases HA pa hpa s env c with ⟨m, hm⟩ | ⟨av, env1, c1, hok1⟩
          · exact .inl ⟨m, by simp only [List.append_assoc, runTop_append, hm]⟩
          · rcases HB pb hpb (av :: s) env1 c1 with ⟨m, hm⟩ | ⟨bv, env2, c2, hok2⟩
            · exact .inl ⟨m, by
                simp only [List.append_assoc, runTop_append, hok1, hm]⟩
            · rcases execInstr_randInt_shape fns ops R d av bv s env2 c2 with hE | ⟨n, hE⟩
              · exact .inl ⟨"Invalid range for randint: min > max", by
                  simp only [List.append_assoc, runTop_append, hok1, hok2,
                    runTop_cons_nonloop, loopFreeInstr, hE]⟩
              · refine .inr ⟨.fin n, env2, c2 + 1, ?_⟩
                simp only [List.append_assoc, runTop_append, hok1, hok2,
                  runTop_cons_nonloop, loopFreeInstr, hE, runTop_nil]
  | .function .logBase arg, hv, p, hc, s, env, c => by
      simp only [vexpr] at hv
      obtain ⟨a, b, harg, HA, HB⟩ := argPairStack fns ops R d arg hv
      subst harg
      simp only [compile, Option.bind, bind] at hc
      cases hpa : compile a with
      | none => rw [hpa] at hc; exact absurd hc (by simp)
      | some pa =>
        rw [hpa] at hc
        cases hpb : compile b with
        | none => simp only [hpb] at hc; exact absurd hc (by simp)
        | some pb =>
          simp only [hpb, Option.some.injEq] at hc
          subst hc
          rcases HA pa hpa s env c with ⟨m, hm⟩ | ⟨av, env1, c1, hok1⟩
          · exact .inl ⟨m, by simp only [List.append_assoc, runTop_append, hm]⟩
          · rcases HB pb hpb (av :: s) env1 c1 with ⟨m, hm⟩ | ⟨bv, env2, c2, hok2⟩
            · exact .inl ⟨m, by
                simp only [List.append_assoc, runTop_append, hok1, hm]⟩
            · refine .inr ⟨ops.flog bv av, env2, c2, ?_⟩
              simp only [List.append_assoc, runTop_append, hok1, hok2,
                runTop_cons_nonloop, loopFreeInstr, execInstr_logBase, runTop_nil]
  | .sum lo hi param body, hv, p, hc, s, env, c => by
      rw [compile_sum] at hc
      cases hcl : compile lo with
      | none => rw [hcl] at hc; exact absurd hc (by simp)
      | some lp =>
        rw [hcl] at hc
        cases hch : compile hi with
        | none => simp only [hch] at hc; exact absurd hc (by simp)
        | some hp =>
          simp only [hch] at hc
          cases hcb : compile body with
          | none => simp only [hcb] at hc; exact absurd hc (by simp)
          | some bp =>
            simp only [hcb, Option.some.injEq] at hc
            subst hc
            cases h1 : runInner fns ops R d lp [] env c with
            | error m => exact .inl ⟨m, by simp only [runTop_sumLoop_cons, h1]⟩
            | ok t1 =>
                obtain ⟨s1, env1, c1⟩ := t1
                cases s1 with
                | nil =>
                    exact .inl ⟨"No result on stack (from)", by simp only [runTop_sumLoop_cons, h1]⟩
                | cons lv r1 =>
                    cases h2 : runInner fns ops R d hp [] env1 c1 with
                    | error m => exact .inl ⟨m, by simp only [runTop_sumLoop_cons, h1, h2]⟩
                    | ok t2 =>
                        obtain ⟨s2, env2, c2⟩ := t2
                        cases s2 with
                        | nil =>
                            exact .inl ⟨"No result on stack (to)", by
                              simp only [runTop_sumLoop_cons, h1, h2]⟩
                        | cons hvv r2 =>
                            cases h3 : runTopLoop fns ops R d true param bp
                                (intRange lv.ceilI64 hvv.floorI64)
                                (.fin 0) env2 c2 with
                            | error m =>
                                exact .inl ⟨m, by simp only [runTop_sumLoop_cons, h1, h2, h3]⟩
                            | ok t3 =>
                                obtain ⟨acc, env3, c3⟩ := t3
                                exact .inr ⟨acc, env3.remove param, c3, by
                                  simp only [runTop_sumLoop_cons, h1, h2, h3, runTop_nil]⟩
  | .product lo hi param body, hv, p, hc, s, env, c => by
      rw [compile_product] at hc
      cases hcl : compile lo with
      | none => rw [hcl] at hc; exact absurd hc (by simp)
      | some lp =>
        rw [hcl] at hc
        cases hch : compile hi with
        | none => simp only [hch] at hc; exact absurd hc (by simp)
        | some hp =>
          simp only [hch] at hc
          cases hcb : compile body with
          | none => simp only [hcb] at hc; exact absurd hc (by simp)
          | some bp =>
            simp only [hcb, Option.some.injEq] at hc
            subst hc
            cases h1 : runInner fns ops R d lp [] env c with
            | error m => exact .inl ⟨m, by simp only [runTop_productLoop_cons, h1]⟩
            | ok t1 =>
                obtain ⟨s1, env1, c1⟩ := t1
                cases s1 with
                | nil =>
                    exact .inl ⟨"No result on stack (from)", by simp only [runTop_productLoop_cons, h1]⟩
                | cons lv r1 =>
                    cases h2 : runInner fns ops R d hp [] env1 c1 with
                    | error m => exact .inl ⟨m, by simp only [runTop_productLoop_cons, h1, h2]⟩
                    | ok t2 =>
                        obtain ⟨s2, env2, c2⟩ := t2
                        cases s2 with
                        | nil =>
                            exact .inl ⟨"No result on stack (to)", by
                              simp only [runTop_productLoop_cons, h1, h2]⟩
                        | cons hvv r2 =>
                            cases h3 : runTopLoop fns ops R d false param bp
                                (intRange lv.ceilI64 hvv.floorI64)
                                (.fin 1) env2 c2 with
                            | error m =>
                                exact .inl ⟨m, by simp only [runTop_productLoop_cons, h1, h2, h3]⟩
                            | ok t3 =>
                                obtain ⟨acc, env3, c3⟩ := t3
                                exact .inr ⟨acc, env3.remove param, c3, by
                                  simp only [runTop_productLoop_cons, h1, h2, h3, runTop_nil]⟩
  | .function .sin arg, hv, p, hc, s, env, c => by
      simp only [vexpr] at hv
      rw [compile_fn_sin] at hc
      cases hca : compile arg with
      | none => rw [hca] at hc; exact absurd hc (by simp)
      | some ap =>
        rw [hca] at hc
        simp only [Option.some.injEq] at hc
        subst hc
        rcases vexprStack fns ops R d arg hv ap hca s env c with ⟨m, hm⟩ | ⟨av, env1, c1, hok1⟩
        · exact .inl ⟨m, by simp only [runTop_append, hm]⟩
        · refine .inr ⟨ops.fsin av, env1, c1, ?_⟩
          simp only [runTop_append, hok1, runTop_cons_nonloop, loopFreeInstr,
            execInstr_sin, runTop_nil]
  | .function .cos arg, hv, p, hc, s, env, c => by
      simp only [vexpr] at hv
      rw [compile_fn_cos] at hc
      cases hca : compile arg with
      | none => rw [hca] at hc; exact absurd hc (by simp)
      | some ap =>
        rw [hca] at hc
        simp only [Option.some.injEq] at hc
        subst hc
        rcases vexprStack fns ops R d arg hv ap hca s env c with ⟨m, hm⟩ | ⟨av, env1, c1, hok1⟩
        · exact .inl ⟨m, by simp only [runTop_append, hm]⟩
        · refine .inr ⟨ops.fcos av, env1, c1, ?_⟩
          simp only [runTop_append, hok1, runTop_cons_nonloop, loopFreeInstr,
            execInstr_cos, runTop_nil]
  | .function .tan arg, hv, p, hc, s, env, c => by
      simp only [vexpr] at hv
      rw [compile_fn_tan] at hc
      cases hca : compile arg with
      | none => rw [hca] at hc; exact absurd hc (by simp)
      | some ap =>
        rw [hca] at hc
        simp only [Option.some.injEq] at hc
        subst hc
        rcases vexprStack fns ops R d arg hv ap hca s env c with ⟨m, hm⟩ | ⟨av, env1, c1, hok1⟩
        · exact .inl ⟨m, by simp only [runTop_append, hm]⟩
        · refine .inr ⟨ops.ftan av, env1, c1, ?_⟩
          simp only [runTop_append, hok1, runTop_cons_nonloop, loopFreeInstr,
            execInstr_tan, runTop_nil]
  | .function .cot arg, hv, p, hc, s, env, c => by
      simp only [vexpr] at hv
      rw [compile_fn_cot] at hc
      cases hca : compile arg with
      | none => rw [hca] at hc; exact absurd hc (by simp)
      | some ap =>
        rw [hca] at hc
        simp only [Option.some.injEq] at hc
        subst hc
        rcases vexprStack fns ops R d arg hv ap hca s env c with ⟨m, hm⟩ | ⟨av, env1, c1, hok1⟩
        · exact .inl ⟨m, by simp only [runTop_append, hm]⟩
        · refine .inr ⟨(FVal.fin 1).fdiv (ops.ftan av), env1, c1, ?_⟩
          simp only [runTop_append, hok1, runTop_cons_nonloop, loopFreeInstr,
            execInstr_cot, runTop_nil]
  | .function .sec arg, hv, p, hc, s, env, c => by
      simp only [vexpr] at hv
      rw [compile_fn_sec] at hc
      cases hca : compile arg with
      | none => rw [hca] at hc; exact absurd hc (by simp)
      | some ap =>
        rw [hca] at hc
        simp only [Option.some.injEq] at hc
        subst hc
        rcases vexprStack fns ops R d arg hv ap hca s env c with ⟨m, hm⟩ | ⟨av, env1, c1, hok1⟩
        · exact .inl ⟨m, by simp only [runTop_append, hm]⟩
        · refine .inr ⟨(FVal.fin 1).fdiv (ops.fcos av), env1, c1, ?_⟩
          simp only [runTop_append, hok1, runTop_cons_nonloop, loopFreeInstr,
            execInstr_sec, runTop_nil]
  | .function .csc arg, hv, p, hc, s, env, c => by
      simp only [vexpr] at hv
      rw [compile_fn_csc] at hc
      cases hca : compile arg with
      | none => rw [hca] at hc; exact absurd hc (by simp)
      | some ap =>
        rw [hca] at hc
        simp only [Option.some.injEq] at hc
        subst hc
        rcases vexprStack fns ops R d arg hv ap hca s env c with ⟨m, hm⟩ | ⟨av, env1, c1, hok1⟩
        · exact .inl ⟨m, by simp only [runTop_append, hm]⟩
        · refine .inr ⟨(FVal.fin 1).fdiv (ops.fsin av), env1, c1, ?_⟩
          simp only [runTop_append, hok1, runTop_cons_nonloop, loopFreeInstr,
            execInstr_csc, runTop_nil]
  | .function .sinh arg, hv, p, hc, s, env, c => by
      simp only [vexpr] at hv
      rw [compile_fn_sinh] at hc
      cases hca : compile arg with
      | none => rw [hca] at hc; exact absurd hc (by simp)
      | some ap =>
        rw [hca] at hc
        simp only [Option.some.injEq] at hc
        subst hc
        rcases vexprStack fns ops R d arg hv ap hca s env c with ⟨m, hm⟩ | ⟨av, env1, c1, hok1⟩
        · exact .inl ⟨m, by simp only [runTop_append, hm]⟩
        · refine .inr ⟨ops.fsinh av, env1, c1, ?_⟩
          simp only [runTop_append, hok1, runTop_cons_nonloop, loopFreeInstr,
            execInstr_sinh, runTop_nil]
  | .function .cosh arg, hv, p, hc, s, env, c => by
      simp only [vexpr] at hv
      rw [compile_fn_cosh] at hc
      cases hca : compile arg with
      | none => rw [hca] at hc; exact absurd hc (by simp)
      | some ap =>
        rw [hca] at hc
        simp only [Option.some.injEq] at hc
        subst hc
        rcases vexprStack fns ops R d arg hv ap hca s env c with ⟨m, hm⟩ | ⟨av, env1, c1, hok1⟩
        · exact .inl ⟨m, by simp only [runTop_append, hm]⟩
        · refine .inr ⟨ops.fcosh av, env1, c1, ?_⟩
          simp only [runTop_append, hok1, runTop_cons_nonloop, loopFreeInstr,
            execInstr_cosh, runTop_nil]
  | .function .tanh arg, hv, p, hc, s, env, c => by
      simp only [vexpr] at hv
      rw [compile_fn_tanh] at hc
      cases hca : compile arg with
      | none => rw [hca] at hc; exact absurd hc (by simp)
      | some ap =>
        rw [hca] at hc
        simp only [Option.some.injEq] at hc
        subst hc
        rcases vexprStack fns ops R d arg hv ap hca s env c with ⟨m, hm⟩ | ⟨av, env1, c1, hok1⟩
        · exact .inl ⟨m, by simp only [runTop_append, hm]⟩
        · refine .inr ⟨ops.ftanh av, env1, c1, ?_⟩
          simp only [runTop_append, hok1, runTop_cons_nonloop, loopFreeInstr,
            execInstr_tanh, runTop_nil]
  | .function .asinh arg, hv, p, hc, s, env, c => by
      simp only [vexpr] at hv
      rw [compile_fn_asinh] at hc
      cases hca : compile arg with
      | none => rw [hca] at hc; exact absurd hc (by simp)
      | some ap =>
        rw [hca] at hc
        simp only [Option.some.injEq] at hc
        subst hc
        rcases vexprStack fns ops R d arg hv ap hca s env c with ⟨m, hm⟩ | ⟨av, env1, c1, hok1⟩
        · exact .inl ⟨m, by simp only [runTop_append, hm]⟩
        · refine .inr ⟨ops.fasinh av, env1, c1, ?_⟩
          simp only [runTop_append, hok1, runTop_cons_nonloop, loopFreeInstr,
            execInstr_asinh, runTop_nil]
  | .function .acosh arg, hv, p, hc, s, env, c => by
      simp only [vexpr] at hv
      rw [compile_fn_acosh] at hc
      cases hca : compile arg with
      | none => rw [hca] at hc; exact absurd hc (by simp)
      | some ap =>
        rw [hca] at hc
        simp only [Option.some.injEq] at hc
        subst hc
        rcases vexprStack fns ops R d arg hv ap hca s env c with ⟨m, hm⟩ | ⟨av, env1, c1, hok1⟩
        · exact .inl ⟨m, by simp only [runTop_append, hm]⟩
        · refine .inr ⟨ops.facosh av, env1, c1, ?_⟩
          simp only [runTop_append, hok1, runTop_cons_nonloop, loopFreeInstr,
            execInstr_acosh, runTop_nil]
  | .function .atanh arg, hv, p, hc, s, env, c => by
      simp only [vexpr] at hv
      rw [compile_fn_atanh] at hc
      cases hca : compile arg with
      | none => rw [hca] at hc; exact absurd hc (by simp)
      | some ap =>
        rw [hca] at hc
        simp only [Option.some.injEq] at hc
        subst hc
        rcases vexprStack fns ops R d arg hv ap hca s env c with ⟨m, hm⟩ | ⟨av, env1, c1, hok1⟩
        · exact .inl ⟨m, by simp only [runTop_append, hm]⟩
        · refine .inr ⟨ops.fatanh av, env1, c1, ?_⟩
          simp only [runTop_append, hok1, runTop_cons_nonloop, loopFreeInstr,
            execInstr_atanh, runTop_nil]
  | .function .exp arg, hv, p, hc, s, env, c => by
      simp only [vexpr] at hv
      rw [compile_fn_exp] at hc
      cases hca : compile arg with
      | none => rw [hca] at hc; exact absurd hc (by simp)
      | some ap =>
        rw [hca] at hc
        simp only [Option.some.injEq] at hc
        subst hc
        rcases vexprStack fns ops R d arg hv ap hca s env c with ⟨m, hm⟩ | ⟨av, env1, c1, hok1⟩
        · exact .inl ⟨m, by simp only [runTop_append, hm]⟩
        · refine .inr ⟨ops.fexp av, env1, c1, ?_⟩
          simp only [runTop_append, hok1, runTop_cons_nonloop, loopFreeInstr,
            execInstr_exp, runTop_nil]
  | .function .log arg, hv, p, hc, s, env, c => by
      simp only [vexpr] at hv
      rw [compile_fn_log] at hc
      cases hca : compile arg with
      | none => rw [hca] at hc; exact absurd hc (by simp)
      | some ap =>
        rw [hca] at hc
        simp only [Option.some.injEq] at hc
        subst hc
        rcases vexprStack fns ops R d arg hv ap hca s env c with ⟨m, hm⟩ | ⟨av, env1, c1, hok1⟩
        · exact .inl ⟨m, by simp only [runTop_append, hm]⟩
        · refine .inr ⟨ops.fln av, env1, c1, ?_⟩
          simp only [runTop_append, hok1, runTop_cons_nonloop, loopFreeInstr,
            execInstr_log, runTop_nil]
  | .function .log10 arg, hv, p, hc, s, env, c => by
      simp only [vexpr] at hv
      rw [compile_fn_log10] at hc
      cases hca : compile arg with
      | none => rw [hca] at hc; exact absurd hc (by simp)
      | some ap =>
        rw [hca] at hc
        simp only [Option.some.injEq] at hc
        subst hc
        rcases vexprStack fns ops R d arg hv ap hca s env c with ⟨m, hm⟩ | ⟨av, env1, c1, hok1⟩
        · exact .inl ⟨m, by simp only [runTop_append, hm]⟩
        · refine .inr ⟨ops.flog10 av, env1, c1, ?_⟩
          simp only [runTop_append, hok1, runTop_cons_nonloop, loopFreeInstr,
            execInstr_log10, runTop_nil]
  | .function .log2 arg, hv, p, hc, s, env, c => by
      simp only [vexpr] at hv
      rw [compile_fn_log2] at hc
      cases hca : compile arg with
      | none => rw [hca] at hc; exact absurd hc (by simp)
      | some ap =>
        rw [hca] at hc
        simp only [Option.some.injEq] at hc
        subst hc
        rcases vexprStack fns ops R d arg hv ap hca s env c with ⟨m, hm⟩ | ⟨av, env1, c1, hok1⟩
        · exact .inl ⟨m, by simp only [runTop_append, hm]⟩
        · refine .inr ⟨ops.flog2 av, env1, c1, ?_⟩
          simp only [runTop_append, hok1, runTop_cons_nonloop, loopFreeInstr,
            execInstr_log2, runTop_nil]
  | .function .sqrt arg, hv, p, hc, s, env, c => by
      simp only [vexpr] at hv
      rw [compile_fn_sqrt] at hc
      cases hca : compile arg with
      | none => rw [hca] at hc; exact absurd hc (by simp)
      | some ap =>
        rw [hca] at hc
        simp only [Option.some.injEq] at hc
        subst hc
        rcases vexprStack fns ops R d arg hv ap hca s env c with ⟨m, hm⟩ | ⟨av, env1, c1, hok1⟩
        · exact .inl ⟨m, by simp only [runTop_append, hm]⟩
        · refine .inr ⟨ops.fsqrt av, env1, c1, ?_⟩
          simp only [runTop_append, hok1, runTop_cons_nonloop, loopFreeInstr,
            execInstr_sqrt, runTop_nil]
  | .function .abs arg, hv, p, hc, s, env, c => by
      simp only [vexpr] at hv
      rw [compile_fn_abs] at hc
      cases hca : compile arg with
      | none => rw [hca] at hc; exact absurd hc (by simp)
      | some ap =>
        rw [hca] at hc
        simp only [Option.some.injEq] at hc
        subst hc
        rcases vexprStack fns ops R d arg hv ap hca s env c with ⟨m, hm⟩ | ⟨av, env1, c1, hok1⟩
        · exact .inl ⟨m, by simp only [runTop_append, hm]⟩
        · refine .inr ⟨av.fabs, env1, c1, ?_⟩
          simp only [runTop_append, hok1, runTop_cons_nonloop, loopFreeInstr,
            execInstr_abs, runTop_nil]
  | .function .asin arg, hv, p, hc, s, env, c => by
      simp only [vexpr] at hv
      rw [compile_fn_asin] at hc
      cases hca : compile arg with
      | none => rw [hca] at hc; exact absurd hc (by simp)
      | some ap =>
        rw [hca] at hc
        simp only [Option.some.injEq] at hc
        subst hc
        rcases vexprStack fns ops R d arg hv ap hca s env c with ⟨m, hm⟩ | ⟨av, env1, c1, hok1⟩
        · exact .inl ⟨m, by simp only [runTop_append, hm]⟩
        · refine .inr ⟨ops.fasin av, env1, c1, ?_⟩
          simp only [runTop_append, hok1, runTop_cons_nonloop, loopFreeInstr,
            execInstr_asin, runTop_nil]
  | .function .acos arg, hv, p, hc, s, env, c => by
      simp only [vexpr] at hv
      rw [compile_fn_acos] at hc
      cases hca : compile arg with
      | none => rw [hca] at hc; exact absurd hc (by simp)
      | some ap =>
        rw [hca] at hc
        simp only [Option.some.injEq] at hc
        subst hc
        rcases vexprStack fns ops R d arg hv ap hca s env c with ⟨m, hm⟩ | ⟨av, env1, c1, hok1⟩
        · exact .inl ⟨m, by simp only [runTop_append, hm]⟩
        · refine .inr ⟨ops.facos av, env1, c1, ?_⟩
          simp only [runTop_append, hok1, runTop_cons_nonloop, loopFreeInstr,
            execInstr_acos, runTop_nil]
  | .function .atan arg, hv, p, hc, s, env, c => by
      simp only [vexpr] at hv
      rw [compile_fn_atan] at hc
      cases hca : compile arg with
      | none => rw [hca] at hc; exact absurd hc (by simp)
      | some ap =>
        rw [hca] at hc
        simp only [Option.some.injEq] at hc
        subst hc
        rcases vexprStack fns ops R d arg hv ap hca s env c with ⟨m, hm⟩ | ⟨av, env1, c1, hok1⟩
        · exact .inl ⟨m, by simp only [runTop_append, hm]⟩
        · refine .inr ⟨ops.fatan av, env1, c1, ?_⟩
          simp only [runTop_append, hok1, runTop_cons_nonloop, loopFreeInstr,
            execInstr_atan, runTop_nil]
  | .function .acot arg, hv, p, hc, s, env, c => by
      simp only [vexpr] at hv
      rw [compile_fn_acot] at hc
      cases hca : compile arg with
      | none => rw [hca] at hc; exact absurd hc (by simp)
      | some ap =>
        rw [hca] at hc
        simp only [Option.some.injEq] at hc
        subst hc
        rcases vexprStack fns ops R d arg hv ap hca s env c with ⟨m, hm⟩ | ⟨av, env1, c1, hok1⟩
        · exact .inl ⟨m, by simp only [runTop_append, hm]⟩
        · refine .inr ⟨ops.fatan ((FVal.fin 1).fdiv av), env1, c1, ?_⟩
          simp only [runTop_append, hok1, runTop_cons_nonloop, loopFreeInstr,
            execInstr_acot, runTop_nil]
  | .function .asec arg, hv, p, hc, s, env, c => by
      simp only [vexpr] at hv
      rw [compile_fn_asec] at hc
      cases hca : compile arg with
      | none => rw [hca] at hc; exact absurd hc (by simp)
      | some ap =>
        rw [hca] at hc
        simp only [Option.some.injEq] at hc
        subst hc
        rcases vexprStack fns ops R d arg hv ap hca s env c with ⟨m, hm⟩ | ⟨av, env1, c1, hok1⟩
        · exact .inl ⟨m, by simp only [runTop_append, hm]⟩
        · refine .inr ⟨ops.facos ((FVal.fin 1).fdiv av), env1, c1, ?_⟩
          simp only [runTop_append, hok1, runTop_cons_nonloop, loopFreeInstr,
            execInstr_asec, runTop_nil]
  | .function .acsc arg, hv, p, hc, s, env, c => by
      simp only [vexpr] at hv
      rw [compile_fn_acsc] at hc
      cases hca : compile arg with
      | none => rw [hca] at hc; exact absurd hc (by simp)
      | some ap =>
        rw [hca] at hc
        simp only [Option.some.injEq] at hc
        subst hc
        rcases vexprStack fns ops R d arg hv ap hca s env c with ⟨m, hm⟩ | ⟨av, env1, c1, hok1⟩
        · exact .inl ⟨m, by simp only [runTop_append, hm]⟩
        · refine .inr ⟨ops.fasin ((FVal.fin 1).fdiv av), env1, c1, ?_⟩
          simp only [runTop_append, hok1, runTop_cons_nonloop, loopFreeInstr,
            execInstr_acsc, runTop_nil]
  | .function .fact arg, hv, p, hc, s, env, c => by
      simp only [vexpr] at hv
      rw [compile_fn_fact] at hc
      cases hca : compile arg with
      | none => rw [hca] at hc; exact absurd hc (by simp)
      | some ap =>
        rw [hca] at hc
        simp only [Option.some.injEq] at hc
        subst hc
        rcases vexprStack fns ops R d arg hv ap hca s env c with ⟨m, hm⟩ | ⟨av, env1, c1, hok1⟩
        · exact .inl ⟨m, by simp only [runTop_append, hm]⟩
        · refine .inr ⟨factorial av, env1, c1, ?_⟩
          simp only [runTop_append, hok1, runTop_cons_nonloop, loopFreeInstr,
            execInstr_fact, runTop_nil]
  | .function .floor arg, hv, p, hc, s, env, c => by
      simp only [vexpr] at hv
      rw [compile_fn_floor] at hc
      cases hca : compile arg with
      | none => rw [hca] at hc; exact absurd hc (by simp)
      | some ap =>
        rw [hca] at hc
        simp only [Option.some.injEq] at hc
        subst hc
        rcases vexprStack fns ops R d arg hv ap hca s env c with ⟨m, hm⟩ | ⟨av, env1, c1, hok1⟩
        · exact .inl ⟨m, by simp only [runTop_append, hm]⟩
        · refine .inr ⟨av.ffloor, env1, c1, ?_⟩
          simp only [runTop_append, hok1, runTop_cons_nonloop, loopFreeInstr,
            execInstr_floor, runTop_nil]
termination_by e => (sizeOf e, 0)

/-- Decomposition of a valid `randint`/`log` argument. -/
theorem argPairStack (fns : FnTable) (ops : FloatOps) (R : RandSrc) (d : ℕ) :
    ∀ (e : Expr), argPair e = true →
    ∃ a b, e = .sequence [a, b] ∧
      (∀ pa, compile a = some pa → ∀ (s : Stack) (env : Env) (c : ℕ),
        (∃ m, runTop fns ops R d pa s env c = .error m) ∨
        (∃ v env2 c2, runTop fns ops R d pa s env c = .ok (v :: s, env2, c2))) ∧
      (∀ pb, compile b = some pb → ∀ (s : Stack) (env : Env) (c : ℕ),
        (∃ m, runTop fns ops R d pb s env c = .error m) ∨
        (∃ v env2 c2, runTop fns ops R d pb s env c = .ok (v :: s, env2, c2)))
  | .sequence es, hv => by
      simp only [argPair] at hv
      obtain ⟨a, b, hes, HA, HB⟩ := pairVStack fns ops R d es hv
      subst hes
      exact ⟨a, b, rfl, HA, HB⟩
  | .number n, hv => by simp only [argPair, Bool.false_eq_true] at hv
  | .ident x, hv => by simp only [argPair, Bool.false_eq_true] at hv
  | .assign x e, hv => by simp only [argPair, Bool.false_eq_true] at hv
  | .binaryOp l op r, hv => by simp only [argPair, Bool.false_eq_true] at hv
  | .function f a, hv => by simp only [argPair, Bool.false_eq_true] at hv
  | .functionDef nm aa bb, hv => by simp only [argPair, Bool.false_eq_true] at hv
  | .functionCall nm aa, hv => by simp only [argPair, Bool.false_eq_true] at hv
  | .sum lo hi pr2 bd, hv => by simp only [argPair, Bool.false_eq_true] at hv
  | .product lo hi pr2 bd, hv => by simp only [argPair, Bool.false_eq_true] at hv
termination_by e => (sizeOf e, 1)

/-- `pairV` lists are two value expressions with the stack property. -/
theorem pairVStack (fns : FnTable) (ops : FloatOps) (R : RandSrc) (d : ℕ) :
    ∀ (es : List Expr), pairV es = true →
    ∃ a b, es = [a, b] ∧
      (∀ pa, compile a = some pa → ∀ (s : Stack) (env : Env) (c : ℕ),
        (∃ m, runTop fns ops R d pa s env c = .error m) ∨
        (∃ v env2 c2, runTop fns ops R d pa s env c = .ok (v :: s, env2, c2))) ∧
      (∀ pb, compile b = some pb → ∀ (s : Stack) (env : Env) (c : ℕ),
        (∃ m, runTop fns ops R d pb s env c = .error m) ∨
        (∃ v env2 c2, runTop fns ops R d pb s env c = .ok (v :: s, env2, c2)))
  | [a, b], hv => by
      simp only [pairV, Bool.and_eq_true] at hv
      exact ⟨a, b, rfl,
        fun pa hpa s env c => vexprStack fns ops R d a hv.1 pa hpa s env c,
        fun pb hpb s env c => vexprStack fns ops R d b hv.2 pb hpb s env c⟩
  | [], hv => by simp only [pairV, Bool.false_eq_true] at hv
  | [x], hv => by simp only [pairV, Bool.false_eq_true] at hv
  | x :: y :: z :: rest, hv => by simp only [pairV, Bool.false_eq_true] at hv
termination_by es => (sizeOf es, 0)

/-- A compiled well-formed `Sequence` run at the top level either fails
or pushes exactly the final element's value on the incoming stack: the
result value is produced by the last element's own compiled code run
from the same stack (all earlier, discarded values were consumed by the
emitted stores). -/
theorem seqVStack (fns : FnTable) (ops : FloatOps) (R : RandSrc) (d : ℕ) :
    ∀ (es : List Expr), seqV es = true → ∀ (p : Program), compileSeq es = some p →
    ∀ (s : Stack) (env : Env) (c : ℕ),
    (∃ m, runTop fns ops R d p s env c = .error m) ∨
    (∃ v env2 c2, runTop fns ops R d p s env c = .ok (v :: s, env2, c2) ∧
      ∃ elast pl envl cl, es.getLast? = some elast ∧ compile elast = some pl ∧
        runTop fns ops R d pl s envl cl = .ok (v :: s, env2, c2))
  | [], hv, p, hc, s, env, c => by simp only [seqV, Bool.false_eq_true] at hv
  | [e], hv, p, hc, s, env, c => by
      simp only [seqV] at hv
      rw [compileSeq_single] at hc
      rcases vexprStack fns ops R d e hv p hc s env c with ⟨m, hm⟩ | ⟨v, env2, c2, hok⟩
      · exact .inl ⟨m, hm⟩
      · exact .inr ⟨v, env2, c2, hok, e, p, env, c, rfl, hc, hok⟩
  | .assign x ea :: e2 :: rest, hv, p, hc, s, env, c => by
      simp only [seqV, Bool.and_eq_true] at hv
      obtain ⟨hse, hrest⟩ := hv
      simp only [stmtV] at hse
      rw [compileSeq_cons] at hc
      cases hce : compile (.assign x ea) with
      | none => rw [hce] at hc; exact absurd hc (by simp)
      | some pe =>
        rw [hce] at hc
        cases hcr : compileSeq (e2 :: rest) with
        | none => simp only [hcr] at hc; exact absurd hc (by simp)
        | some pr =>
          simp only [hcr, Option.some.injEq] at hc
          subst hc
          rw [compile_assign] at hce
          cases hce2 : compile ea with
          | none => rw [hce2] at hce; exact absurd hce (by simp)
          | some pe2 =>
            rw [hce2] at hce
            simp only [Option.some.injEq] at hce
            subst hce
            have hsh : (pe2 ++ [Bytecode.storeVar x] ++
                (if (Expr.assign x ea).isAssign then ([] : Program)
                  else [.storeVar "_tmp"]) ++ pr) =
                pe2 ++ [Bytecode.storeVar x] ++ pr := by
              simp [Expr.isAssign]
            rw [hsh]
            rcases vexprStack fns ops R d ea hse pe2 hce2 s env c with
              ⟨m, hm⟩ | ⟨v, env1, c1, hok1⟩
            · exact .inl ⟨m, by simp only [List.append_assoc, runTop_append, hm]⟩
            · rcases seqVStack fns ops R d (e2 :: rest) hrest pr hcr s
                  (env1.insert x v) c1 with
                ⟨m, hm⟩ | ⟨v2, env2, c2, hok2, elast, pl, envl, cl, hget, hcl, hrunl⟩
              · exact .inl ⟨m, by
                  simp only [List.append_assoc, runTop_append, hok1,
                    runTop_cons_nonloop, loopFreeInstr, execInstr_storeVar,
                    runTop_nil, hm]⟩
              · refine .inr ⟨v2, env2, c2, ?_, elast, pl, envl, cl, ?_, hcl, hrunl⟩
                · simp only [List.append_assoc, runTop_append, hok1,
                    runTop_cons_nonloop, loopFreeInstr, execInstr_storeVar,
                    runTop_nil, hok2]
                · rw [List.getLast?_cons_cons]
                  exact hget
  | .number n :: e2 :: rest, hv, p, hc, s, env, c => by
      simp only [seqV, Bool.and_eq_true] at hv
      obtain ⟨hse, hrest⟩ := hv
      simp only [stmtV] at hse
      rw [compileSeq_cons] at hc
      cases hce : compile (.number n) with
      | none => rw [hce] at hc; exact absurd hc (by simp)
      | some pe =>
        rw [hce] at hc
        cases hcr : compileSeq (e2 :: rest) with
        | none => simp only [hcr] at hc; exact absurd hc (by simp)
        | some pr =>
          simp only [hcr, Option.some.injEq] at hc
          subst hc
          have hsh : (pe ++ (if (.number n : Expr).isAssign then ([] : Program)
              else [.storeVar "_tmp"]) ++ pr) = pe ++ [.storeVar "_tmp"] ++ pr := by
            simp [Expr.isAssign]
          rw [hsh]
          rcases vexprStack fns ops R d (.number n) hse pe hce s env c with
            ⟨m, hm⟩ | ⟨v, env1, c1, hok1⟩
          · exact .inl ⟨m, by simp only [List.append_assoc, runTop_append, hm]⟩
          · rcases seqVStack fns ops R d (e2 :: rest) hrest pr hcr s
                (env1.insert "_tmp" v) c1 with
              ⟨m, hm⟩ | ⟨v2, env2, c2, hok2, elast, pl, envl, cl, hget, hcl, hrunl⟩
            · exact .inl ⟨m, by
                simp only [List.append_assoc, runTop_append, hok1,
                  runTop_cons_nonloop, loopFreeInstr, execInstr_storeVar,
                  runTop_nil, hm]⟩
            · refine .inr ⟨v2, env2, c2, ?_, elast, pl, envl, cl, ?_, hcl, hrunl⟩
              · simp only [List.append_assoc, runTop_append, hok1,
                  runTop_cons_nonloop, loopFreeInstr, execInstr_storeVar,
                  runTop_nil, hok2]
              · rw [List.getLast?_cons_cons]
                exact hget
  | .ident x :: e2 :: rest, hv, p, hc, s, env, c => by
      simp only [seqV, Bool.and_eq_true] at hv
      obtain ⟨hse, hrest⟩ := hv
      simp only [stmtV] at hse
      rw [compileSeq_cons] at hc
      cases hce : compile (.ident x) with
      | none => rw [hce] at hc; exact absurd hc (by simp)
      | some pe =>
        rw [hce] at hc
        cases hcr : compileSeq (e2 :: rest) with
        | none => simp only [hcr] at hc; exact absurd hc (by simp)
        | some pr =>
          simp only [hcr, Option.some.injEq] at hc
          subst hc
          have hsh : (pe ++ (if (.ident x : Expr).isAssign then ([] : Program)
              else [.storeVar "_tmp"]) ++ pr) = pe ++ [.storeVar "_tmp"] ++ pr := by
            simp [Expr.isAssign]
          rw [hsh]
          rcases vexprStack fns ops R d (.ident x) hse pe hce s env c with
            ⟨m, hm⟩ | ⟨v, env1, c1, hok1⟩
          · exact .inl ⟨m, by simp only [List.append_assoc, runTop_append, hm]⟩
          · rcases seqVStack fns ops R d (e2 :: rest) hrest pr hcr s
                (env1.insert "_tmp" v) c1 with
              ⟨m, hm⟩ | ⟨v2, env2, c2, hok2, elast, pl, envl, cl, hget, hcl, hrunl⟩
            · exact .inl ⟨m, by
                simp only [List.append_assoc, runTop_append, hok1,
                  runTop_cons_nonloop, loopFreeInstr, execInstr_storeVar,
                  runTop_nil, hm]⟩
            · refine .inr ⟨v2, env2, c2, ?_, elast, pl, envl, cl, ?_, hcl, hrunl⟩
              · simp only [List.append_assoc, runTop_append, hok1,
                  runTop_cons_nonloop, loopFreeInstr, execInstr_storeVar,
                  runTop_nil, hok2]
              · rw [List.getLast?_cons_cons]
                exact hget
  | .binaryOp l op r :: e2 :: rest, hv, p, hc, s, env, c => by
      simp only [seqV, Bool.and_eq_true] at hv
      obtain ⟨hse, hrest⟩ := hv
      simp only [stmtV] at hse
      rw [compileSeq_cons] at hc
      cases hce : compile (.binaryOp l op r) with
      | none => rw [hce] at hc; exact absurd hc (by simp)
      | some pe =>
        rw [hce] at hc
        cases hcr : compileSeq (e2 :: rest) with
        | none => simp only [hcr] at hc; exact absurd hc (by simp)
        | some pr =>
          simp only [hcr, Option.some.injEq] at hc
          subst hc
          have hsh : (pe ++ (if (.binaryOp l op r : Expr).isAssign then ([] : Program)
              else [.storeVar "_tmp"]) ++ pr) = pe ++ [.storeVar "_tmp"] ++ pr := by
            simp [Expr.isAssign]
          rw [hsh]
          rcases vexprStack fns ops R d (.binaryOp l op r) hse pe hce s env c with
            ⟨m, hm⟩ | ⟨v, env1, c1, hok1⟩
          · exact .inl ⟨m, by simp only [List.append_assoc, runTop_append, hm]⟩
          · rcases seqVStack fns ops R d (e2 :: rest) hrest pr hcr s
                (env1.insert "_tmp" v) c1 with
              ⟨m, hm⟩ | ⟨v2, env2, c2, hok2, elast, pl, envl, cl, hget, hcl, hrunl⟩
            · exact .inl ⟨m, by
                simp only [List.append_assoc, runTop_append, hok1,
                  runTop_cons_nonloop, loopFreeInstr, execInstr_storeVar,
                  runTop_nil, hm]⟩
            · refine .inr ⟨v2, env2, c2, ?_, elast, pl, envl, cl, ?_, hcl, hrunl⟩
              · simp only [List.append_assoc, runTop_append, hok1,
                  runTop_cons_nonloop, loopFreeInstr, execInstr_storeVar,
                  runTop_nil, hok2]
              · rw [List.getLast?_cons_cons]
                exact hget
  | .function f a :: e2 :: rest, hv, p, hc, s, env, c => by
      simp only [seqV, Bool.and_eq_true] at hv
      obtain ⟨hse, hrest⟩ := hv
      simp only [stmtV] at hse
      rw [compileSeq_cons] at hc
      cases hce : compile (.function f a) with
      | none => rw [hce] at hc; exact absurd hc (by simp)
      | some pe =>
        rw [hce] at hc
        cases hcr : compileSeq (e2 :: rest) with
        | none => simp only [hcr] at hc; exact absurd hc (by simp)
        | some pr =>
          simp only [hcr, Option.some.injEq] at hc
          subst hc
          have hsh : (pe ++ (if (.function f a : Expr).isAssign then ([] : Program)
              else [.storeVar "_tmp"]) ++ pr) = pe ++ [.storeVar "_tmp"] ++ pr := by
            simp [Expr.isAssign]
          rw [hsh]
          rcases vexprStack fns ops R d (.function f a) hse pe hce s env c with
            ⟨m, hm⟩ | ⟨v, env1, c1, hok1⟩
          · exact .inl ⟨m, by simp only [List.append_assoc, runTop_append, hm]⟩
          · rcases seqVStack fns ops R d (e2 :: rest) hrest pr hcr s
                (env1.insert "_tmp" v) c1 with
              ⟨m, hm⟩ | ⟨v2, env2, c2, hok2, elast, pl, envl, cl, hget, hcl, hrunl⟩
            · exact .inl ⟨m, by
                simp only [List.append_assoc, runTop_append, hok1,
                  runTop_cons_nonloop, loopFreeInstr, execInstr_storeVar,
                  runTop_nil, hm]⟩
            · refine .inr ⟨v2, env2, c2, ?_, elast, pl, envl, cl, ?_, hcl, hrunl⟩
              · simp only [List.append_assoc, runTop_append, hok1,
                  runTop_cons_nonloop, loopFreeInstr, execInstr_storeVar,
                  runTop_nil, hok2]
              · rw [List.getLast?_cons_cons]
                exact hget
  | .functionDef nm aa bb :: e2 :: rest, hv, p, hc, s, env, c => by
      simp only [seqV, Bool.and_eq_true] at hv
      obtain ⟨hse, hrest⟩ := hv
      simp only [stmtV] at hse
      rw [compileSeq_cons] at hc
      cases hce : compile (.functionDef nm aa bb) with
      | none => rw [hce] at hc; exact absurd hc (by simp)
      | some pe =>
        rw [hce] at hc
        cases hcr : compileSeq (e2 :: rest) with
        | none => simp only [hcr] at hc; exact absurd hc (by simp)
        | some pr =>
          simp only [hcr, Option.some.injEq] at hc
          subst hc
          have hsh : (pe ++ (if (.functionDef nm aa bb : Expr).isAssign then ([] : Program)
              else [.storeVar "_tmp"]) ++ pr) = pe ++ [.storeVar "_tmp"] ++ pr := by
            simp [Expr.isAssign]
          rw [hsh]
          rcases vexprStack fns ops R d (.functionDef nm aa bb) hse pe hce s env c with
            ⟨m, hm⟩ | ⟨v, env1, c1, hok1⟩
          · exact .inl ⟨m, by simp only [List.append_assoc, runTop_append, hm]⟩
          · rcases seqVStack fns ops R d (e2 :: rest) hrest pr hcr s
                (env1.insert "_tmp" v) c1 with
              ⟨m, hm⟩ | ⟨v2, env2, c2, hok2, elast, pl, envl, cl, hget, hcl, hrunl⟩
            · exact .inl ⟨m, by
                simp only [List.append_assoc, runTop_append, hok1,
                  runTop_cons_nonloop, loopFreeInstr, execInstr_storeVar,
                  runTop_nil, hm]⟩
            · refine .inr ⟨v2, env2, c2, ?_, elast, pl, envl, cl, ?_, hcl, hrunl⟩
              · simp only [List.append_assoc, runTop_append, hok1,
                  runTop_cons_nonloop, loopFreeInstr, execInstr_storeVar,
                  runTop_nil, hok2]
              · rw [List.getLast?_cons_cons]
                exact hget
  | .functionCall nm aa :: e2 :: rest, hv, p, hc, s, env, c => by
      simp only [seqV, Bool.and_eq_true] at hv
      obtain ⟨hse, hrest⟩ := hv
      simp only [stmtV] at hse
      rw [compileSeq_cons] at hc
      cases hce : compile (.functionCall nm aa) with
      | none => rw [hce] at hc; exact absurd hc (by simp)
      | some pe =>
        rw [hce] at hc
        cases hcr : compileSeq (e2 :: rest) with
        | none => simp only [hcr] at hc; exact absurd hc (by simp)
        | some pr =>
          simp only [hcr, Option.some.injEq] at hc
          subst hc
          have hsh : (pe ++ (if (.functionCall nm aa : Expr).isAssign then ([] : Program)
              else [.storeVar "_tmp"]) ++ pr) = pe ++ [.storeVar "_tmp"] ++ pr := by
            simp [Expr.isAssign]
          rw [hsh]
          rcases vexprStack fns ops R d (.functionCall nm aa) hse pe hce s env c with
            ⟨m, hm⟩ | ⟨v, env1, c1, hok1⟩
          · exact .inl ⟨m, by simp only [List.append_assoc, runTop_append, hm]⟩
          · rcases seqVStack fns ops R d (e2 :: rest) hrest pr hcr s
                (env1.insert "_tmp" v) c1 with
              ⟨m, hm⟩ | ⟨v2, env2, c2, hok2, elast, pl, envl, cl, hget, hcl, hrunl⟩
            · exact .inl ⟨m, by
                simp only [List.append_assoc, runTop_append, hok1,
                  runTop_cons_nonloop, loopFreeInstr, execInstr_storeVar,
                  runTop_nil, hm]⟩
            · refine .inr ⟨v2, env2, c2, ?_, elast, pl, envl, cl, ?_, hcl, hrunl⟩
              · simp only [List.append_assoc, runTop_append, hok1,
                  runTop_cons_nonloop, loopFreeInstr, execInstr_storeVar,
                  runTop_nil, hok2]
              · rw [List.getLast?_cons_cons]
                exact hget
  | .sequence es2 :: e2 :: rest, hv, p, hc, s, env, c => by
      simp only [seqV, Bool.and_eq_true] at hv
      obtain ⟨hse, hrest⟩ := hv
      simp only [stmtV] at hse
      rw [compileSeq_cons] at hc
      cases hce : compile (.sequence es2) with
      | none => rw [hce] at hc; exact absurd hc (by simp)
      | some pe =>
        rw [hce] at hc
        cases hcr : compileSeq (e2 :: rest) with
        | none => simp only [hcr] at hc; exact absurd hc (by simp)
        | some pr =>
          simp only [hcr, Option.some.injEq] at hc
          subst hc
          have hsh : (pe ++ (if (.sequence es2 : Expr).isAssign then ([] : Program)
              else [.storeVar "_tmp"]) ++ pr) = pe ++ [.storeVar "_tmp"] ++ pr := by
            simp [Expr.isAssign]
          rw [hsh]
          rcases vexprStack fns ops R d (.sequence es2) hse pe hce s env c with
            ⟨m, hm⟩ | ⟨v, env1, c1, hok1⟩
          · exact .inl ⟨m, by simp only [List.append_assoc, runTop_append, hm]⟩
          · rcases seqVStack fns ops R d (e2 :: rest) hrest pr hcr s
                (env1.insert "_tmp" v) c1 with
              ⟨m, hm⟩ | ⟨v2, env2, c2, hok2, elast, pl, envl, cl, hget, hcl, hrunl⟩
            · exact .inl ⟨m, by
                simp only [List.append_assoc, runTop_append, hok1,
                  runTop_cons_nonloop, loopFreeInstr, execInstr_storeVar,
                  runTop_nil, hm]⟩
            · refine .inr ⟨v2, env2, c2, ?_, elast, pl, envl, cl, ?_, hcl, hrunl⟩
              · simp only [List.append_assoc, runTop_append, hok1,
                  runTop_cons_nonloop, loopFreeInstr, execInstr_storeVar,
                  runTop_nil, hok2]
              · rw [List.getLast?_cons_cons]
                exact hget
  | .sum lo hi pr2 bd :: e2 :: rest, hv, p, hc, s, env, c => by
      simp only [seqV, Bool.and_eq_true] at hv
      obtain ⟨hse, hrest⟩ := hv
      simp only [stmtV] at hse
      rw [compileSeq_cons] at hc
      cases hce : compile (.sum lo hi pr2 bd) with
      | none => rw [hce] at hc; exact absurd hc (by simp)
      | some pe =>
        rw [hce] at hc
        cases hcr : compileSeq (e2 :: rest) with
        | none => simp only [hcr] at hc; exact absurd hc (by simp)
        | some pr =>
          simp only [hcr, Option.some.injEq] at hc
          subst hc
          have hsh : (pe ++ (if (.sum lo hi pr2 bd : Expr).isAssign then ([] : Program)
              else [.storeVar "_tmp"]) ++ pr) = pe ++ [.storeVar "_tmp"] ++ pr := by
            simp [Expr.isAssign]
          rw [hsh]
          rcases vexprStack fns ops R d (.sum lo hi pr2 bd) hse pe hce s env c with
            ⟨m, hm⟩ | ⟨v, env1, c1, hok1⟩
          · exact .inl ⟨m, by simp only [List.append_assoc, runTop_append, hm]⟩
          · rcases seqVStack fns ops R d (e2 :: rest) hrest pr hcr s
                (env1.insert "_tmp" v) c1 with
              ⟨m, hm⟩ | ⟨v2, env2, c2, hok2, elast, pl, envl, cl, hget, hcl, hrunl⟩
            · exact .inl ⟨m, by
                simp only [List.append_assoc, runTop_append, hok1,
                  runTop_cons_nonloop, loopFreeInstr, execInstr_storeVar,
                  runTop_nil, hm]⟩
            · refine .inr ⟨v2, env2, c2, ?_, elast, pl, envl, cl, ?_, hcl, hrunl⟩
              · simp only [List.append_assoc, runTop_append, hok1,
                  runTop_cons_nonloop, loopFreeInstr, execInstr_storeVar,
                  runTop_nil, hok2]
              · rw [List.getLast?_cons_cons]
                exact hget
  | .product lo hi pr2 bd :: e2 :: rest, hv, p, hc, s, env, c => by
      simp only [seqV, Bool.and_eq_true] at hv
      obtain ⟨hse, hrest⟩ := hv
      simp only [stmtV] at hse
      rw [compileSeq_cons] at hc
      cases hce : compile (.product lo hi pr2 bd) with
      | none => rw [hce] at hc; exact absurd hc (by simp)
      | some pe =>
        rw [hce] at hc
        cases hcr : compileSeq (e2 :: rest) with
        | none => simp only [hcr] at hc; exact absurd hc (by simp)
        | some pr =>
          simp only [hcr, Option.some.injEq] at hc
          subst hc
          have hsh : (pe ++ (if (.product lo hi pr2 bd : Expr).isAssign then ([] : Program)
              else [.storeVar "_tmp"]) ++ pr) = pe ++ [.storeVar "_tmp"] ++ pr := by
            simp [Expr.isAssign]
          rw [hsh]
          rcases vexprStack fns ops R d (.product lo hi pr2 bd) hse pe hce s env c with
            ⟨m, hm⟩ | ⟨v, env1, c1, hok1⟩
          · exact .inl ⟨m, by simp only [List.append_assoc, runTop_append, hm]⟩
          · rcases seqVStack fns ops R d (e2 :: rest) hrest pr hcr s
                (env1.insert "_tmp" v) c1 with
              ⟨m, hm⟩ | ⟨v2, env2, c2, hok2, elast, pl, envl, cl, hget, hcl, hrunl⟩
            · exact .inl ⟨m, by
                simp only [List.append_assoc, runTop_append, hok1,
                  runTop_cons_nonloop, loopFreeInstr, execInstr_storeVar,
                  runTop_nil, hm]⟩
            · refine .inr ⟨v2, env2, c2, ?_, elast, pl, envl, cl, ?_, hcl, hrunl⟩
              · simp only [List.append_assoc, runTop_append, hok1,
                  runTop_cons_nonloop, loopFreeInstr, execInstr_storeVar,
                  runTop_nil, hok2]
              · rw [List.getLast?_cons_cons]
                exact hget
termination_by es => (sizeOf es, 1)

end


/-! ## The evaluator never unbinds an environment key

Every environment effect of `eval_expr` is an insert or a
save-and-restore whose saved value existed whenever the key was bound on
entry, so a key bound before evaluation is still bound (possibly to a
new value) after any successful evaluation. -/

set_option maxHeartbeats 3200000 in
mutual

/-- `eval_expr` keeps every bound environment key bound. -/
theorem evalExpr_keeps (fns : FnTable) (ops : FloatOps) (R : RandSrc) :
    ∀ (d : ℕ) (e : Expr) (env : Env) (c : ℕ) (r : FVal × Env × ℕ),
    evalExpr fns ops R d e env c = .ok r →
    ∀ (k : String) (w : FVal), env k = some w → ∃ w2, r.2.1 k = some w2
  | d, .number n, env, c, r, h, k, w, hk => by
      rw [evalExpr_number] at h
      cases h
      exact ⟨w, hk⟩
  | d, .ident x, env, c, r, h, k, w, hk => by
      rw [evalExpr_ident] at h
      cases henv : env x with
      | none => rw [henv] at h; exact absurd h (by simp)
      | some v => rw [henv] at h; cases h; exact ⟨w, hk⟩
  | d, .assign x e, env, c, r, h, k, w, hk => by
      rw [evalExpr_assign] at h
      cases hev : evalExpr fns ops R d e env c with
      | error m => rw [hev] at h; exact absurd h (by simp)
      | ok t =>
          rw [hev] at h
          obtain ⟨v, env1, c1⟩ := t
          simp only at h
          cases h
          obtain ⟨w1, hw1⟩ := evalExpr_keeps fns ops R d e env c _ hev k w hk
          by_cases hkx : k = x
          · subst hkx
            exact ⟨v, Env.insert_same _ _ _⟩
          · refine ⟨w1, ?_⟩
            show (env1.insert x v) k = some w1
            rw [Env.insert_other _ _ _ _ hkx]
            exact hw1
  | d, .binaryOp l op r2, env, c, r, h, k, w, hk => by
      rw [evalExpr_binaryOp] at h
      cases hl : evalExpr fns ops R d l env c with
      | error m => rw [hl] at h; exact absurd h (by simp)
      | ok t1 =>
          rw [hl] at h
          obtain ⟨lv, env1, c1⟩ := t1
          simp only at h
          cases hr : evalExpr fns ops R d r2 env1 c1 with
          | error m => rw [hr] at h; exact absurd h (by simp)
          | ok t2 =>
              rw [hr] at h
              obtain ⟨rv, env2, c2⟩ := t2
              simp only at h
              cases h
              obtain ⟨w1, hw1⟩ := evalExpr_keeps fns ops R d l env c _ hl k w hk
              exact evalExpr_keeps fns ops R d r2 env1 c1 _ hr k w1 hw1
  | d, .function f arg, env, c, r, h, k, w, hk => by
      simp only [evalExpr, Except.bind, bind] at h
      cases hev : evalExpr fns ops R d arg env c with
      | error m => rw [hev] at h; exact absurd h (by simp)
      | ok t =>
          rw [hev] at h
          obtain ⟨v, env1, c1⟩ := t
          simp only at h
          obtain ⟨w1, hw1⟩ := evalExpr_keeps fns ops R d arg env c _ hev k w hk
          cases f <;> simp only at h <;>
            first
              | (cases h; exact ⟨w1, hw1⟩)
              | exact Except.noConfusion h
  | 0, .functionCall nm arg, env, c, r, h, k, w, hk => by
      rw [evalExpr_functionCall] at h
      cases hev : evalExpr fns ops R 0 arg env c with
      | error m => rw [hev] at h; exact absurd h (by simp)
      | ok t =>
          rw [hev] at h
          obtain ⟨av, env1, c1⟩ := t
          simp only at h
          cases hfn : fns nm with
          | none => rw [hfn] at h; exact absurd h (by simp)
          | some pb =>
              rw [hfn] at h
              obtain ⟨param, body⟩ := pb
              exact absurd h (by simp)
  | d + 1, .functionCall nm arg, env, c, r, h, k, w, hk => by
      rw [evalExpr_functionCall] at h
      cases hev : evalExpr fns ops R (d + 1) arg env c with
      | error m => rw [hev] at h; exact absurd h (by simp)
      | ok t =>
          rw [hev] at h
          obtain ⟨av, env1, c1⟩ := t
          simp only at h
          cases hfn : fns nm with
          | none => rw [hfn] at h; exact absurd h (by simp)
          | some pb =>
              rw [hfn] at h
              obtain ⟨param, body⟩ := pb
              simp only at h
              cases hev2 : evalExpr fns ops R d body (env1.insert param av) c1 with
              | error m => rw [hev2] at h; exact absurd h (by simp)
              | ok t2 =>
                  rw [hev2] at h
                  obtain ⟨v, env2, c2⟩ := t2
                  simp only at h
                  cases h
                  obtain ⟨w1, hw1⟩ :=
                    evalExpr_keeps fns ops R (d + 1) arg env c _ hev k w hk
                  by_cases hkp : k = param
                  · subst hkp
                    refine ⟨w1, ?_⟩
                    show (env2.restore k (env1 k)) k = some w1
                    rw [Env.restore_same]
                    exact hw1
                  · have hb : (env1.insert param av) k = some w1 := by
                      rw [Env.insert_other _ _ _ _ hkp]; exact hw1
                    obtain ⟨w2, hw2⟩ :=
                      evalExpr_keeps fns ops R d body (env1.insert param av) c1 _ hev2 k w1 hb
                    refine ⟨w2, ?_⟩
                    show (env2.restore param (env1 param)) k = some w2
                    rw [Env.restore_other _ _ _ _ hkp]
                    exact hw2
  | d, .functionDef nm aa bb, env, c, r, h, k, w, hk => by
      rw [evalExpr_functionDef] at h
      exact absurd h (by simp)
  | d, .sequence es, env, c, r, h, k, w, hk => by
      rw [evalExpr_sequence] at h
      exact evalSeq_keeps fns ops R d es (.fin 0) env c r h k w hk
  | d, .sum lo hi param body, env, c, r, h, k, w, hk => by
      rw [evalExpr_sum] at h
      cases hl : evalExpr fns ops R d lo env c with
      | error m => rw [hl] at h; exact absurd h (by simp)
      | ok t1 =>
          rw [hl] at h
          obtain ⟨lv, env1, c1⟩ := t1
          simp only at h
          cases hh : evalExpr fns ops R d hi env1 c1 with
          | error m => rw [hh] at h; exact absurd h (by simp)
          | ok t2 =>
              rw [hh] at h
              obtain ⟨hv, env2, c2⟩ := t2
              simp only at h
              obtain ⟨w1, hw1⟩ := evalExpr_keeps fns ops R d lo env c _ hl k w hk
              obtain ⟨w2, hw2⟩ := evalExpr_keeps fns ops R d hi env1 c1 _ hh k w1 hw1
              exact evalLoop_keeps fns ops R d true param body
                (intRange lv.ceilI64 hv.floorI64) (.fin 0) env2 c2 r h k w2 hw2
  | d, .product lo hi param body, env, c, r, h, k, w, hk => by
      rw [evalExpr_product] at h
      cases hl : evalExpr fns ops R d lo env c with
      | error m => rw [hl] at h; exact absurd h (by simp)
      | ok t1 =>
          rw [hl] at h
          obtain ⟨lv, env1, c1⟩ := t1
          simp only at h
          cases hh : evalExpr fns ops R d hi env1 c1 with
          | error m => rw [hh] at h; exact absurd h (by simp)
          | ok t2 =>
              rw [hh] at h
              obtain ⟨hv, env2, c2⟩ := t2
              simp only at h
              obtain ⟨w1, hw1⟩ := evalExpr_keeps fns ops R d lo env c _ hl k w hk
              obtain ⟨w2, hw2⟩ := evalExpr_keeps fns ops R d hi env1 c1 _ hh k w1 hw1
              exact evalLoop_keeps fns ops R d false param body
                (intRange lv.ceilI64 hv.floorI64) (.fin 1) env2 c2 r h k w2 hw2
termination_by d e => (d, sizeOf e, 0)

/-- `evalSeq` keeps every bound environment key bound. -/
theorem evalSeq_keeps (fns : FnTable) (ops : FloatOps) (R : RandSrc) :
    ∀ (d : ℕ) (es : List Expr) (acc : FVal) (env : Env) (c : ℕ) (r : FVal × Env × ℕ),
    evalSeq fns ops R d es acc env c = .ok r →
    ∀ (k : String) (w : FVal), env k = some w → ∃ w2, r.2.1 k = some w2
  | d, [], acc, env, c, r, h, k, w, hk => by
      rw [evalSeq_nil] at h
      cases h
      exact ⟨w, hk⟩
  | d, e :: es, acc, env, c, r, h, k, w, hk => by
      rw [evalSeq_cons] at h
      cases hev : evalExpr fns ops R d e env c with
      | error m => rw [hev] at h; exact absurd h (by simp)
      | ok t =>
          rw [hev] at h
          obtain ⟨v, env1, c1⟩ := t
          simp only at h
          obtain ⟨w1, hw1⟩ := evalExpr_keeps fns ops R d e env c _ hev k w hk
          exact evalSeq_keeps fns ops R d es v env1 c1 r h k w1 hw1
termination_by d es => (d, sizeOf es, 1)

/-- `evalLoop` keeps every bound environment key bound (each iteration
restores the parameter to its previous value, which existed whenever the
key was bound on entry). -/
theorem evalLoop_keeps (fns : FnTable) (ops : FloatOps) (R : RandSrc) :
    ∀ (d : ℕ) (isSum : Bool) (param : String) (body : Expr) (is : List ℤ)
    (acc : FVal) (env : Env) (c : ℕ) (r : FVal × Env × ℕ),
    evalLoop fns ops R d isSum param body is acc env c = .ok r →
    ∀ (k : String) (w : FVal), env k = some w → ∃ w2, r.2.1 k = some w2
  | d, isSum, param, body, [], acc, env, c, r, h, k, w, hk => by
      rw [evalLoop_nil] at h
      cases h
      exact ⟨w, hk⟩
  | d, isSum, param, body, i :: is, acc, env, c, r, h, k, w, hk => by
      rw [evalLoop_cons] at h
      cases hev : evalExpr fns ops R d body (env.insert param (.fin i)) c with
      | error m => rw [hev] at h; exact absurd h (by simp)
      | ok t =>
          rw [hev] at h
          obtain ⟨v, env1, c1⟩ := t
          simp only at h
          by_cases hkp : k = param
          · subst hkp
            have hres : (env1.restore k (env k)) k = some w := by
              rw [Env.restore_same]; exact hk
            exact evalLoop_keeps fns ops R d isSum k body is
              (if isSum then acc.fadd v else acc.fmul v)
              (env1.restore k (env k)) c1 r h k w hres
          · have hb : (env.insert param (.fin i)) k = some w := by
              rw [Env.insert_other _ _ _ _ hkp]; exact hk
            obtain ⟨w1, hw1⟩ :=
              evalExpr_keeps fns ops R d body (env.insert param (.fin i)) c _ hev k w hb
            have hres : (env1.restore param (env param)) k = some w1 := by
              rw [Env.restore_other _ _ _ _ hkp]; exact hw1
            exact evalLoop_keeps fns ops R d isSum param body is
              (if isSum then acc.fadd v else acc.fmul v)
              (env1.restore param (env param)) c1 r h k w1 hres
termination_by d _ _ body is => (d, sizeOf body, is.length + 2)

end


/-! ## The VM never unbinds an environment key below the top level

`exec_instruction`, `run_bytecode_with_functions_inner` and the inner
loop runner only insert, or save and restore, environment keys; only the
top-level loop arms remove one. -/

set_option maxHeartbeats 3200000 in
mutual

/-- A single instruction keeps every bound environment key bound. -/
theorem execInstr_keeps (fns : FnTable) (ops : FloatOps) (R : RandSrc) (d : ℕ) :
    ∀ (i : Bytecode) (s : Stack) (env : Env) (c : ℕ) (r : Stack × Env × ℕ),
    execInstr fns ops R d i s env c = .ok r →
    ∀ (k : String) (w : FVal), env k = some w → ∃ w2, r.2.1 k = some w2
  | .callUserFunction name, s, env, c, r, h, k, w, hk => by
      simp only [execInstr, Except.bind, bind] at h
      cases hfn : fns name with
      | none => rw [hfn] at h; exact absurd h (by simp)
      | some pb =>
          rw [hfn] at h
          obtain ⟨argName, body⟩ := pb
          simp only at h
          cases s with
          | nil => exact absurd h (by simp)
          | cons argVal s =>
              simp only at h
              cases hev : evalExpr fns ops R d body (env.insert argName argVal) c with
              | error m => rw [hev] at h; exact absurd h (by simp)
              | ok t =>
                  rw [hev] at h
                  obtain ⟨v, env1, c1⟩ := t
                  simp only at h
                  cases h
                  by_cases hkp : k = argName
                  · subst hkp
                    refine ⟨w, ?_⟩
                    show (env1.restore k (env k)) k = some w
                    rw [Env.restore_same]
                    exact hk
                  · have hb : (env.insert argName argVal) k = some w := by
                      rw [Env.insert_other _ _ _ _ hkp]; exact hk
                    obtain ⟨w1, hw1⟩ :=
                      evalExpr_keeps fns ops R d body (env.insert argName argVal) c _ hev k w hb
                    refine ⟨w1, ?_⟩
                    show (env1.restore argName (env argName)) k = some w1
                    rw [Env.restore_other _ _ _ _ hkp]
                    exact hw1
  | .sumLoop lo hi2 param body, s, env, c, r, h, k, w, hk => by
      simp only [execInstr, Except.bind, bind] at h
      cases hlo : runInner fns ops R d lo [] env c with
      | error m => rw [hlo] at h; exact absurd h (by simp)
      | ok t1 =>
          rw [hlo] at h
          obtain ⟨ls, env1, c1⟩ := t1
          cases ls with
          | nil => simp only at h; exact absurd h (by simp)
          | cons lv lrest =>
              simp only at h
              cases hhi : runInner fns ops R d hi2 [] env1 c1 with
              | error m => rw [hhi] at h; exact absurd h (by simp)
              | ok t2 =>
                  rw [hhi] at h
                  obtain ⟨hs, env2, c2⟩ := t2
                  cases hs with
                  | nil => simp only at h; exact absurd h (by simp)
                  | cons hv hrest =>
                      simp only at h
                      cases hlp : runLoop fns ops R d true param body
                          (intRange lv.ceilI64 hv.floorI64) (.fin 0) env2 c2 with
                      | error m => rw [hlp] at h; exact absurd h (by simp)
                      | ok t3 =>
                          rw [hlp] at h
                          obtain ⟨acc, env3, c3⟩ := t3
                          simp only at h
                          cases h
                          obtain ⟨w1, hw1⟩ := runInner_keeps fns ops R d lo [] env c _ hlo k w hk
                          obtain ⟨w2, hw2⟩ := runInner_keeps fns ops R d hi2 [] env1 c1 _ hhi k w1 hw1
                          obtain ⟨w3, hw3⟩ := runLoop_keeps fns ops R d true param body
                              (intRange lv.ceilI64 hv.floorI64) (.fin 0) env2 c2 _ hlp k w2 hw2
                          exact ⟨w3, hw3⟩
  | .productLoop lo hi2 param body, s, env, c, r, h, k, w, hk => by
      simp only [execInstr, Except.bind, bind] at h
      cases hlo : runInner fns ops R d lo [] env c with
      | error m => rw [hlo] at h; exact absurd h (by simp)
      | ok t1 =>
          rw [hlo] at h
          obtain ⟨ls, env1, c1⟩ := t1
          cases ls with
          | nil => simp only at h; exact absurd h (by simp)
          | cons lv lrest =>
              simp only at h
              cases hhi : runInner fns ops R d hi2 [] env1 c1 with
              | error m => rw [hhi] at h; exact absurd h (by simp)
              | ok t2 =>
                  rw [hhi] at h
                  obtain ⟨hs, env2, c2⟩ := t2
                  cases hs with
                  | nil => simp only at h; exact absurd h (by simp)
                  | cons hv hrest =>
                      simp only at h
                      cases hlp : runLoop fns ops R d false param body
                          (intRange lv.ceilI64 hv.floorI64) (.fin 1) env2 c2 with
                      | error m => rw [hlp] at h; exact absurd h (by simp)
                      | ok t3 =>
                          rw [hlp] at h
                          obtain ⟨acc, env3, c3⟩ := t3
                          simp only at h
                          cases h
                          obtain ⟨w1, hw1⟩ := runInner_keeps fns ops R d lo [] env c _ hlo k w hk
                          obtain ⟨w2, hw2⟩ := runInner_keeps fns ops R d hi2 [] env1 c1 _ hhi k w1 hw1
                          obtain ⟨w3, hw3⟩ := runLoop_keeps fns ops R d false param body
                              (intRange lv.ceilI64 hv.floorI64) (.fin 1) env2 c2 _ hlp k w2 hw2
                          exact ⟨w3, hw3⟩
  | .pushNumber n, s, env, c, r, h, k, w, hk =>
      execInstr_env_keep fns ops R d (.pushNumber n) rfl s env c r h k w hk
  | .add, s, env, c, r, h, k, w, hk =>
      execInstr_env_keep fns ops R d .add rfl s env c r h k w hk
  | .sub, s, env, c, r, h, k, w, hk =>
      execInstr_env_keep fns ops R d .sub rfl s env c r h k w hk
  | .mul, s, env, c, r, h, k, w, hk =>
      execInstr_env_keep fns ops R d .mul rfl s env c r h k w hk
  | .div, s, env, c, r, h, k, w, hk =>
      execInstr_env_keep fns ops R d .div rfl s env c r h k w hk
  | .sin, s, env, c, r, h, k, w, hk =>
      execInstr_env_keep fns ops R d .sin rfl s env c r h k w hk
  | .cos, s, env, c, r, h, k, w, hk =>
      execInstr_env_keep fns ops R d .cos rfl s env c r h k w hk
  | .tan, s, env, c, r, h, k, w, hk =>
      execInstr_env_keep fns ops R d .tan rfl s env c r h k w hk
  | .cot, s, env, c, r, h, k, w, hk =>
      execInstr_env_keep fns ops R d .cot rfl s env c r h k w hk
  | .sec, s, env, c, r, h, k, w, hk =>
      execInstr_env_keep fns ops R d .sec rfl s env c r h k w hk
  | .csc, s, env, c, r, h, k, w, hk =>
      execInstr_env_keep fns ops R d .csc rfl s env c r h k w hk
  | .sinh, s, env, c, r, h, k, w, hk =>
      execInstr_env_keep fns ops R d .sinh rfl s env c r h k w hk
  | .cosh, s, env, c, r, h, k, w, hk =>
      execInstr_env_keep fns ops R d .cosh rfl s env c r h k w hk
  | .tanh, s, env, c, r, h, k, w, hk =>
      execInstr_env_keep fns ops R d .tanh rfl s env c r h k w hk
  | .asinh, s, env, c, r, h, k, w, hk =>
      execInstr_env_keep fns ops R d .asinh rfl s env c r h k w hk
  | .acosh, s, env, c, r, h, k, w, hk =>
      execInstr_env_keep fns ops R d .acosh rfl s env c r h k w hk
  | .atanh, s, env, c, r, h, k, w, hk =>
      execInstr_env_keep fns ops R d .atanh rfl s env c r h k w hk
  | .exp, s, env, c, r, h, k, w, hk =>
      execInstr_env_keep fns ops R d .exp rfl s env c r h k w hk
  | .log, s, env, c, r, h, k, w, hk =>
      execInstr_env_keep fns ops R d .log rfl s env c r h k w hk
  | .log10, s, env, c, r, h, k, w, hk =>
      execInstr_env_keep fns ops R d .log10 rfl s env c r h k w hk
  | .log2, s, env, c, r, h, k, w, hk =>
      execInstr_env_keep fns ops R d .log2 rfl s env c r h k w hk
  | .sqrt, s, env, c, r, h, k, w, hk =>
      execInstr_env_keep fns ops R d .sqrt rfl s env c r h k w hk
  | .abs, s, env, c, r, h, k, w, hk =>
      execInstr_env_keep fns ops R d .abs rfl s env c r h k w hk
  | .asin, s, env, c, r, h, k, w, hk =>
      execInstr_env_keep fns ops R d .asin rfl s env c r h k w hk
  | .acos, s, env, c, r, h, k, w, hk =>
      execInstr_env_keep fns ops R d .acos rfl s env c r h k w hk
  | .atan, s, env, c, r, h, k, w, hk =>
      execInstr_env_keep fns ops R d .atan rfl s env c r h k w hk
  | .acot, s, env, c, r, h, k, w, hk =>
      execInstr_env_keep fns ops R d .acot rfl s env c r h k w hk
  | .asec, s, env, c, r, h, k, w, hk =>
      execInstr_env_keep fns ops R d .asec rfl s env c r h k w hk
  | .acsc, s, env, c, r, h, k, w, hk =>
      execInstr_env_keep fns ops R d .acsc rfl s env c r h k w hk
  | .pow, s, env, c, r, h, k, w, hk =>
      execInstr_env_keep fns ops R d .pow rfl s env c r h k w hk
  | .fact, s, env, c, r, h, k, w, hk =>
      execInstr_env_keep fns ops R d .fact rfl s env c r h k w hk
  | .logBase, s, env, c, r, h, k, w, hk =>
      execInstr_env_keep fns ops R d .logBase rfl s env c r h k w hk
  | .floor, s, env, c, r, h, k, w, hk =>
      execInstr_env_keep fns ops R d .floor rfl s env c r h k w hk
  | .rand, s, env, c, r, h, k, w, hk =>
      execInstr_env_keep fns ops R d .rand rfl s env c r h k w hk
  | .randInt, s, env, c, r, h, k, w, hk =>
      execInstr_env_keep fns ops R d .randInt rfl s env c r h k w hk
  | .storeVar nm, s, env, c, r, h, k, w, hk =>
      execInstr_env_keep fns ops R d (.storeVar nm) rfl s env c r h k w hk
  | .loadVar nm, s, env, c, r, h, k, w, hk =>
      execInstr_env_keep fns ops R d (.loadVar nm) rfl s env c r h k w hk
termination_by i => (sizeOf i, 0)

/-- Running a program with the inner VM keeps every bound key bound. -/
theorem runInner_keeps (fns : FnTable) (ops : FloatOps) (R : RandSrc) (d : ℕ) :
    ∀ (p : Program) (s : Stack) (env : Env) (c : ℕ) (r : Stack × Env × ℕ),
    runInner fns ops R d p s env c = .ok r →
    ∀ (k : String) (w : FVal), env k = some w → ∃ w2, r.2.1 k = some w2
  | [], s, env, c, r, h, k, w, hk => by
      rw [runInner_nil] at h
      cases h
      exact ⟨w, hk⟩
  | i :: rest, s, env, c, r, h, k, w, hk => by
      rw [runInner_cons] at h
      cases hex : execInstr fns ops R d i s env c with
      | error m => rw [hex] at h; exact absurd h (by simp)
      | ok t =>
          rw [hex] at h
          obtain ⟨s1, env1, c1⟩ := t
          simp only at h
          obtain ⟨w1, hw1⟩ := execInstr_keeps fns ops R d i s env c _ hex k w hk
          exact runInner_keeps fns ops R d rest s1 env1 c1 r h k w1 hw1
termination_by p => (sizeOf p, 1)

/-- The inner loop runner keeps every bound key bound (each iteration
restores the parameter to its previous value). -/
theorem runLoop_keeps (fns : FnTable) (ops : FloatOps) (R : RandSrc) (d : ℕ) :
    ∀ (isSum : Bool) (param : String) (body : Program) (is : List ℤ) (acc : FVal)
    (env : Env) (c : ℕ) (r : FVal × Env × ℕ),
    runLoop fns ops R d isSum param body is acc env c = .ok r →
    ∀ (k : String) (w : FVal), env k = some w → ∃ w2, r.2.1 k = some w2
  | isSum, param, body, [], acc, env, c, r, h, k, w, hk => by
      rw [runLoop_nil] at h
      cases h
      exact ⟨w, hk⟩
  | isSum, param, body, i :: is, acc, env, c, r, h, k, w, hk => by
      rw [runLoop_cons] at h
      cases hri : runInner fns ops R d body [] (env.insert param (.fin i)) c with
      | error m => rw [hri] at h; exact absurd h (by simp)
      | ok t =>
          rw [hri] at h
          obtain ⟨bs, env1, c1⟩ := t
          cases bs with
          | nil => simp only at h; exact absurd h (by simp)
          | cons v vrest =>
              simp only at h
              by_cases hkp : k = param
              · subst hkp
                have hres : (env1.restore k (env k)) k = some w := by
                  rw [Env.restore_same]; exact hk
                exact runLoop_keeps fns ops R d isSum k body is
                  (if isSum then acc.fadd v else acc.fmul v)
                  (env1.restore k (env k)) c1 r h k w hres
              · have hb : (env.insert param (.fin i)) k = some w := by
                  rw [Env.insert_other _ _ _ _ hkp]; exact hk
                obtain ⟨w1, hw1⟩ :=
                  runInner_keeps fns ops R d body [] (env.insert param (.fin i)) c _ hri k w hb
                have hres : (env1.restore param (env param)) k = some w1 := by
                  rw [Env.restore_other _ _ _ _ hkp]; exact hw1
                exact runLoop_keeps fns ops R d isSum param body is
                  (if isSum then acc.fadd v else acc.fmul v)
                  (env1.restore param (env param)) c1 r h k w1 hres
termination_by _ _ body is => (sizeOf body, is.length + 2)

end

/-- The top-level loop runner keeps every bound key bound (it threads
the body's environment straight through, without restoring). -/
theorem runTopLoop_keeps (fns : FnTable) (ops : FloatOps) (R : RandSrc) (d : ℕ)
    (isSum : Bool) (param : String) (body : Program) :
    ∀ (is : List ℤ) (acc : FVal) (env : Env) (c : ℕ) (r : FVal × Env × ℕ),
    runTopLoop fns ops R d isSum param body is acc env c = .ok r →
    ∀ (k : String) (w : FVal), env k = some w → ∃ w2, r.2.1 k = some w2 := by
  intro is
  induction is with
  | nil =>
      intro acc env c r h k w hk
      rw [runTopLoop_nil] at h
      cases h
      exact ⟨w, hk⟩
  | cons i is ih =>
      intro acc env c r h k w hk
      rw [runTopLoop_cons] at h
      cases hri : runInner fns ops R d body [] (env.insert param (.fin i)) c with
      | error m => rw [hri] at h; exact absurd h (by simp)
      | ok t =>
          rw [hri] at h
          obtain ⟨bs, env1, c1⟩ := t
          cases bs with
          | nil => simp only at h; exact absurd h (by simp)
          | cons v vrest =>
              simp only at h
              have hb : ∃ w0, (env.insert param (.fin i)) k = some w0 := by
                by_cases hkp : k = param
                · subst hkp; exact ⟨.fin i, Env.insert_same _ _ _⟩
                · refine ⟨w, ?_⟩
                  rw [Env.insert_other _ _ _ _ hkp]
                  exact hk
              obtain ⟨w0, hw0⟩ := hb
              obtain ⟨w1, hw1⟩ :=
                runInner_keeps fns ops R d body [] (env.insert param (.fin i)) c _ hri k w0 hw0
              exact ih _ env1 c1 r h k w1 hw1

/-- The top-level VM keeps a key bound provided no top-level loop uses
that key as its parameter (the one instruction that removes a key). -/
theorem runTop_keeps (fns : FnTable) (ops : FloatOps) (R : RandSrc) (d : ℕ) :
    ∀ (p : Program) (kk : String), paramFreeProg kk p = true →
    ∀ (s : Stack) (env : Env) (c : ℕ) (r : Stack × Env × ℕ),
    runTop fns ops R d p s env c = .ok r →
    ∀ (w : FVal), env kk = some w → ∃ w2, r.2.1 kk = some w2 := by
  intro p
  induction p with
  | nil =>
      intro kk hpf s env c r h w hk
      rw [runTop_nil] at h
      cases h
      exact ⟨w, hk⟩
  | cons i rest ih =>
      intro kk hpf s env c r h w hk
      simp only [paramFreeProg, List.all_cons, Bool.and_eq_true] at hpf
      obtain ⟨hpi, hprest⟩ := hpf
      by_cases hlf : loopFreeInstr i = true
      · rw [runTop_cons_nonloop fns ops R d i hlf rest s env c] at h
        cases hex : execInstr fns ops R d i s env c with
        | error m => rw [hex] at h; exact absurd h (by simp)
        | ok t =>
            rw [hex] at h
            obtain ⟨s1, env1, c1⟩ := t
            simp only at h
            obtain ⟨w1, hw1⟩ := execInstr_keeps fns ops R d i s env c _ hex kk w hk
            exact ih kk hprest s1 env1 c1 r h w1 hw1
      · cases i
        all_goals first
          | exact absurd rfl hlf
          | (rename_i lo hi2 pa bo ;
             rw [runTop_sumLoop_cons] at h ;
             have hne : ¬ kk = pa := by
               intro hx
               subst hx
               simp [paramFreeInstr] at hpi ;
             cases hlo : runInner fns ops R d lo [] env c with
             | error m => rw [hlo] at h; exact absurd h (by simp)
             | ok t1 =>
                 rw [hlo] at h
                 obtain ⟨ls, env1, c1⟩ := t1
                 cases ls with
                 | nil => simp only at h; exact absurd h (by simp)
                 | cons lv lrest =>
                     simp only at h
                     cases hhi : runInner fns ops R d hi2 [] env1 c1 with
                     | error m => rw [hhi] at h; exact absurd h (by simp)
                     | ok t2 =>
                         rw [hhi] at h
                         obtain ⟨hs, env2, c2⟩ := t2
                         cases hs with
                         | nil => simp only at h; exact absurd h (by simp)
                         | cons hv hrest =>
                             simp only at h
                             cases hlp : runTopLoop fns ops R d true pa bo
                                 (intRange lv.ceilI64 hv.floorI64) (FVal.fin 0) env2 c2 with
                             | error m => rw [hlp] at h; exact absurd h (by simp)
                             | ok t3 =>
                                 rw [hlp] at h
                                 obtain ⟨acc, env3, c3⟩ := t3
                                 simp only at h
                                 obtain ⟨w1, hw1⟩ :=
                                   runInner_keeps fns ops R d lo [] env c _ hlo kk w hk
                                 obtain ⟨w2, hw2⟩ :=
                                   runInner_keeps fns ops R d hi2 [] env1 c1 _ hhi kk w1 hw1
                                 obtain ⟨w3, hw3⟩ :=
                                   runTopLoop_keeps fns ops R d true pa bo
                                     (intRange lv.ceilI64 hv.floorI64) (FVal.fin 0) env2 c2 _ hlp kk w2 hw2
                                 have hrm : (env3.remove pa) kk = some w3 := by
                                   rw [Env.remove_other _ _ _ hne]
                                   exact hw3
                                 exact ih kk hprest (acc :: s) (env3.remove pa) c3 r h w3 hrm)
          | (rename_i lo hi2 pa bo ;
             rw [runTop_productLoop_cons] at h ;
             have hne : ¬ kk = pa := by
               intro hx
               subst hx
               simp [paramFreeInstr] at hpi ;
             cases hlo : runInner fns ops R d lo [] env c with
             | error m => rw [hlo] at h; exact absurd h (by simp)
             | ok t1 =>
                 rw [hlo] at h
                 obtain ⟨ls, env1, c1⟩ := t1
                 cases ls with
                 | nil => simp only at h; exact absurd h (by simp)
                 | cons lv lrest =>
                     simp only at h
                     cases hhi : runInner fns ops R d hi2 [] env1 c1 with
                     | error m => rw [hhi] at h; exact absurd h (by simp)
                     | ok t2 =>
                         rw [hhi] at h
                         obtain ⟨hs, env2, c2⟩ := t2
                         cases hs with
                         | nil => simp only at h; exact absurd h (by simp)
                         | cons hv hrest =>
                             simp only at h
                             cases hlp : runTopLoop fns ops R d false pa bo
                                 (intRange lv.ceilI64 hv.floorI64) (FVal.fin 1) env2 c2 with
                             | error m => rw [hlp] at h; exact absurd h (by simp)
                             | ok t3 =>
                                 rw [hlp] at h
                                 obtain ⟨acc, env3, c3⟩ := t3
                                 simp only at h
                                 obtain ⟨w1, hw1⟩ :=
                                   runInner_keeps fns ops R d lo [] env c _ hlo kk w hk
                                 obtain ⟨w2, hw2⟩ :=
                                   runInner_keeps fns ops R d hi2 [] env1 c1 _ hhi kk w1 hw1
                                 obtain ⟨w3, hw3⟩ :=
                                   runTopLoop_keeps fns ops R d false pa bo
                                     (intRange lv.ceilI64 hv.floorI64) (FVal.fin 1) env2 c2 _ hlp kk w2 hw2
                                 have hrm : (env3.remove pa) kk = some w3 := by
                                   rw [Env.remove_other _ _ _ hne]
                                   exact hw3
                                 exact ih kk hprest (acc :: s) (env3.remove pa) c3 r h w3 hrm)

/-! ## Claim C4 -/

/-- Claim C4 counterexample: the two-statement sequence `x = 3; y = 4`
ends in an assignment, so the compiler emits no trailing push; the
evaluator returns the last element's value `4`, but the VM finishes with
an empty stack and fails with `No result on stack` instead of producing
that value. -/
theorem C4_counterexample_final_assignment :
    (∃ ev2 c2, evalExpr FnTable.empty trivOps trivRand 0
      (.sequence [.assign "x" (.number (.fin 3)), .assign "y" (.number (.fin 4))])
      Env.empty 0 = .ok (.fin 4, ev2, c2)) ∧
    compileD (.sequence [.assign "x" (.number (.fin 3)), .assign "y" (.number (.fin 4))]) =
      [.pushNumber (.fin 3), .storeVar "x", .pushNumber (.fin 4), .storeVar "y"] ∧
    run_bytecode_with_functions FnTable.empty trivOps trivRand 0
      (compileD (.sequence [.assign "x" (.number (.fin 3)),
        .assign "y" (.number (.fin 4))])) = .error "No result on stack" := by
  have hcd : compileD (.sequence [.assign "x" (.number (.fin 3)),
      .assign "y" (.number (.fin 4))]) =
      [.pushNumber (.fin 3), .storeVar "x", .pushNumber (.fin 4), .storeVar "y"] := by
    simp [compileD, compile, compileSeq, Expr.isAssign]
  refine ⟨⟨(Env.empty.insert "x" (.fin 3)).insert "y" (.fin 4), 0, ?_⟩, hcd, ?_⟩
  · simp only [evalExpr_sequence, evalSeq_cons, evalSeq_nil, evalExpr_assign,
      evalExpr_number]
  · have hlf : loopFreeProg [Bytecode.pushNumber (.fin 3), .storeVar "x",
        .pushNumber (.fin 4), .storeVar "y"] = true := by decide
    rw [hcd]
    simp only [run_bytecode_with_functions,
      runTop_eq_runInner FnTable.empty trivOps trivRand 0 _ hlf [] Env.empty 0,
      runInner_cons, execInstr_pushNumber, execInstr_storeVar, runInner_nil]

set_option maxHeartbeats 1600000 in
/-- Claim C4, amended: the claim fails when the final element is an
assignment (`C4_counterexample_final_assignment`: the VM errors with
`No result on stack` although the evaluator has the last element's
value). For every compiled sequence of two or more statements whose
final element is a value expression (`seqV`: numbers, identifiers,
arithmetic, the unary special functions, `rand`, two-argument
`randint`/`log`, user-function calls, loops and nested sequences;
earlier elements may additionally be assignments), running the compiled
program either fails or pushes exactly the last element's value on the
incoming stack — earlier elements' discarded values never remain, and
the result value, final environment and counter are those of running
the last element's own code from the intermediate state. The
two-statement program `var x = 3` then `x + 2` compiles and executes
to `5`. -/
theorem C4_sequence_last_value_only
    (fns : FnTable) (ops : FloatOps) (R : RandSrc) (d : ℕ)
    (e1 e2 : Expr) (rest : List Expr) (p : Program)
    (hsv : seqV (e1 :: e2 :: rest) = true)
    (hc : compile (.sequence (e1 :: e2 :: rest)) = some p)
    (s : Stack) (env : Env) (c : ℕ) :
    ((∃ m, runTop fns ops R d p s env c = .error m) ∨
     (∃ v env2 c2, runTop fns ops R d p s env c = .ok (v :: s, env2, c2) ∧
       ∃ elast pl envl cl, (e1 :: e2 :: rest).getLast? = some elast ∧
         compile elast = some pl ∧
         runTop fns ops R d pl s envl cl = .ok (v :: s, env2, c2))) ∧
    run_bytecode_with_functions fns ops R d
      (compileD (.sequence [.assign "x" (.number (.fin 3)),
        .binaryOp (.ident "x") .plus (.number (.fin 2))])) = .ok (.fin 5) := by
  constructor
  · rw [compile_sequence] at hc
    exact seqVStack fns ops R d (e1 :: e2 :: rest) hsv p hc s env c
  · have hcd : compileD (.sequence [.assign "x" (.number (.fin 3)),
        .binaryOp (.ident "x") .plus (.number (.fin 2))]) =
        [.pushNumber (.fin 3), .storeVar "x", .loadVar "x", .pushNumber (.fin 2), .add] := by
      simp [compileD, compile, compileSeq, Expr.isAssign]
    have hlf : loopFreeProg [Bytecode.pushNumber (.fin 3), .storeVar "x", .loadVar "x",
        .pushNumber (.fin 2), .add] = true := by decide
    rw [hcd]
    simp only [run_bytecode_with_functions,
      runTop_eq_runInner fns ops R d _ hlf [] Env.empty 0,
      runInner_cons, execInstr_pushNumber, execInstr_storeVar,
      execInstr_loadVar_found fns ops R d "x" (.fin 3) []
        (Env.empty.insert "x" (.fin 3)) 0 (Env.insert_same Env.empty "x" (.fin 3)),
      execInstr_add, runInner_nil]
    norm_num [FVal.fadd]

/-- Witness for C4 at the sequence `x = 3; x + 2`. -/
theorem C4_sequence_last_value_only_witness :
    run_bytecode_with_functions FnTable.empty trivOps trivRand 0
      (compileD (.sequence [.assign "x" (.number (.fin 3)),
        .binaryOp (.ident "x") .plus (.number (.fin 2))])) = .ok (.fin 5) :=
  (C4_sequence_last_value_only FnTable.empty trivOps trivRand 0
    (.assign "x" (.number (.fin 3))) (.binaryOp (.ident "x") .plus (.number (.fin 2))) []
    [.pushNumber (.fin 3), .storeVar "x", .loadVar "x", .pushNumber (.fin 2), .add]
    (by simp [seqV, stmtV, vexpr])
    (by simp [compile_sequence, compileSeq_cons, compileSeq_single, compile_assign,
      compile_number, compile_binaryOp, compile_ident, Expr.isAssign])
    [] Env.empty 0).2


/-! ## Claim C9 -/

/-- Claim C9: a compiled sequence whose non-final element `e1` is not an
assignment separates that element's code from the rest with
`StoreVar "_tmp"`; executing the compiled program writes the element's
discarded value into the environment under the real name `_tmp`,
overwriting any previous binding of `_tmp`, and `_tmp` is still bound
after the remaining statements run. The elements are arbitrary
(user-function calls, loops, `rand`, further assignments, ...). The
side condition `paramFreeProg "_tmp" pr` holds for every program
compiled from parsed source: a lexed identifier cannot begin with `_`,
so no loop parameter is ever named `_tmp`, and a top-level loop's
parameter removal is the only instruction that unbinds a key. -/
theorem C9_tmp_scratch_observable
    (fns : FnTable) (ops : FloatOps) (R : RandSrc) (d : ℕ)
    (e1 e2 : Expr) (rest : List Expr) (pe1 pr : Program)
    (he1 : e1.isAssign = false)
    (hce : compile e1 = some pe1)
    (hcr : compileSeq (e2 :: rest) = some pr)
    (hpf : paramFreeProg "_tmp" pr = true) :
    compileSeq (e1 :: e2 :: rest) = some (pe1 ++ [.storeVar "_tmp"] ++ pr) ∧
    (∀ (s s1 : Stack) (vv vv1 : Env) (c c1 : ℕ) (v1 : FVal),
      runTop fns ops R d pe1 s vv c = .ok (v1 :: s1, vv1, c1) →
      runTop fns ops R d (pe1 ++ [.storeVar "_tmp"]) s vv c =
          .ok (s1, vv1.insert "_tmp" v1, c1) ∧
        (vv1.insert "_tmp" v1) "_tmp" = some v1) ∧
    (∀ (s s2 : Stack) (vv vv2 : Env) (c c2 : ℕ),
      runTop fns ops R d (pe1 ++ [.storeVar "_tmp"] ++ pr) s vv c = .ok (s2, vv2, c2) →
      ∃ w, vv2 "_tmp" = some w) := by
  refine ⟨?_, ?_, ?_⟩
  · simp only [compileSeq_cons, hce, hcr, he1]
    simp
  · intro s s1 vv vv1 c c1 v1 hrun1
    have hst : runTop fns ops R d [.storeVar "_tmp"] (v1 :: s1) vv1 c1 =
        .ok (s1, vv1.insert "_tmp" v1, c1) := by
      rw [runTop_cons_nonloop fns ops R d (.storeVar "_tmp") (by decide) [] (v1 :: s1) vv1 c1]
      simp only [execInstr_storeVar, runTop_nil]
    refine ⟨?_, Env.insert_same _ _ _⟩
    rw [runTop_append, hrun1]
    simp only
    exact hst
  · intro s s2 vv vv2 c c2 hfull
    rw [runTop_append] at hfull
    cases h1 : runTop fns ops R d (pe1 ++ [.storeVar "_tmp"]) s vv c with
    | error m => rw [h1] at hfull; exact absurd hfull (by simp)
    | ok t =>
        rw [h1] at hfull
        obtain ⟨s1, env1, c1x⟩ := t
        simp only at hfull
        rw [runTop_append] at h1
        cases h0 : runTop fns ops R d pe1 s vv c with
        | error m => rw [h0] at h1; simp at h1
        | ok t0 =>
            rw [h0] at h1
            obtain ⟨s0, env0, c0⟩ := t0
            simp only at h1
            rw [runTop_cons_nonloop fns ops R d (.storeVar "_tmp") (by decide) [] s0 env0 c0]
              at h1
            cases s0 with
            | nil =>
                simp only [execInstr] at h1
                simp at h1
            | cons v0 s0 =>
                rw [execInstr_storeVar] at h1
                simp only [runTop_nil] at h1
                simp only [Except.ok.injEq, Prod.mk.injEq] at h1
                obtain ⟨hs1, henv1, hc1⟩ := h1
                exact runTop_keeps fns ops R d pr "_tmp" hpf s1 env1 c1x (s2, vv2, c2)
                  hfull v0 (by rw [← henv1]; exact Env.insert_same _ _ _)

/-- Witness for C9 at the sequence `3; 4`. -/
theorem C9_tmp_scratch_observable_witness :
    compileSeq [.number (.fin 3), .number (.fin 4)] =
      some ([.pushNumber (.fin 3)] ++ [.storeVar "_tmp"] ++ [.pushNumber (.fin 4)]) :=
  (C9_tmp_scratch_observable FnTable.empty trivOps trivRand 0
    (.number (.fin 3)) (.number (.fin 4)) [] [.pushNumber (.fin 3)] [.pushNumber (.fin 4)]
    (by simp [Expr.isAssign])
    (compile_number _)
    (by simp [compileSeq_single, compile_number])
    (by decide)).1



end FMath
